import Mathlib

/-!
# BlackBoard interface manager

Shallow embedding of `src/libs/blackboard/interface_manager.cpp`
(class `BlackBoardInterfaceManager`) and proofs about the interface
lifecycle: opening for reading and writing, closing, reference counts,
the writer flag and the writer registry.

Conventions of the embedding

* C strings are lists of characters (without the terminating NUL).
* `unsigned int` values are natural numbers, reduced modulo `2 ^ 32` where
  the source increments them (`instance_serial++`, `ih->serial + 1`).
* Pointers into the shared memory segment are natural numbers (addresses);
  a pointer that may be `NULL` is an `Option`.
* The two locks (`mutex`, the manager mutex, and the lock of the memory
  manager) are booleans, `true` meaning held.  A call that has to take a
  lock that is held never returns: its result is `Result.blocked`.
* Every public operation returns the result, the successor state and the
  sequence of lock operations it performed.
* The memory manager, the chunk header, the lock class and the interface
  module are not among the sources.  The allocator is an argument of the
  opens: the address of the new chunk and the bytes found in it, or the
  failure of the allocation.  Nothing is assumed about these bytes.
* The interfaces that callers hold open are kept next to the manager in
  `Sys`; they are not part of the manager.
-/

namespace Fawkes

/-- A C string: the characters before the terminating NUL. -/
abbrev CString := List Char

/-- The exceptions thrown by the interface manager. -/
inductive Exc where
  | BlackBoardInterfaceNotFoundException
  | BBNotMasterException
  | OutOfMemoryException
  | BlackBoardWriterActiveException
  | BlackBoardNoWritingInstanceException
  deriving DecidableEq, Repr

/-- The lock operations of the manager mutex and of the memory manager. -/
inductive LockEvent where
  | mutex_lock
  | mutex_unlock
  | memmgr_lock
  | memmgr_unlock
  deriving DecidableEq, Repr

/-- How a call of a public operation ends. -/
inductive Result (α : Type) where
  | ok (a : α)
  | raised (e : Exc)
  | blocked
  | undefined
  deriving DecidableEq, Repr

/-- The compile-time environment of the manager.  The two size constants
`__INTERFACE_TYPE_SIZE` and `__INTERFACE_ID_SIZE` come from
`interface/interface.h`, which is not among the sources, and are
parameters.  `symbols` are the symbol names exported by the interface
module `libinterfaces.so` that the constructor opens. -/
structure Env where
  __INTERFACE_TYPE_SIZE : Nat
  __INTERFACE_ID_SIZE : Nat
  symbols : List CString
  deriving DecidableEq, Repr

/-- Modelled from the spec: the header at the start of every chunk
(`interface_header_t`), whose declaring file `interface_mem_header.h` is
missing.  The fields are those the manager uses; `refcount` is an integer
that is at least zero and `flag_writer_active` a boolean. -/
structure interface_header_t where
  type : CString
  id : CString
  flag_writer_active : Bool
  refcount : Nat
  serial : Nat
  deriving DecidableEq, Repr

/-- A live chunk of the memory manager: its address and its header. -/
structure Chunk where
  ptr : Nat
  hdr : interface_header_t
  deriving DecidableEq, Repr

/-- The accessor object `Interface`, restricted to the members the
lifecycle depends on; `mem_data_ptr` (`mem_real_ptr` plus the size of the
header), the message queue and the two mediators are left out.  `rwlock`
points into the heap of lock objects. -/
structure Interface where
  instance_serial : Nat
  _type : CString
  _id : CString
  mem_real_ptr : Option Nat
  mem_serial : Nat
  write_access : Bool
  rwlock : Option Nat
  deriving DecidableEq, Repr

/-- A `std::map<unsigned int, T>` as an association list with distinct
keys. -/
abbrev StdMap (α : Type) := List (Nat × α)

/-- The member `find` of `std::map`; `none` stands for `end()`. -/
def map_find {α : Type} : StdMap α → Nat → Option α
  | [], _ => none
  | (k, v) :: rest, key => if k = key then some v else map_find rest key

/-- The member `erase(key)` of `std::map`. -/
def map_erase {α : Type} (m : StdMap α) (key : Nat) : StdMap α :=
  m.filter (fun e => decide (e.1 ≠ key))

/-- The assignment `m[key] = v`. -/
def map_assign {α : Type} (m : StdMap α) (key : Nat) (v : α) : StdMap α :=
  (key, v) :: map_erase m key

/-- The read access `m[key]` of a map of pointers: a missing key is
inserted with a `NULL` value, which is returned. -/
def map_index {α : Type} (m : StdMap (Option α)) (key : Nat) :
    Option α × StdMap (Option α) :=
  match map_find m key with
  | some v => (v, m)
  | none => (none, (key, none) :: m)

/-- The state of a `BlackBoardInterfaceManager`.

* `chunks` are the live chunks of `memmgr` in the order of its
  `ChunkIterator`.
* `lock_heap` holds the reference count of every `RefCountRWLock` object
  created so far; a pointer to a lock is its index.
* `mutex` and `memmgr_locked` tell whether the two locks are held. -/
structure Manager where
  bb_master : Bool
  instance_serial : Nat
  mutex : Bool
  memmgr_locked : Bool
  chunks : List Chunk
  writer_interfaces : StdMap (Option Interface)
  rwlocks : StdMap (Option Nat)
  lock_heap : List Nat
  deriving DecidableEq, Repr

/-- What a public operation yields: result, successor state and the lock
operations performed, in order. -/
structure Outcome (α : Type) where
  result : Result α
  mgr : Manager
  events : List LockEvent
  deriving DecidableEq, Repr

/-- The constructor `BlackBoardInterfaceManager(bool bb_master)`: the
instance serial starts at 1, both maps are empty and, for a master, the
memory manager starts without chunks. -/
def Manager.init (bb_master : Bool) : Manager where
  bb_master := bb_master
  instance_serial := 1
  mutex := false
  memmgr_locked := false
  chunks := []
  writer_interfaces := []
  rwlocks := []
  lock_heap := []

/-- `strncpy(dst, src, n)` read back as a string: the first `n` characters. -/
def strncpy (src : CString) (n : Nat) : CString := src.take n

/-- `strncmp(a, b, n) == 0`: the first `n` characters agree. -/
def strncmp_eq (a b : CString) (n : Nat) : Bool := decide (a.take n = b.take n)

/-- `iface_module->hasSymbol(name)`. -/
def hasSymbol (env : Env) (name : CString) : Bool := decide (name ∈ env.symbols)

/-- `stripClassType`: `t.substr(t.find_first_not_of("0123456789"))`.
`find_first_not_of` yields `npos` when no character other than a digit
occurs (also for the empty string), and `substr(npos)` then throws
`std::out_of_range` because `substr(pos)` requires `pos <= size()`; `none`
stands for that exception. -/
def stripClassType (type : CString) : Option CString :=
  match type.dropWhile Char.isDigit with
  | [] => none
  | c :: rest => some (c :: rest)

/-- `getNextInstanceSerial`: `instance_serial++` on the master, an
exception otherwise. -/
def getNextInstanceSerial (m : Manager) : Except Exc Nat × Manager :=
  if m.bb_master then
    (.ok m.instance_serial,
      { m with instance_serial := (m.instance_serial + 1) % 2 ^ 32 })
  else
    (.error .BBNotMasterException, m)

/-- The object returned by the factory function `iff()` before the manager
fills it in. -/
def Interface.fresh : Interface where
  instance_serial := 0
  _type := []
  _id := []
  mem_real_ptr := none
  mem_serial := 0
  write_access := false
  rwlock := none

/-- `newInterfaceInstance(type, identifier)`. -/
def newInterfaceInstance (env : Env) (m : Manager) (type identifier : CString) :
    Except Exc Interface × Manager :=
  let generator_name := "new".toList ++ type
  if !hasSymbol env generator_name then
    (.error .BlackBoardInterfaceNotFoundException, m)
  else
    let iface := Interface.fresh
    match getNextInstanceSerial m with
    | (.error e, m1) => (.error e, m1)
    | (.ok serial, m1) =>
      (.ok { iface with
              instance_serial := serial
              _type := strncpy type env.__INTERFACE_TYPE_SIZE
              _id := strncpy identifier env.__INTERFACE_ID_SIZE }, m1)

/-- `deleteInterfaceInstance(interface)`: throws when the module has no
destroyer function for the type of the interface.  The destroyer function
itself belongs to the interface module, which is not among the sources; as
in the spec (the lock count is never decremented on close) it leaves the
manager and the lock objects as they are. -/
def deleteInterfaceInstance (env : Env) (interface : Interface) : Except Exc Unit :=
  let destroyer_name := "delete".toList ++ interface._type
  if !hasSymbol env destroyer_name then
    .error .BlackBoardInterfaceNotFoundException
  else
    .ok ()

/-- `findInterfaceInMemory(type, identifier)`: the first chunk in iteration
order whose header matches, `none` for `NULL`. -/
def findInterfaceInMemory (env : Env) (chunks : List Chunk) (type identifier : CString) :
    Option Chunk :=
  chunks.find? (fun c =>
    strncmp_eq c.hdr.type type env.__INTERFACE_TYPE_SIZE &&
    strncmp_eq c.hdr.id identifier env.__INTERFACE_ID_SIZE)

/-- The loop of `getNextMemSerial` over the headers that are still to be
visited, `serial` being the value of the local variable. -/
def getNextMemSerial_loop : List Chunk → Nat → Nat
  | [], serial => serial
  | c :: rest, serial =>
    if c.hdr.serial ≥ serial then
      getNextMemSerial_loop rest ((c.hdr.serial + 1) % 2 ^ 32)
    else
      getNextMemSerial_loop rest serial

/-- `getNextMemSerial`. -/
def getNextMemSerial (chunks : List Chunk) : Nat := getNextMemSerial_loop chunks 1

/-- Modelled from the spec: the memory manager (`memory_manager.h`) is
missing.  `alloc` makes a chunk live; the iterator over live chunks visits
them by ascending address, so the new chunk is entered before the first
chunk with a larger address. -/
def insert_chunk (c : Chunk) : List Chunk → List Chunk
  | [] => [c]
  | d :: rest => if c.ptr ≤ d.ptr then c :: d :: rest else d :: insert_chunk c rest

/-- Modelled from the spec: `free(ptr)` of the missing memory manager takes
the chunk at `ptr` out of the live chunks. -/
def free_chunk (chunks : List Chunk) (ptr : Nat) : List Chunk :=
  chunks.filter (fun c => decide (c.ptr ≠ ptr))

/-- A write through the header pointer `ih` of the chunk at `ptr`. -/
def update_header (chunks : List Chunk) (ptr : Nat)
    (f : interface_header_t → interface_header_t) : List Chunk :=
  chunks.map (fun c => if c.ptr = ptr then { c with hdr := f c.hdr } else c)

/-- A read through the header pointer of the chunk at `ptr`; `none` when no
live chunk starts there. -/
def header_at (chunks : List Chunk) (ptr : Nat) : Option interface_header_t :=
  (chunks.find? (fun c => decide (c.ptr = ptr))).map Chunk.hdr

/-- Modelled from the spec: `new RefCountRWLock()` of the missing
`refc_rwlock.h` creates a lock object held once; the result is the pointer
to it and the extended heap. -/
def new_RefCountRWLock (heap : List Nat) : Nat × List Nat :=
  (heap.length, heap ++ [1])

/-- Modelled from the spec: `lock->ref()` of the missing `refc_rwlock.h`
increments the holder count of the lock object. -/
def RefCountRWLock_ref (heap : List Nat) (lock : Nat) : List Nat :=
  heap.modify (fun n => n + 1) lock

/-- `createInterface(type, identifier, interface, ptr)`, called with both
locks held.  `mem` is what `memmgr->alloc_nolock` does: `none` when it
throws `OutOfMemoryException`, otherwise the new live chunk with its
address and the bytes found in it.  The result is the interface and the
address of the chunk. -/
def createInterface (env : Env) (m : Manager) (type identifier : CString)
    (mem : Option Chunk) : Outcome (Interface × Nat) :=
  match newInterfaceInstance env m type identifier with
  | (.error e, m1) => ⟨.raised e, m1, []⟩
  | (.ok interface, m1) =>
    match mem with
    | none =>
      ⟨.raised .OutOfMemoryException,
        { m1 with memmgr_locked := false, mutex := false },
        [.memmgr_unlock, .mutex_unlock]⟩
    | some raw =>
      let ptr := raw.ptr
      let chunks1 := insert_chunk raw m1.chunks
      let chunks2 := update_header chunks1 ptr (fun ih =>
        { ih with type := strncpy type env.__INTERFACE_TYPE_SIZE
                  id := strncpy identifier env.__INTERFACE_ID_SIZE })
      let chunks3 := update_header chunks2 ptr (fun ih => { ih with refcount := 0 })
      let serial := getNextMemSerial chunks3
      let chunks4 := update_header chunks3 ptr (fun ih => { ih with serial := serial })
      let lock := new_RefCountRWLock m1.lock_heap
      let m2 := { m1 with
        chunks := chunks4
        rwlocks := map_assign m1.rwlocks serial (some lock.1)
        lock_heap := lock.2 }
      ⟨.ok ({ interface with mem_real_ptr := some ptr }, ptr), m2, []⟩

/-- The common end of `openForReading` and `openForWriting` once the
interface is bound to the chunk at `ptr` with header serial `serial`:
the members of the interface are set, the reference count of the chunk is
incremented (and the writer flag set for a writer) and both locks are
released. -/
def finish_open (m : Manager) (iface : Interface) (ptr serial : Nat) (write : Bool) :
    Interface × Manager :=
  let idx := map_index m.rwlocks serial
  let iface1 := { iface with write_access := write, rwlock := idx.1, mem_serial := serial }
  let chunks1 := if write then
      update_header m.chunks ptr (fun ih => { ih with flag_writer_active := true })
    else m.chunks
  let chunks2 := update_header chunks1 ptr (fun ih => { ih with refcount := ih.refcount + 1 })
  (iface1, { m with rwlocks := idx.2, chunks := chunks2, memmgr_locked := false, mutex := false })

/-- The statement `rwlocks[ih->serial]->ref()` of the found branch; `none`
when the map has no lock for the serial, so that a `NULL` pointer is
dereferenced. -/
def ref_rwlock (m : Manager) (serial : Nat) : Option Manager :=
  match map_index m.rwlocks serial with
  | (some lock, rwlocks1) =>
    some { m with rwlocks := rwlocks1, lock_heap := RefCountRWLock_ref m.lock_heap lock }
  | (none, _) => none

/-- `openForReading(type, identifier)`. -/
def openForReading (env : Env) (m : Manager) (type identifier : CString)
    (mem : Option Chunk) : Outcome Interface :=
  if m.mutex then ⟨.blocked, m, []⟩ else
  let m1 := { m with mutex := true }
  if m1.memmgr_locked then ⟨.blocked, m1, [.mutex_lock]⟩ else
  let m2 := { m1 with memmgr_locked := true }
  match findInterfaceInMemory env m2.chunks type identifier with
  | some c =>
    match newInterfaceInstance env m2 type identifier with
    | (.error e, m3) => ⟨.raised e, m3, [.mutex_lock, .memmgr_lock]⟩
    | (.ok iface, m3) =>
      let iface1 := { iface with mem_real_ptr := some c.ptr }
      match ref_rwlock m3 c.hdr.serial with
      | none => ⟨.undefined, m3, [.mutex_lock, .memmgr_lock]⟩
      | some m4 =>
        let r := finish_open m4 iface1 c.ptr c.hdr.serial false
        ⟨.ok r.1, r.2, [.mutex_lock, .memmgr_lock, .memmgr_unlock, .mutex_unlock]⟩
  | none =>
    let o := createInterface env m2 type identifier mem
    match o.result with
    | .ok (iface, ptr) =>
      match header_at o.mgr.chunks ptr with
      | none => ⟨.undefined, o.mgr, [.mutex_lock, .memmgr_lock]⟩
      | some ih =>
        let r := finish_open o.mgr iface ptr ih.serial false
        ⟨.ok r.1, r.2, [.mutex_lock, .memmgr_lock, .memmgr_unlock, .mutex_unlock]⟩
    | .raised e => ⟨.raised e, o.mgr, [.mutex_lock, .memmgr_lock] ++ o.events⟩
    | .blocked => ⟨.blocked, o.mgr, [.mutex_lock, .memmgr_lock] ++ o.events⟩
    | .undefined => ⟨.undefined, o.mgr, [.mutex_lock, .memmgr_lock] ++ o.events⟩

/-- `openForWriting(type, identifier)`.  The registration in
`writer_interfaces` happens after both locks have been released. -/
def openForWriting (env : Env) (m : Manager) (type identifier : CString)
    (mem : Option Chunk) : Outcome Interface :=
  if m.mutex then ⟨.blocked, m, []⟩ else
  let m1 := { m with mutex := true }
  if m1.memmgr_locked then ⟨.blocked, m1, [.mutex_lock]⟩ else
  let m2 := { m1 with memmgr_locked := true }
  let register := fun (r : Interface × Manager) =>
    { r.2 with writer_interfaces := map_assign r.2.writer_interfaces r.1.mem_serial (some r.1) }
  match findInterfaceInMemory env m2.chunks type identifier with
  | some c =>
    if c.hdr.flag_writer_active then
      ⟨.raised .BlackBoardWriterActiveException,
        { m2 with memmgr_locked := false, mutex := false },
        [.mutex_lock, .memmgr_lock, .memmgr_unlock, .mutex_unlock]⟩
    else
    match newInterfaceInstance env m2 type identifier with
    | (.error e, m3) => ⟨.raised e, m3, [.mutex_lock, .memmgr_lock]⟩
    | (.ok iface, m3) =>
      let iface1 := { iface with mem_real_ptr := some c.ptr }
      match ref_rwlock m3 c.hdr.serial with
      | none => ⟨.undefined, m3, [.mutex_lock, .memmgr_lock]⟩
      | some m4 =>
        let r := finish_open m4 iface1 c.ptr c.hdr.serial true
        ⟨.ok r.1, register r, [.mutex_lock, .memmgr_lock, .memmgr_unlock, .mutex_unlock]⟩
  | none =>
    let o := createInterface env m2 type identifier mem
    match o.result with
    | .ok (iface, ptr) =>
      match header_at o.mgr.chunks ptr with
      | none => ⟨.undefined, o.mgr, [.mutex_lock, .memmgr_lock]⟩
      | some ih =>
        let r := finish_open o.mgr iface ptr ih.serial true
        ⟨.ok r.1, register r, [.mutex_lock, .memmgr_lock, .memmgr_unlock, .mutex_unlock]⟩
    | .raised e => ⟨.raised e, o.mgr, [.mutex_lock, .memmgr_lock] ++ o.events⟩
    | .blocked => ⟨.blocked, o.mgr, [.mutex_lock, .memmgr_lock] ++ o.events⟩
    | .undefined => ⟨.undefined, o.mgr, [.mutex_lock, .memmgr_lock] ++ o.events⟩

/-- `close(interface)`.  The header is reached through
`interface->mem_real_ptr`; the result is `undefined` when that pointer is
`NULL` or no live chunk starts there.  When `deleteInterfaceInstance`
throws, the final `mutex->unlock()` is not reached. -/
def close (env : Env) (m : Manager) (interface : Interface) : Outcome Unit :=
  if m.mutex then ⟨.blocked, m, []⟩ else
  let m1 := { m with mutex := true }
  match interface.mem_real_ptr with
  | none => ⟨.undefined, m1, [.mutex_lock]⟩
  | some ptr =>
    match header_at m1.chunks ptr with
    | none => ⟨.undefined, m1, [.mutex_lock]⟩
    | some ih =>
      let refcount := ih.refcount - 1
      let chunks1 := update_header m1.chunks ptr (fun ih => { ih with refcount := refcount })
      let m2 :=
        if refcount = 0 then
          { m1 with chunks := free_chunk chunks1 ptr }
        else if interface.write_access then
          { m1 with
            chunks := update_header chunks1 ptr (fun ih => { ih with flag_writer_active := false })
            writer_interfaces := map_erase m1.writer_interfaces interface.mem_serial }
        else
          { m1 with chunks := chunks1 }
      match deleteInterfaceInstance env interface with
      | .error e => ⟨.raised e, m2, [.mutex_lock]⟩
      | .ok _ => ⟨.ok (), { m2 with mutex := false }, [.mutex_lock, .mutex_unlock]⟩

/-- `getWriterForMemSerial(mem_serial)`.  The access
`writer_interfaces[mem_serial]` is the indexing operator of the map; a
`NULL` entry is returned as it is. -/
def getWriterForMemSerial (m : Manager) (mem_serial : Nat) :
    Result (Option Interface) × Manager :=
  if (map_find m.writer_interfaces mem_serial).isSome then
    let idx := map_index m.writer_interfaces mem_serial
    (.ok idx.1, { m with writer_interfaces := idx.2 })
  else
    (.raised .BlackBoardNoWritingInstanceException, m)

/-- `existsWriter(interface)`. -/
def existsWriter (m : Manager) (interface : Interface) : Bool :=
  (map_find m.writer_interfaces interface.mem_serial).isSome

/-! ## Sequences of calls -/

/-- A manager together with the interfaces its callers currently hold open:
those returned by an open and not yet passed to `close`. -/
structure Sys where
  mgr : Manager
  handles : List Interface
  deriving DecidableEq, Repr

/-- A call of one of the three lifecycle operations.  For the opens, `mem`
is the behaviour of `alloc_nolock` should the call reach it. -/
inductive Call where
  | openForReading (type identifier : CString) (mem : Option Chunk)
  | openForWriting (type identifier : CString) (mem : Option Chunk)
  | close (interface : Interface)
  deriving DecidableEq, Repr

/-- The manager just constructed, no interface open. -/
def Sys.init (bb_master : Bool) : Sys := ⟨Manager.init bb_master, []⟩

/-- The handles after an open: the returned interface is held open. -/
def handles_after_open (hs : List Interface) : Result Interface → List Interface
  | .ok h => h :: hs
  | _ => hs

/-- The handles after `close(h)`: unless the call is still waiting for the
mutex, `h` has been given back and is no longer open. -/
def handles_after_close (hs : List Interface) (h : Interface) : Result Unit → List Interface
  | .blocked => hs
  | _ => hs.erase h

/-- The effect of a call on manager and open handles. -/
def step (env : Env) (s : Sys) : Call → Sys
  | .openForReading type identifier mem =>
    let o := openForReading env s.mgr type identifier mem
    ⟨o.mgr, handles_after_open s.handles o.result⟩
  | .openForWriting type identifier mem =>
    let o := openForWriting env s.mgr type identifier mem
    ⟨o.mgr, handles_after_open s.handles o.result⟩
  | .close h =>
    let o := close env s.mgr h
    ⟨o.mgr, handles_after_close s.handles h o.result⟩

/-- What the allocator may do: the address of a new chunk is not the
address of a live chunk and its serial field holds a 32 bit value. -/
def alloc_ok (chunks : List Chunk) : Option Chunk → Bool
  | none => true
  | some raw => chunks.all (fun c => decide (c.ptr ≠ raw.ptr)) && decide (raw.hdr.serial < 2 ^ 32)

/-- The calls that can be made in a state: `close` is applied to an
interface that is currently open, and the allocator behaves. -/
def Call.valid (s : Sys) : Call → Bool
  | .openForReading _ _ mem => alloc_ok s.mgr.chunks mem
  | .openForWriting _ _ mem => alloc_ok s.mgr.chunks mem
  | .close h => decide (h ∈ s.handles)

/-- The state after a sequence of calls. -/
def run (env : Env) (s : Sys) : List Call → Sys
  | [] => s
  | c :: rest => run env (step env s c) rest

/-- Every call of the sequence can be made in the state in which it is
made. -/
def valid_run (env : Env) (s : Sys) : List Call → Bool
  | [] => true
  | c :: rest => c.valid s && valid_run env (step env s c) rest

/-- The open interfaces bound to the chunk at `ptr`. -/
def handles_at (hs : List Interface) (ptr : Nat) : List Interface :=
  hs.filter (fun h => decide (h.mem_real_ptr = some ptr))

/-- The open interfaces with write access bound to the chunk at `ptr`. -/
def writers_at (hs : List Interface) (ptr : Nat) : List Interface :=
  hs.filter (fun h => decide (h.mem_real_ptr = some ptr) && h.write_access)

/-- The comparison of `findInterfaceInMemory` applied to two headers. -/
def same_key (env : Env) (a b : interface_header_t) : Prop :=
  a.type.take env.__INTERFACE_TYPE_SIZE = b.type.take env.__INTERFACE_TYPE_SIZE ∧
  a.id.take env.__INTERFACE_ID_SIZE = b.id.take env.__INTERFACE_ID_SIZE

/-- The invariant of the reachable states. -/
structure Inv (env : Env) (s : Sys) : Prop where
  ptr_inj : ∀ a ∈ s.mgr.chunks, ∀ b ∈ s.mgr.chunks, a.ptr = b.ptr → a = b
  refcount_eq : ∀ c ∈ s.mgr.chunks, c.hdr.refcount = (handles_at s.handles c.ptr).length
  handle_live : ∀ h ∈ s.handles, ∃ c ∈ s.mgr.chunks, h.mem_real_ptr = some c.ptr
  writer_flag : ∀ c ∈ s.mgr.chunks, 0 < (writers_at s.handles c.ptr).length →
    c.hdr.flag_writer_active = true
  writer_unique : ∀ c ∈ s.mgr.chunks, (writers_at s.handles c.ptr).length ≤ 1
  key_inj : ∀ a ∈ s.mgr.chunks, ∀ b ∈ s.mgr.chunks, same_key env a.hdr b.hdr → a = b
  rwlock_present : ∀ c ∈ s.mgr.chunks, ∃ lock, map_find s.mgr.rwlocks c.hdr.serial = some (some lock)

/-- The four ways in which a call changes the live chunks, the lock table
and the open handles: not at all, by binding a new handle to a chunk that
was found, by creating a chunk, and by closing a handle. -/
inductive Shape (env : Env) (s : Sys) : Sys → Prop where
  | same (m1 : Manager) :
      m1.chunks = s.mgr.chunks → m1.rwlocks = s.mgr.rwlocks →
      m1.bb_master = s.mgr.bb_master →
      Shape env s ⟨m1, s.handles⟩
  | found (m1 : Manager) (c : Chunk) (h : Interface) :
      c ∈ s.mgr.chunks → h.mem_real_ptr = some c.ptr →
      (h.write_access = true → c.hdr.flag_writer_active = false) →
      m1.chunks = update_header s.mgr.chunks c.ptr (fun ih =>
        { ih with flag_writer_active := h.write_access || ih.flag_writer_active
                  refcount := ih.refcount + 1 }) →
      m1.rwlocks = s.mgr.rwlocks →
      m1.bb_master = s.mgr.bb_master →
      Shape env s ⟨m1, h :: s.handles⟩
  | created (m1 : Manager) (ptr : Nat) (nh : interface_header_t) (h : Interface) :
      (∀ c ∈ s.mgr.chunks, c.ptr ≠ ptr) →
      (∀ c ∈ s.mgr.chunks, ¬ same_key env c.hdr nh) →
      nh.refcount = 1 → (h.write_access = true → nh.flag_writer_active = true) →
      h.mem_real_ptr = some ptr →
      (∀ x, x ∈ m1.chunks ↔ x = ⟨ptr, nh⟩ ∨ x ∈ s.mgr.chunks) →
      (∀ k, map_find m1.rwlocks k =
        if nh.serial = k then some (some s.mgr.lock_heap.length) else map_find s.mgr.rwlocks k) →
      m1.bb_master = s.mgr.bb_master →
      Shape env s ⟨m1, h :: s.handles⟩
  | closed (m1 : Manager) (ptr : Nat) (ih : interface_header_t) (h : Interface) :
      h ∈ s.handles → h.mem_real_ptr = some ptr → header_at s.mgr.chunks ptr = some ih →
      m1.chunks =
        (if ih.refcount - 1 = 0 then free_chunk s.mgr.chunks ptr
         else update_header s.mgr.chunks ptr (fun x =>
          { x with refcount := ih.refcount - 1
                   flag_writer_active := !h.write_access && x.flag_writer_active })) →
      m1.rwlocks = s.mgr.rwlocks →
      m1.bb_master = s.mgr.bb_master →
      Shape env s ⟨m1, s.handles.erase h⟩

/-! ## Concrete scenarios -/

/-- An interface module that exports generator and destroyer of
`LaserInterface`, with type and identifier fields of 32 characters. -/
def laser_env : Env where
  __INTERFACE_TYPE_SIZE := 32
  __INTERFACE_ID_SIZE := 32
  symbols := ["newLaserInterface".toList, "deleteLaserInterface".toList]

/-- The type name `LaserInterface`. -/
def LaserInterface : CString := "LaserInterface".toList

/-- The identifier `Laser0`. -/
def Laser0 : CString := "Laser0".toList

/-- A chunk at address `ptr` whose memory is all zero. -/
def zero_chunk (ptr : Nat) : Chunk := ⟨ptr, ⟨[], [], false, 0, 0⟩⟩

/-- The block at address 100 as a closed writer of `LaserInterface` `Laser0`
leaves it when its chunk is freed: the header bytes still hold the writer
flag and serial 1. -/
def stale_chunk : Chunk := ⟨100, ⟨LaserInterface, Laser0, true, 0, 1⟩⟩

/-- The reader handle with instance serial `n` on the chunk at address 100
with serial 1. -/
def laser_reader (n : Nat) : Interface where
  instance_serial := n
  _type := LaserInterface
  _id := Laser0
  mem_real_ptr := some 100
  mem_serial := 1
  write_access := false
  rwlock := some 0

/-- The writer handle with instance serial `n` on the chunk at address 100
with serial 1. -/
def laser_writer (n : Nat) : Interface := { laser_reader n with write_access := true }

/-- A writer opens `LaserInterface` `Laser0` on a zeroed block at address
100 and closes it; then a reader opens the same interface and the allocator
hands out the freed block, whose bytes it does not clear. -/
def stale_flag_calls : List Call :=
  [.openForWriting LaserInterface Laser0 (some (zero_chunk 100)),
   .close (laser_writer 1),
   .openForReading LaserInterface Laser0 (some stale_chunk)]

/-- A writer opens `LaserInterface` `Laser0` and closes it again. -/
def writer_open_close_calls : List Call :=
  [.openForWriting LaserInterface Laser0 (some (zero_chunk 100)),
   .close (laser_writer 1)]

/-- The identifier `Laser1`. -/
def Laser1 : CString := "Laser1".toList

/-- A type name for which `laser_env` exports no generator. -/
def UnknownInterface : CString := "UnknownInterface".toList

/-- A type name of 33 characters. -/
def LongInterfaceA : CString := "NavigatorTargetPositionInterfaceA".toList

/-- A type name that differs from `LongInterfaceA` in the 33rd character
only. -/
def LongInterfaceB : CString := "NavigatorTargetPositionInterfaceB".toList

/-- An interface module that exports generator and destroyer of
`NavigatorTargetPositionInterfaceA` but nothing for
`NavigatorTargetPositionInterfaceB`. -/
def long_env : Env where
  __INTERFACE_TYPE_SIZE := 32
  __INTERFACE_ID_SIZE := 32
  symbols := ["new".toList ++ LongInterfaceA, "delete".toList ++ LongInterfaceA]

/-- A block at address `ptr` whose bytes are zero except for the serial
field, which holds `serial`. -/
def raw_chunk (ptr serial : Nat) : Chunk := ⟨ptr, ⟨[], [], false, 0, serial⟩⟩

/-- Three readers open `Laser0`, `Laser1` and `LaserInterface` (as
identifier) of type `LaserInterface`; the second block holds `2 ^ 32 - 2`
in its serial field, the other two are zeroed. -/
def serial_clash_calls : List Call :=
  [.openForReading LaserInterface Laser0 (some (zero_chunk 100)),
   .openForReading LaserInterface Laser1 (some (raw_chunk 200 4294967294)),
   .openForReading LaserInterface LaserInterface (some (zero_chunk 300))]

/-- A writer opens `Laser0`, closes it, and a reader opens `Laser0` again in
a zeroed block at another address. -/
def stale_registry_calls : List Call :=
  [.openForWriting LaserInterface Laser0 (some (zero_chunk 100)),
   .close (laser_writer 1),
   .openForReading LaserInterface Laser0 (some (zero_chunk 200))]

/-- A reader opens `Laser0` and closes it, then a reader opens `Laser1`. -/
def serial_reuse_calls : List Call :=
  [.openForReading LaserInterface Laser0 (some (zero_chunk 100)),
   .close (laser_reader 1),
   .openForReading LaserInterface Laser1 (some (zero_chunk 200))]

/-- Whether the call is an open. -/
def Call.is_open : Call → Bool
  | .openForReading _ _ _ => true
  | .openForWriting _ _ _ => true
  | .close _ => false

/-- The result of an open made in the state `s`; `none` for a `close`. -/
def open_result (env : Env) (s : Sys) : Call → Option (Result Interface)
  | .openForReading type identifier mem => some (openForReading env s.mgr type identifier mem).result
  | .openForWriting type identifier mem => some (openForWriting env s.mgr type identifier mem).result
  | .close _ => none

/-- The interfaces returned by the successful opens of a sequence of
calls, in the order of the calls. -/
def returned (env : Env) (s : Sys) : List Call → List Interface
  | [] => []
  | c :: rest =>
    match open_result env s c with
    | some (.ok h) => h :: returned env (step env s c) rest
    | _ => returned env (step env s c) rest

/-- The number of opens among the calls. -/
def count_opens (calls : List Call) : Nat := calls.countP Call.is_open

/-- Two manager states agree in everything but the two locks: live chunks
with their headers, writer registry, lock table with the lock objects,
instance serial counter and master flag. -/
def same_but_locks (a b : Manager) : Prop :=
  a.chunks = b.chunks ∧ a.writer_interfaces = b.writer_interfaces ∧ a.rwlocks = b.rwlocks ∧
  a.lock_heap = b.lock_heap ∧ a.instance_serial = b.instance_serial ∧ a.bb_master = b.bb_master

/-- The test of `openForWriting` that leads to
`BlackBoardWriterActiveException`: a chunk is found and its
`flag_writer_active` is set. -/
def writer_flag_found (env : Env) (m : Manager) (type identifier : CString) : Bool :=
  match findInterfaceInMemory env m.chunks type identifier with
  | some c => c.hdr.flag_writer_active
  | none => false

/-- An interface module that exports the generator of `LaserInterface` but
no destroyer. -/
def laser_new_only_env : Env where
  __INTERFACE_TYPE_SIZE := 32
  __INTERFACE_ID_SIZE := 32
  symbols := ["newLaserInterface".toList]

/-- Two readers open `LaserInterface` `Laser0`. -/
def two_readers_calls : List Call :=
  [.openForReading LaserInterface Laser0 (some (zero_chunk 100)),
   .openForReading LaserInterface Laser0 none]

/-- A reader opens `Laser0`; an open of `Laser1` fails for lack of memory;
the open of `Laser1` is repeated with room in the arena. -/
def out_of_memory_between_calls : List Call :=
  [.openForReading LaserInterface Laser0 (some (zero_chunk 100)),
   .openForReading LaserInterface Laser1 none,
   .openForReading LaserInterface Laser1 (some (zero_chunk 200))]

/-- The state of the two locks, mutex first, `true` meaning held. -/
abbrev LockState := Bool × Bool

/-- Replays a sequence of lock operations from a lock state and tells
whether each one respects the lock order: the mutex is taken when it is
free, the lock of the memory manager is taken only while the mutex is held,
it is released only when held, and the mutex is released only when it is
held and the lock of the memory manager is not. -/
def lock_order_ok : LockState → List LockEvent → Bool
  | _, [] => true
  | (mx, ar), .mutex_lock :: rest => !mx && lock_order_ok (true, ar) rest
  | (mx, ar), .memmgr_lock :: rest => mx && !ar && lock_order_ok (mx, true) rest
  | (mx, ar), .memmgr_unlock :: rest => ar && lock_order_ok (mx, false) rest
  | (mx, ar), .mutex_unlock :: rest => mx && !ar && lock_order_ok (false, ar) rest

/-- Whether an open ended on one of the paths that release both locks:
successful return, `BlackBoardWriterActiveException` or
`OutOfMemoryException`. -/
def releases_both : Result Interface → Bool
  | .ok _ => true
  | .raised .BlackBoardWriterActiveException => true
  | .raised .OutOfMemoryException => true
  | _ => false

/-- The lock operations of an open that releases both locks. -/
def full_lock_events : List LockEvent :=
  [.mutex_lock, .memmgr_lock, .memmgr_unlock, .mutex_unlock]

/-- The ways in which one call changes the list of live chunks: not at
all, by a write to the header at an address, by entering the block `mem`
of the allocator and writing to its header, and by freeing the chunk at an
address. -/
def chunks_step (old new : List Chunk) (mem : Option Chunk) : Prop :=
  new = old ∨ (∃ p f, new = update_header old p f) ∨
  (∃ raw f, mem = some raw ∧ new = update_header (insert_chunk raw old) raw.ptr f) ∨
  (∃ p, new = free_chunk old p)

/-! ## The node list of `NavGraphStaticListNodeConstraint`

`static_list_node_constraint.cpp`.  The class `TopologicalMapNode` is not
among the sources; the node type is a parameter and `name` its accessor
`name()`. -/

/-- The loop of `remove_node`.  `seen` are the elements in front of the
iterator `i`, the second list those from `i` on.  `erase(i)` moves the
elements behind `i` one place forward and `i` keeps its position, so the
following `++i` passes over the element that moved up; when the erased
element was the last one, `i` equals `end()` after the `erase` and `++i`
steps past the end, for which `none` stands. -/
def remove_node_loop {α : Type} (name : α → String) (node_name : String) :
    List α → List α → Option (List α)
  | seen, [] => some seen
  | seen, [x] => if name x = node_name then none else some (seen ++ [x])
  | seen, x :: y :: rest =>
    if name x = node_name then remove_node_loop name node_name (seen ++ [y]) rest
    else remove_node_loop name node_name (seen ++ [x]) (y :: rest)

/-- `NavGraphStaticListNodeConstraint::remove_node(node)`: the node list
afterwards, `none` when the iterator steps past the end. -/
def remove_node {α : Type} (name : α → String) (node_list : List α) (node : α) :
    Option (List α) :=
  if node_list.isEmpty then some node_list
  else remove_node_loop name (name node) [] node_list

/-! ## The beam subsampling of `AMCLLaser`

`amcl_laser.cpp`. -/

/-- Whether `UpdateSensor` runs the sensor model: it returns early when
`max_beams < 2`. -/
def UpdateSensor_runs (max_beams : Nat) : Bool := !decide (max_beams < 2)

/-- The step of `BeamModel` and `LikelihoodFieldModel`:
`(data->range_count - 1) / (self->max_beams - 1)`. -/
def beam_step (range_count max_beams : Nat) : Nat := (range_count - 1) / (max_beams - 1)

/-- The loop `for (i = 0; i < data->range_count; i += step)` from the value
`i` on, with at most `fuel` tests of its condition: the number of times the
body was entered when the loop has ended, `none` when it is still
running. -/
def beam_loop (range_count step : Nat) : Nat → Nat → Option Nat
  | 0, _ => none
  | fuel + 1, i =>
    if i < range_count then (beam_loop range_count step fuel (i + step)).map (fun n => n + 1)
    else some 0

/-- A reader and then a writer open `LaserInterface` `Laser0`. -/
def reader_writer_calls : List Call :=
  [.openForReading LaserInterface Laser0 (some (zero_chunk 100)),
   .openForWriting LaserInterface Laser0 none]

/-- The identifier `Nav0`. -/
def Nav0 : CString := "Nav0".toList

/-- A reader and then a writer open `NavigatorTargetPositionInterfaceA`
`Nav0`. -/
def long_reader_writer_calls : List Call :=
  [.openForReading LongInterfaceA Nav0 (some (zero_chunk 100)),
   .openForWriting LongInterfaceA Nav0 none]

/-- The writer handle that `long_reader_writer_calls` returns: its `_type`
holds the first 32 characters of the type name. -/
def long_writer : Interface where
  instance_serial := 2
  _type := strncpy LongInterfaceA 32
  _id := strncpy Nav0 32
  mem_real_ptr := some 100
  mem_serial := 1
  write_access := true
  rwlock := some 0

/-- `n` times `openForReading` of `LaserInterface` `Laser0` while the arena
has no room. -/
def out_of_memory_calls (n : Nat) : List Call :=
  List.replicate n (.openForReading LaserInterface Laser0 none)

/-! ## Lemmas on the chunk list and the maps -/

theorem mem_insert_chunk (c x : Chunk) (l : List Chunk) :
    x ∈ insert_chunk c l ↔ x = c ∨ x ∈ l := by
  induction l with
  | nil => simp [insert_chunk]
  | cons d rest ih =>
    unfold insert_chunk
    split
    · simp
    · simp only [List.mem_cons, ih]
      tauto

theorem mem_free_chunk (x : Chunk) (l : List Chunk) (p : Nat) :
    x ∈ free_chunk l p ↔ x ∈ l ∧ x.ptr ≠ p := by
  simp [free_chunk]

theorem mem_update_header (x : Chunk) (l : List Chunk) (p : Nat)
    (f : interface_header_t → interface_header_t) :
    x ∈ update_header l p f ↔
      ∃ c ∈ l, x = if c.ptr = p then { c with hdr := f c.hdr } else c := by
  simp [update_header, eq_comm]

theorem update_header_comp (l : List Chunk) (p : Nat)
    (f g : interface_header_t → interface_header_t) :
    update_header (update_header l p f) p g = update_header l p (fun h => g (f h)) := by
  simp only [update_header, List.map_map]
  apply List.map_congr_left
  intro c _
  by_cases h : c.ptr = p <;> simp [h]

theorem header_at_eq_some_of_mem (l : List Chunk) (c : Chunk) (hc : c ∈ l)
    (hinj : ∀ a ∈ l, ∀ b ∈ l, a.ptr = b.ptr → a = b) :
    header_at l c.ptr = some c.hdr := by
  unfold header_at
  cases hf : l.find? (fun d => decide (d.ptr = c.ptr)) with
  | none =>
    have := List.find?_eq_none.mp hf c hc
    simp at this
  | some d =>
    have h1 := List.find?_some hf
    have h2 := List.mem_of_find?_eq_some hf
    simp only [decide_eq_true_eq] at h1
    rw [hinj d h2 c hc h1]
    rfl

theorem header_at_some_mem (l : List Chunk) (p : Nat) (ih : interface_header_t)
    (h : header_at l p = some ih) : (⟨p, ih⟩ : Chunk) ∈ l := by
  unfold header_at at h
  cases hf : l.find? (fun d => decide (d.ptr = p)) with
  | none => simp [hf] at h
  | some d =>
    have h1 := List.find?_some hf
    have h2 := List.mem_of_find?_eq_some hf
    simp only [decide_eq_true_eq] at h1
    simp only [hf, Option.map_some', Option.some.injEq] at h
    have : d = ⟨p, ih⟩ := by cases d; simp_all
    rw [← this]; exact h2

theorem map_find_erase {α : Type} (m : StdMap α) (k k2 : Nat) :
    map_find (map_erase m k) k2 = if k = k2 then none else map_find m k2 := by
  induction m with
  | nil => simp [map_erase, map_find]
  | cons e rest ih =>
    obtain ⟨a, b⟩ := e
    by_cases h : a = k
    · subst h
      have : map_erase ((a, b) :: rest) a = map_erase rest a := by simp [map_erase]
      rw [this, ih]
      by_cases h3 : a = k2 <;> simp [map_find, h3]
    · have : map_erase ((a, b) :: rest) k = (a, b) :: map_erase rest k := by
        simp [map_erase, h]
      rw [this]
      simp only [map_find, ih]
      by_cases h2 : a = k2
      · subst h2; simp [h, Ne.symm h]
      · simp [h2]

theorem map_find_assign {α : Type} (m : StdMap α) (k k2 : Nat) (v : α) :
    map_find (map_assign m k v) k2 = if k = k2 then some v else map_find m k2 := by
  unfold map_assign
  simp only [map_find, map_find_erase]
  by_cases h : k = k2 <;> simp [h]

theorem free_chunk_update_header (l : List Chunk) (p : Nat)
    (f : interface_header_t → interface_header_t) :
    free_chunk (update_header l p f) p = free_chunk l p := by
  induction l with
  | nil => rfl
  | cons c rest ih =>
    simp only [free_chunk, update_header, List.map_cons, ne_eq, decide_not] at ih ⊢
    by_cases h : c.ptr = p
    · simp [h, List.filter_cons, ih]
    · simp [h, List.filter_cons, ih]

theorem mem_update_header_fresh (raw : Chunk) (l : List Chunk)
    (f : interface_header_t → interface_header_t)
    (hfresh : ∀ c ∈ l, c.ptr ≠ raw.ptr) (x : Chunk) :
    x ∈ update_header (insert_chunk raw l) raw.ptr f ↔ x = ⟨raw.ptr, f raw.hdr⟩ ∨ x ∈ l := by
  rw [mem_update_header]
  constructor
  · rintro ⟨c, hc, rfl⟩
    rcases (mem_insert_chunk raw c l).mp hc with rfl | hc
    · simp
    · simp [hfresh c hc, hc]
  · rintro (rfl | hx)
    · exact ⟨raw, (mem_insert_chunk raw raw l).mpr (Or.inl rfl), by simp⟩
    · exact ⟨x, (mem_insert_chunk raw x l).mpr (Or.inr hx), by simp [hfresh x hx]⟩

theorem header_at_update_header_fresh (raw : Chunk) (l : List Chunk)
    (f : interface_header_t → interface_header_t)
    (hfresh : ∀ c ∈ l, c.ptr ≠ raw.ptr) :
    header_at (update_header (insert_chunk raw l) raw.ptr f) raw.ptr = some (f raw.hdr) := by
  have hmem : (⟨raw.ptr, f raw.hdr⟩ : Chunk) ∈ update_header (insert_chunk raw l) raw.ptr f :=
    (mem_update_header_fresh raw l f hfresh _).mpr (Or.inl rfl)
  unfold header_at
  cases hf : (update_header (insert_chunk raw l) raw.ptr f).find?
      (fun d => decide (d.ptr = raw.ptr)) with
  | none =>
    have := List.find?_eq_none.mp hf _ hmem
    simp at this
  | some d =>
    have h1 := List.find?_some hf
    have h2 := List.mem_of_find?_eq_some hf
    simp only [decide_eq_true_eq] at h1
    rcases (mem_update_header_fresh raw l f hfresh d).mp h2 with rfl | hd
    · rfl
    · exact absurd h1 (hfresh d hd)

theorem filter_erase_length (p : Interface → Bool) (l : List Interface) (a : Interface)
    (ha : a ∈ l) :
    ((l.erase a).filter p).length = if p a then (l.filter p).length - 1 else (l.filter p).length := by
  induction l with
  | nil => simp at ha
  | cons b rest ih =>
    by_cases hba : b = a
    · subst hba
      simp only [List.erase_cons_head, List.filter_cons]
      split <;> simp
    · have hmem : a ∈ rest := by
        rcases List.mem_cons.mp ha with h | h
        · exact absurd h.symm hba
        · exact h
      have hbeq : (b == a) = false := by simpa using hba
      rw [List.erase_cons_tail (by simpa using hba)]
      simp only [List.filter_cons]
      by_cases hpb : p b = true
      · simp only [hpb, ↓reduceIte, List.length_cons, ih hmem]
        split
        · rename_i hpa
          have : 0 < (rest.filter p).length :=
            List.length_pos_of_mem (List.mem_filter.mpr ⟨hmem, hpa⟩)
          omega
        · rfl
      · simp only [hpb, Bool.false_eq_true, ↓reduceIte, ih hmem]

theorem newInterfaceInstance_ok (env : Env) (m m1 : Manager) (t i : CString) (iface : Interface)
    (h : newInterfaceInstance env m t i = (.ok iface, m1)) :
    hasSymbol env ("new".toList ++ t) = true ∧ m.bb_master = true ∧
    iface = { Interface.fresh with
      instance_serial := m.instance_serial
      _type := strncpy t env.__INTERFACE_TYPE_SIZE
      _id := strncpy i env.__INTERFACE_ID_SIZE } ∧
    m1 = { m with instance_serial := (m.instance_serial + 1) % 2 ^ 32 } := by
  unfold newInterfaceInstance getNextInstanceSerial at h
  dsimp only at h
  generalize hasSymbol env ("new".toList ++ t) = b at h ⊢
  cases b <;> by_cases hm : m.bb_master = true <;> simp [hm] at h
  obtain ⟨h1, h2⟩ := h
  exact ⟨rfl, hm, h1.symm, by rw [← h2]; simp [hm]⟩

theorem newInterfaceInstance_error (env : Env) (m m1 : Manager) (t i : CString) (e : Exc)
    (h : newInterfaceInstance env m t i = (.error e, m1)) : m1 = m := by
  unfold newInterfaceInstance getNextInstanceSerial at h
  dsimp only at h
  generalize hasSymbol env ("new".toList ++ t) = b at h
  cases b <;> by_cases hm : m.bb_master = true <;> simp [hm] at h <;> exact h.2.symm

theorem findInterfaceInMemory_some (env : Env) (l : List Chunk) (t i : CString) (c : Chunk)
    (h : findInterfaceInMemory env l t i = some c) :
    c ∈ l ∧ c.hdr.type.take env.__INTERFACE_TYPE_SIZE = t.take env.__INTERFACE_TYPE_SIZE ∧
      c.hdr.id.take env.__INTERFACE_ID_SIZE = i.take env.__INTERFACE_ID_SIZE := by
  unfold findInterfaceInMemory at h
  have h1 := List.find?_some h
  have h2 := List.mem_of_find?_eq_some h
  simp only [strncmp_eq, Bool.and_eq_true, decide_eq_true_eq] at h1
  exact ⟨h2, h1.1, h1.2⟩

theorem findInterfaceInMemory_none (env : Env) (l : List Chunk) (t i : CString)
    (h : findInterfaceInMemory env l t i = none) (c : Chunk) (hc : c ∈ l) :
    ¬ (c.hdr.type.take env.__INTERFACE_TYPE_SIZE = t.take env.__INTERFACE_TYPE_SIZE ∧
      c.hdr.id.take env.__INTERFACE_ID_SIZE = i.take env.__INTERFACE_ID_SIZE) := by
  unfold findInterfaceInMemory at h
  have h1 := List.find?_eq_none.mp h c hc
  simpa [strncmp_eq] using h1

theorem openForReading_shape (env : Env) (s : Sys) (t i : CString) (mem : Option Chunk)
    (hv : alloc_ok s.mgr.chunks mem = true) :
    Shape env s (step env s (.openForReading t i mem)) := by
  obtain ⟨m, hs⟩ := s
  simp only [step, openForReading]
  by_cases hmx : m.mutex = true
  · simp only [hmx, ↓reduceIte, handles_after_open]
    exact Shape.same _ rfl rfl rfl
  simp only [hmx, Bool.false_eq_true, ↓reduceIte]
  by_cases hml : m.memmgr_locked = true
  · simp only [hml, ↓reduceIte, handles_after_open]
    exact Shape.same _ rfl rfl rfl
  simp only [hml, Bool.false_eq_true, ↓reduceIte]
  cases hf : findInterfaceInMemory env m.chunks t i with
  | some c =>
    simp only []
    obtain ⟨hcm, hct, hci⟩ := findInterfaceInMemory_some env _ _ _ _ hf
    cases hn : newInterfaceInstance env
        { m with mutex := true, memmgr_locked := true } t i with
    | mk r m3 =>
      cases r with
      | error e =>
        have := newInterfaceInstance_error _ _ _ _ _ _ hn
        subst this
        simp only [handles_after_open]
        exact Shape.same _ rfl rfl rfl
      | ok iface =>
        obtain ⟨_, _, hif, hm3⟩ := newInterfaceInstance_ok _ _ _ _ _ _ hn
        subst hm3
        simp only []
        cases hr : map_find m.rwlocks c.hdr.serial with
        | none =>
          simp only [ref_rwlock, map_index, hr, handles_after_open]
          exact Shape.same _ rfl rfl rfl
        | some v =>
          cases v with
          | none =>
            simp only [ref_rwlock, map_index, hr, handles_after_open]
            exact Shape.same _ rfl rfl rfl
          | some lock =>
            simp only [ref_rwlock, map_index, hr, handles_after_open, finish_open]
            refine Shape.found _ c _ hcm rfl (by simp) ?_ rfl rfl
            simp
  | none =>
    simp only [createInterface]
    cases hn : newInterfaceInstance env
        { m with mutex := true, memmgr_locked := true } t i with
    | mk r m3 =>
      cases r with
      | error e =>
        have := newInterfaceInstance_error _ _ _ _ _ _ hn
        subst this
        simp only [handles_after_open]
        exact Shape.same _ rfl rfl rfl
      | ok iface =>
        obtain ⟨_, _, hif, hm3⟩ := newInterfaceInstance_ok _ _ _ _ _ _ hn
        subst hm3
        cases mem with
        | none =>
          simp only [handles_after_open]
          exact Shape.same _ rfl rfl rfl
        | some raw =>
          have hfresh : ∀ c ∈ m.chunks, c.ptr ≠ raw.ptr := by
            simp only [alloc_ok, Bool.and_eq_true, List.all_eq_true, decide_eq_true_eq] at hv
            exact hv.1
          simp only [update_header_comp, header_at_update_header_fresh raw m.chunks _ hfresh,
            new_RefCountRWLock, finish_open, map_index, map_find_assign, ↓reduceIte,
            handles_after_open]
          simp only [Bool.false_eq_true, ↓reduceIte, update_header_comp]
          refine Shape.created _ raw.ptr _ _ hfresh ?_ ?_ ?_ rfl
            (by dsimp only; exact mem_update_header_fresh raw m.chunks _ hfresh) ?_ rfl
          · intro c hc hk
            apply findInterfaceInMemory_none env _ _ _ hf c hc
            simpa [same_key, strncpy, List.take_take] using hk
          · rfl
          · simp
          · intro k
            simp [map_find_assign]

theorem openForWriting_shape (env : Env) (s : Sys) (t i : CString) (mem : Option Chunk)
    (hv : alloc_ok s.mgr.chunks mem = true) :
    Shape env s (step env s (.openForWriting t i mem)) := by
  obtain ⟨m, hs⟩ := s
  simp only [step, openForWriting]
  by_cases hmx : m.mutex = true
  · simp only [hmx, ↓reduceIte, handles_after_open]
    exact Shape.same _ rfl rfl rfl
  simp only [hmx, Bool.false_eq_true, ↓reduceIte]
  by_cases hml : m.memmgr_locked = true
  · simp only [hml, ↓reduceIte, handles_after_open]
    exact Shape.same _ rfl rfl rfl
  simp only [hml, Bool.false_eq_true, ↓reduceIte]
  cases hf : findInterfaceInMemory env m.chunks t i with
  | some c =>
    simp only []
    obtain ⟨hcm, hct, hci⟩ := findInterfaceInMemory_some env _ _ _ _ hf
    by_cases hfl : c.hdr.flag_writer_active = true
    · simp only [hfl, ↓reduceIte, handles_after_open]
      exact Shape.same _ rfl rfl rfl
    simp only [hfl, Bool.false_eq_true, ↓reduceIte]
    cases hn : newInterfaceInstance env
        { m with mutex := true, memmgr_locked := true } t i with
    | mk r m3 =>
      cases r with
      | error e =>
        have := newInterfaceInstance_error _ _ _ _ _ _ hn
        subst this
        simp only [handles_after_open]
        exact Shape.same _ rfl rfl rfl
      | ok iface =>
        obtain ⟨_, _, hif, hm3⟩ := newInterfaceInstance_ok _ _ _ _ _ _ hn
        subst hm3
        simp only []
        cases hr : map_find m.rwlocks c.hdr.serial with
        | none =>
          simp only [ref_rwlock, map_index, hr, handles_after_open]
          exact Shape.same _ rfl rfl rfl
        | some v =>
          cases v with
          | none =>
            simp only [ref_rwlock, map_index, hr, handles_after_open]
            exact Shape.same _ rfl rfl rfl
          | some lock =>
            simp only [ref_rwlock, map_index, hr, handles_after_open, finish_open]
            refine Shape.found _ c _ hcm rfl (by simpa using hfl) ?_ rfl rfl
            simp [update_header_comp]
  | none =>
    simp only [createInterface]
    cases hn : newInterfaceInstance env
        { m with mutex := true, memmgr_locked := true } t i with
    | mk r m3 =>
      cases r with
      | error e =>
        have := newInterfaceInstance_error _ _ _ _ _ _ hn
        subst this
        simp only [handles_after_open]
        exact Shape.same _ rfl rfl rfl
      | ok iface =>
        obtain ⟨_, _, hif, hm3⟩ := newInterfaceInstance_ok _ _ _ _ _ _ hn
        subst hm3
        cases mem with
        | none =>
          simp only [handles_after_open]
          exact Shape.same _ rfl rfl rfl
        | some raw =>
          have hfresh : ∀ c ∈ m.chunks, c.ptr ≠ raw.ptr := by
            simp only [alloc_ok, Bool.and_eq_true, List.all_eq_true, decide_eq_true_eq] at hv
            exact hv.1
          simp only [update_header_comp, header_at_update_header_fresh raw m.chunks _ hfresh,
            new_RefCountRWLock, finish_open, map_index, map_find_assign, ↓reduceIte,
            handles_after_open]
          refine Shape.created _ raw.ptr _ _ hfresh ?_ ?_ ?_ rfl
            (by dsimp only; exact mem_update_header_fresh raw m.chunks _ hfresh) ?_ rfl
          · intro c hc hk
            apply findInterfaceInMemory_none env _ _ _ hf c hc
            simpa [same_key, strncpy, List.take_take] using hk
          · rfl
          · simp
          · intro k
            simp [map_find_assign]

theorem close_shape (env : Env) (s : Sys) (h : Interface) (hinv : Inv env s)
    (hv : h ∈ s.handles) :
    Shape env s (step env s (.close h)) := by
  obtain ⟨m, hs⟩ := s
  simp only [step, close]
  by_cases hmx : m.mutex = true
  · simp only [hmx, ↓reduceIte, handles_after_close]
    exact Shape.same _ rfl rfl rfl
  simp only [hmx, Bool.false_eq_true, ↓reduceIte]
  obtain ⟨c, hc, hp⟩ := hinv.handle_live h hv
  have hat : header_at m.chunks c.ptr = some c.hdr :=
    header_at_eq_some_of_mem m.chunks c hc hinv.ptr_inj
  simp only [hp, hat]
  cases hd : deleteInterfaceInstance env h <;>
    simp only [handles_after_close] <;>
    refine Shape.closed _ c.ptr c.hdr h hv hp hat ?_ ?_ ?_ <;>
    by_cases h0 : c.hdr.refcount - 1 = 0 <;>
    by_cases hw : h.write_access = true <;>
    simp [h0, hw, update_header_comp, free_chunk_update_header]

theorem handles_at_cons (h : Interface) (hs : List Interface) (p : Nat) :
    handles_at (h :: hs) p =
      if h.mem_real_ptr = some p then h :: handles_at hs p else handles_at hs p := by
  simp only [handles_at, List.filter_cons, decide_eq_true_eq]

theorem writers_at_cons (h : Interface) (hs : List Interface) (p : Nat) :
    writers_at (h :: hs) p =
      if h.mem_real_ptr = some p ∧ h.write_access = true then h :: writers_at hs p
      else writers_at hs p := by
  simp only [writers_at, List.filter_cons, Bool.and_eq_true, decide_eq_true_eq]

theorem handles_at_erase (h : Interface) (hs : List Interface) (p : Nat) (hh : h ∈ hs) :
    (handles_at (hs.erase h) p).length =
      if h.mem_real_ptr = some p then (handles_at hs p).length - 1
      else (handles_at hs p).length := by
  unfold handles_at
  rw [filter_erase_length _ hs h hh]
  simp only [decide_eq_true_eq]

theorem writers_at_erase (h : Interface) (hs : List Interface) (p : Nat) (hh : h ∈ hs) :
    (writers_at (hs.erase h) p).length =
      if h.mem_real_ptr = some p ∧ h.write_access = true then (writers_at hs p).length - 1
      else (writers_at hs p).length := by
  unfold writers_at
  rw [filter_erase_length _ hs h hh]
  simp only [Bool.and_eq_true, decide_eq_true_eq]

theorem writers_at_le_handles_at (hs : List Interface) (p : Nat) :
    (writers_at hs p).length ≤ (handles_at hs p).length := by
  induction hs with
  | nil => simp [writers_at, handles_at]
  | cons h rest ih =>
    rw [handles_at_cons, writers_at_cons]
    by_cases h1 : h.mem_real_ptr = some p <;> by_cases h2 : h.write_access = true <;>
      simp [h1, h2] <;> omega

theorem mem_handles_at (h : Interface) (hs : List Interface) (p : Nat) :
    h ∈ handles_at hs p ↔ h ∈ hs ∧ h.mem_real_ptr = some p := by
  simp [handles_at]

theorem mem_writers_at (h : Interface) (hs : List Interface) (p : Nat) :
    h ∈ writers_at hs p ↔ h ∈ hs ∧ h.mem_real_ptr = some p ∧ h.write_access = true := by
  simp [writers_at]

/-- No handle is bound to an address at which no chunk is live. -/
theorem handles_at_fresh {env : Env} {s : Sys} (hinv : Inv env s) (p : Nat)
    (hfresh : ∀ c ∈ s.mgr.chunks, c.ptr ≠ p) : handles_at s.handles p = [] := by
  rw [List.eq_nil_iff_forall_not_mem]
  intro h hh
  obtain ⟨h1, h2⟩ := (mem_handles_at h _ p).mp hh
  obtain ⟨c, hc, hp⟩ := hinv.handle_live h h1
  rw [hp] at h2
  exact hfresh c hc (Option.some.inj h2)

theorem Inv_init (env : Env) (b : Bool) : Inv env (Sys.init b) := by
  constructor <;> simp [Sys.init, Manager.init]

theorem Inv_same {env : Env} {s : Sys} (hinv : Inv env s) (m1 : Manager)
    (hc : m1.chunks = s.mgr.chunks) (hr : m1.rwlocks = s.mgr.rwlocks) :
    Inv env ⟨m1, s.handles⟩ := by
  obtain ⟨h1, h2, h3, h4, h5, h6, h7⟩ := hinv
  constructor <;> simp only [hc, hr] <;> assumption

theorem Inv_found {env : Env} {s : Sys} (hinv : Inv env s) (m1 : Manager) (c : Chunk)
    (h : Interface) (hc : c ∈ s.mgr.chunks) (hp : h.mem_real_ptr = some c.ptr)
    (hw : h.write_access = true → c.hdr.flag_writer_active = false)
    (hch : m1.chunks = update_header s.mgr.chunks c.ptr (fun ih =>
        { ih with flag_writer_active := h.write_access || ih.flag_writer_active
                  refcount := ih.refcount + 1 }))
    (hr : m1.rwlocks = s.mgr.rwlocks) :
    Inv env ⟨m1, h :: s.handles⟩ := by
  have hmem : ∀ x, x ∈ m1.chunks ↔ ∃ a ∈ s.mgr.chunks,
      x = if a.ptr = c.ptr then
        { a with hdr := { a.hdr with
            flag_writer_active := h.write_access || a.hdr.flag_writer_active
            refcount := a.hdr.refcount + 1 } }
      else a := by
    intro x
    rw [hch, mem_update_header]
  have hother : ∀ a : Chunk, a.ptr ≠ c.ptr → h.mem_real_ptr ≠ some a.ptr := by
    intro a ha h2
    rw [hp] at h2
    exact ha (Option.some.inj h2).symm
  constructor
  · intro x hx y hy hxy
    obtain ⟨a, ha, rfl⟩ := (hmem x).mp hx
    obtain ⟨b, hb, rfl⟩ := (hmem y).mp hy
    have hab : a.ptr = b.ptr := by
      by_cases h1 : a.ptr = c.ptr <;> by_cases h2 : b.ptr = c.ptr <;> simp_all
    rw [hinv.ptr_inj a ha b hb hab]
  · intro x hx
    obtain ⟨a, ha, rfl⟩ := (hmem x).mp hx
    by_cases h1 : a.ptr = c.ptr
    · have hac : a = c := hinv.ptr_inj a ha c hc h1
      subst hac
      simp only [↓reduceIte, handles_at_cons, hp, List.length_cons]
      rw [hinv.refcount_eq a ha]
    · simp only [h1, ↓reduceIte, handles_at_cons, hother a h1]
      exact hinv.refcount_eq a ha
  · intro h2 hh2
    rcases List.mem_cons.mp hh2 with rfl | hh2
    · exact ⟨_, (hmem _).mpr ⟨c, hc, rfl⟩, by simpa using hp⟩
    · obtain ⟨a, ha, hpa⟩ := hinv.handle_live h2 hh2
      refine ⟨_, (hmem _).mpr ⟨a, ha, rfl⟩, ?_⟩
      by_cases h1 : a.ptr = c.ptr <;> simp [h1, hpa]
  · intro x hx hpos
    obtain ⟨a, ha, rfl⟩ := (hmem x).mp hx
    by_cases h1 : a.ptr = c.ptr
    · have hac : a = c := hinv.ptr_inj a ha c hc h1
      subst hac
      simp only [↓reduceIte, writers_at_cons, hp, true_and] at hpos ⊢
      by_cases h3 : h.write_access = true
      · simp [h3]
      · simp only [h3, ↓reduceIte] at hpos
        simp [h3, hinv.writer_flag a ha hpos]
    · simp only [h1, ↓reduceIte, writers_at_cons, hother a h1, false_and] at hpos ⊢
      exact hinv.writer_flag a ha hpos
  · intro x hx
    obtain ⟨a, ha, rfl⟩ := (hmem x).mp hx
    by_cases h1 : a.ptr = c.ptr
    · have hac : a = c := hinv.ptr_inj a ha c hc h1
      subst hac
      simp only [↓reduceIte, writers_at_cons, hp, true_and]
      by_cases h3 : h.write_access = true
      · simp only [h3, ↓reduceIte, List.length_cons]
        have hfl := hw h3
        have : ¬ 0 < (writers_at s.handles a.ptr).length := by
          intro hpos
          have := hinv.writer_flag a ha hpos
          simp [hfl] at this
        omega
      · simp only [h3, ↓reduceIte]
        exact hinv.writer_unique a ha
    · simp only [h1, ↓reduceIte, writers_at_cons, hother a h1, false_and]
      exact hinv.writer_unique a ha
  · intro x hx y hy hxy
    obtain ⟨a, ha, rfl⟩ := (hmem x).mp hx
    obtain ⟨b, hb, rfl⟩ := (hmem y).mp hy
    have hab : same_key env a.hdr b.hdr := by
      by_cases h1 : a.ptr = c.ptr <;> by_cases h2 : b.ptr = c.ptr <;>
        simpa [same_key, h1, h2] using hxy
    rw [hinv.key_inj a ha b hb hab]
  · intro x hx
    obtain ⟨a, ha, rfl⟩ := (hmem x).mp hx
    obtain ⟨lock, hl⟩ := hinv.rwlock_present a ha
    refine ⟨lock, ?_⟩
    simp only [hr]
    by_cases h1 : a.ptr = c.ptr <;> simpa [h1] using hl

theorem Inv_created {env : Env} {s : Sys} (hinv : Inv env s) (m1 : Manager) (ptr : Nat)
    (nh : interface_header_t) (h : Interface)
    (hfresh : ∀ c ∈ s.mgr.chunks, c.ptr ≠ ptr)
    (hkey : ∀ c ∈ s.mgr.chunks, ¬ same_key env c.hdr nh)
    (hrc : nh.refcount = 1) (hw : h.write_access = true → nh.flag_writer_active = true)
    (hp : h.mem_real_ptr = some ptr)
    (hmem : ∀ x, x ∈ m1.chunks ↔ x = ⟨ptr, nh⟩ ∨ x ∈ s.mgr.chunks)
    (hlk : ∀ k, map_find m1.rwlocks k =
        if nh.serial = k then some (some s.mgr.lock_heap.length) else map_find s.mgr.rwlocks k) :
    Inv env ⟨m1, h :: s.handles⟩ := by
  have hnone : handles_at s.handles ptr = [] := handles_at_fresh hinv ptr hfresh
  have hwnone : writers_at s.handles ptr = [] := by
    have := writers_at_le_handles_at s.handles ptr
    rw [hnone] at this
    exact List.length_eq_zero.mp (by simpa using this)
  have hother : ∀ a ∈ s.mgr.chunks, h.mem_real_ptr ≠ some a.ptr := by
    intro a ha h2
    rw [hp] at h2
    exact hfresh a ha (Option.some.inj h2).symm
  constructor
  · intro x hx y hy hxy
    rcases (hmem x).mp hx with rfl | hx <;> rcases (hmem y).mp hy with rfl | hy
    · rfl
    · exact absurd hxy.symm (hfresh y hy)
    · exact absurd hxy (hfresh x hx)
    · exact hinv.ptr_inj x hx y hy hxy
  · intro x hx
    rcases (hmem x).mp hx with rfl | hx
    · simp [handles_at_cons, hp, hnone, hrc]
    · simp only [handles_at_cons, hother x hx, ↓reduceIte]
      exact hinv.refcount_eq x hx
  · intro h2 hh2
    rcases List.mem_cons.mp hh2 with rfl | hh2
    · exact ⟨_, (hmem _).mpr (Or.inl rfl), hp⟩
    · obtain ⟨a, ha, hpa⟩ := hinv.handle_live h2 hh2
      exact ⟨a, (hmem a).mpr (Or.inr ha), hpa⟩
  · intro x hx hpos
    rcases (hmem x).mp hx with rfl | hx
    · simp only [writers_at_cons, hp, true_and, hwnone] at hpos
      by_cases h3 : h.write_access = true
      · exact hw h3
      · simp [h3] at hpos
    · simp only [writers_at_cons, hother x hx, false_and, ↓reduceIte] at hpos
      exact hinv.writer_flag x hx hpos
  · intro x hx
    rcases (hmem x).mp hx with rfl | hx
    · simp only [writers_at_cons, hp, true_and, hwnone]
      split <;> simp
    · simp only [writers_at_cons, hother x hx, false_and, ↓reduceIte]
      exact hinv.writer_unique x hx
  · intro x hx y hy hxy
    rcases (hmem x).mp hx with rfl | hx <;> rcases (hmem y).mp hy with rfl | hy
    · rfl
    · exact absurd ⟨hxy.1.symm, hxy.2.symm⟩ (hkey y hy)
    · exact absurd hxy (hkey x hx)
    · exact hinv.key_inj x hx y hy hxy
  · intro x hx
    rw [hlk]
    rcases (hmem x).mp hx with rfl | hx
    · simp
    · obtain ⟨lock, hl⟩ := hinv.rwlock_present x hx
      by_cases h1 : nh.serial = x.hdr.serial
      · simp [h1]
      · simp [h1, hl]

theorem Inv_closed {env : Env} {s : Sys} (hinv : Inv env s) (m1 : Manager) (ptr : Nat)
    (ih : interface_header_t) (h : Interface)
    (hh : h ∈ s.handles) (hp : h.mem_real_ptr = some ptr)
    (hat : header_at s.mgr.chunks ptr = some ih)
    (hch : m1.chunks =
        (if ih.refcount - 1 = 0 then free_chunk s.mgr.chunks ptr
         else update_header s.mgr.chunks ptr (fun x =>
          { x with refcount := ih.refcount - 1
                   flag_writer_active := !h.write_access && x.flag_writer_active })))
    (hr : m1.rwlocks = s.mgr.rwlocks) :
    Inv env ⟨m1, s.handles.erase h⟩ := by
  have hcm : (⟨ptr, ih⟩ : Chunk) ∈ s.mgr.chunks := header_at_some_mem _ _ _ hat
  have hrc : ih.refcount = (handles_at s.handles ptr).length := hinv.refcount_eq _ hcm
  have hpos : 0 < (handles_at s.handles ptr).length :=
    List.length_pos_of_mem ((mem_handles_at h _ ptr).mpr ⟨hh, hp⟩)
  have hother : ∀ a : Chunk, a.ptr ≠ ptr → h.mem_real_ptr ≠ some a.ptr := by
    intro a ha h2
    rw [hp] at h2
    exact ha (Option.some.inj h2).symm
  have hsub : ∀ h2, h2 ∈ s.handles.erase h → h2 ∈ s.handles :=
    fun h2 hh2 => List.mem_of_mem_erase hh2
  by_cases h0 : ih.refcount - 1 = 0
  · simp only [h0, ↓reduceIte] at hch
    have hmem : ∀ x, x ∈ m1.chunks ↔ x ∈ s.mgr.chunks ∧ x.ptr ≠ ptr := by
      intro x
      rw [hch, mem_free_chunk]
    have hgone : (handles_at (s.handles.erase h) ptr).length = 0 := by
      rw [handles_at_erase h _ ptr hh]
      simp only [hp, ↓reduceIte]
      omega
    constructor
    · intro x hx y hy hxy
      exact hinv.ptr_inj x ((hmem x).mp hx).1 y ((hmem y).mp hy).1 hxy
    · intro x hx
      obtain ⟨hx1, hx2⟩ := (hmem x).mp hx
      simp only [handles_at_erase h _ x.ptr hh, hother x hx2, ↓reduceIte]
      exact hinv.refcount_eq x hx1
    · intro h2 hh2
      obtain ⟨a, ha, hpa⟩ := hinv.handle_live h2 (hsub h2 hh2)
      refine ⟨a, (hmem a).mpr ⟨ha, ?_⟩, hpa⟩
      intro hap
      have : h2 ∈ handles_at (s.handles.erase h) ptr :=
        (mem_handles_at h2 _ ptr).mpr ⟨hh2, by rw [hpa, hap]⟩
      have := List.length_pos_of_mem this
      omega
    · intro x hx hwp
      obtain ⟨hx1, hx2⟩ := (hmem x).mp hx
      simp only [writers_at_erase h _ x.ptr hh, hother x hx2, false_and, ↓reduceIte] at hwp
      exact hinv.writer_flag x hx1 hwp
    · intro x hx
      obtain ⟨hx1, hx2⟩ := (hmem x).mp hx
      simp only [writers_at_erase h _ x.ptr hh, hother x hx2, false_and, ↓reduceIte]
      exact hinv.writer_unique x hx1
    · intro x hx y hy hxy
      exact hinv.key_inj x ((hmem x).mp hx).1 y ((hmem y).mp hy).1 hxy
    · intro x hx
      simp only [hr]
      exact hinv.rwlock_present x ((hmem x).mp hx).1
  · simp only [h0, ↓reduceIte] at hch
    have hmem : ∀ x, x ∈ m1.chunks ↔ ∃ a ∈ s.mgr.chunks,
        x = if a.ptr = ptr then
          { a with hdr := { a.hdr with
              refcount := ih.refcount - 1
              flag_writer_active := !h.write_access && a.hdr.flag_writer_active } }
        else a := by
      intro x
      rw [hch, mem_update_header]
    constructor
    · intro x hx y hy hxy
      obtain ⟨a, ha, rfl⟩ := (hmem x).mp hx
      obtain ⟨b, hb, rfl⟩ := (hmem y).mp hy
      have hab : a.ptr = b.ptr := by
        by_cases h1 : a.ptr = ptr <;> by_cases h2 : b.ptr = ptr <;> simp_all
      rw [hinv.ptr_inj a ha b hb hab]
    · intro x hx
      obtain ⟨a, ha, rfl⟩ := (hmem x).mp hx
      by_cases h1 : a.ptr = ptr
      · simp only [h1, ↓reduceIte, handles_at_erase h _ ptr hh, hp]
        omega
      · simp only [h1, ↓reduceIte, handles_at_erase h _ a.ptr hh, hother a h1]
        exact hinv.refcount_eq a ha
    · intro h2 hh2
      obtain ⟨a, ha, hpa⟩ := hinv.handle_live h2 (hsub h2 hh2)
      refine ⟨_, (hmem _).mpr ⟨a, ha, rfl⟩, ?_⟩
      by_cases h1 : a.ptr = ptr <;> simp [h1, hpa]
    · intro x hx hwp
      obtain ⟨a, ha, rfl⟩ := (hmem x).mp hx
      by_cases h1 : a.ptr = ptr
      · simp only [h1, ↓reduceIte, writers_at_erase h _ ptr hh, hp, true_and] at hwp ⊢
        have huniq := hinv.writer_unique a ha
        rw [h1] at huniq
        by_cases h3 : h.write_access = true
        · simp only [h3, ↓reduceIte] at hwp
          omega
        · simp only [h3, ↓reduceIte] at hwp
          have := hinv.writer_flag a ha (by rw [h1]; exact hwp)
          simp [h3, this]
      · simp only [h1, ↓reduceIte, writers_at_erase h _ a.ptr hh, hother a h1, false_and] at hwp ⊢
        exact hinv.writer_flag a ha hwp
    · intro x hx
      obtain ⟨a, ha, rfl⟩ := (hmem x).mp hx
      have huniq := hinv.writer_unique a ha
      by_cases h1 : a.ptr = ptr
      · simp only [h1, ↓reduceIte, writers_at_erase h _ ptr hh]
        rw [h1] at huniq
        split <;> omega
      · simp only [h1, ↓reduceIte, writers_at_erase h _ a.ptr hh, hother a h1, false_and]
        exact huniq
    · intro x hx y hy hxy
      obtain ⟨a, ha, rfl⟩ := (hmem x).mp hx
      obtain ⟨b, hb, rfl⟩ := (hmem y).mp hy
      have hab : same_key env a.hdr b.hdr := by
        by_cases h1 : a.ptr = ptr <;> by_cases h2 : b.ptr = ptr <;>
          simpa [same_key, h1, h2] using hxy
      rw [hinv.key_inj a ha b hb hab]
    · intro x hx
      obtain ⟨a, ha, rfl⟩ := (hmem x).mp hx
      obtain ⟨lock, hl⟩ := hinv.rwlock_present a ha
      refine ⟨lock, ?_⟩
      simp only [hr]
      by_cases h1 : a.ptr = ptr <;> simpa [h1] using hl

theorem Inv_of_shape {env : Env} {s s1 : Sys} (hinv : Inv env s) (hsh : Shape env s s1) :
    Inv env s1 := by
  cases hsh with
  | same m1 hc hr _ => exact Inv_same hinv m1 hc hr
  | found m1 c h hc hp hw hch hr _ => exact Inv_found hinv m1 c h hc hp hw hch hr
  | created m1 ptr nh h hfresh hkey hrc hw hp hmem hlk _ =>
    exact Inv_created hinv m1 ptr nh h hfresh hkey hrc hw hp hmem hlk
  | closed m1 ptr ih h hh hp hat hch hr _ => exact Inv_closed hinv m1 ptr ih h hh hp hat hch hr

theorem master_of_shape {env : Env} {s s1 : Sys} (hsh : Shape env s s1) :
    s1.mgr.bb_master = s.mgr.bb_master := by
  cases hsh <;> assumption

theorem step_shape (env : Env) (s : Sys) (c : Call) (hinv : Inv env s)
    (hv : c.valid s = true) : Shape env s (step env s c) := by
  cases c with
  | openForReading t i mem => exact openForReading_shape env s t i mem hv
  | openForWriting t i mem => exact openForWriting_shape env s t i mem hv
  | close h => exact close_shape env s h hinv (by simpa [Call.valid] using hv)

theorem Inv_step (env : Env) (s : Sys) (c : Call) (hinv : Inv env s)
    (hv : c.valid s = true) : Inv env (step env s c) :=
  Inv_of_shape hinv (step_shape env s c hinv hv)

theorem Inv_run (env : Env) (calls : List Call) (s : Sys) (hinv : Inv env s)
    (hv : valid_run env s calls = true) :
    Inv env (run env s calls) ∧ (run env s calls).mgr.bb_master = s.mgr.bb_master := by
  induction calls generalizing s with
  | nil => exact ⟨hinv, rfl⟩
  | cons c rest ih =>
    simp only [valid_run, Bool.and_eq_true] at hv
    obtain ⟨h1, h2⟩ := ih (step env s c) (Inv_step env s c hinv hv.1) hv.2
    exact ⟨h1, h2.trans (master_of_shape (step_shape env s c hinv hv.1))⟩

theorem Inv_reachable (env : Env) (b : Bool) (calls : List Call)
    (hv : valid_run env (Sys.init b) calls = true) :
    Inv env (run env (Sys.init b) calls) :=
  (Inv_run env calls _ (Inv_init env b) hv).1

theorem master_reachable (env : Env) (b : Bool) (calls : List Call)
    (hv : valid_run env (Sys.init b) calls = true) :
    (run env (Sys.init b) calls).mgr.bb_master = b :=
  (Inv_run env calls _ (Inv_init env b) hv).2

/-- A successful `openForWriting` has registered the returned interface
under its mem serial. -/
theorem openForWriting_ok_registry (env : Env) (m : Manager) (t i : CString)
    (mem : Option Chunk) (w : Interface)
    (hok : (openForWriting env m t i mem).result = .ok w) :
    (openForWriting env m t i mem).mgr.writer_interfaces =
      map_assign m.writer_interfaces w.mem_serial (some w) := by
  revert hok
  simp only [openForWriting]
  by_cases hmx : m.mutex = true
  · simp [hmx]
  simp only [hmx, Bool.false_eq_true, ↓reduceIte]
  by_cases hml : m.memmgr_locked = true
  · simp [hml]
  simp only [hml, Bool.false_eq_true, ↓reduceIte]
  cases hf : findInterfaceInMemory env m.chunks t i with
  | some c =>
    simp only []
    by_cases hfl : c.hdr.flag_writer_active = true
    · simp [hfl]
    simp only [hfl, Bool.false_eq_true, ↓reduceIte]
    cases hn : newInterfaceInstance env
        { m with mutex := true, memmgr_locked := true } t i with
    | mk r m3 =>
      cases r with
      | error e => simp
      | ok iface =>
        obtain ⟨_, _, hif, hm3⟩ := newInterfaceInstance_ok _ _ _ _ _ _ hn
        subst hm3
        simp only []
        cases hr : map_find m.rwlocks c.hdr.serial with
        | none => simp [ref_rwlock, map_index, hr]
        | some v =>
          cases v with
          | none => simp [ref_rwlock, map_index, hr]
          | some lock =>
            simp only [ref_rwlock, map_index, hr, finish_open, Result.ok.injEq]
            rintro rfl
            rfl
  | none =>
    simp only [createInterface]
    cases hn : newInterfaceInstance env
        { m with mutex := true, memmgr_locked := true } t i with
    | mk r m3 =>
      cases r with
      | error e => simp
      | ok iface =>
        obtain ⟨_, _, hif, hm3⟩ := newInterfaceInstance_ok _ _ _ _ _ _ hn
        subst hm3
        cases mem with
        | none => simp
        | some raw =>
          simp only []
          cases hh : header_at (update_header (update_header (update_header
              (insert_chunk raw m.chunks) raw.ptr _) raw.ptr _) raw.ptr _) raw.ptr with
          | none => simp [hh]
          | some ih =>
            simp only [hh, finish_open, Result.ok.injEq]
            rintro rfl
            rfl

/-- The manager after `close(h)` when the mutex is free and `h` is bound to
the live chunk `c`. -/
theorem close_mgr (env : Env) (m : Manager) (h : Interface) (c : Chunk)
    (hmx : m.mutex = false) (hp : h.mem_real_ptr = some c.ptr)
    (hat : header_at m.chunks c.ptr = some c.hdr) :
    (close env m h).mgr =
      { m with
        mutex := (match deleteInterfaceInstance env h with
          | .ok _ => false
          | .error _ => true)
        chunks :=
          if c.hdr.refcount - 1 = 0 then free_chunk m.chunks c.ptr
          else update_header m.chunks c.ptr (fun x =>
            { x with refcount := c.hdr.refcount - 1
                     flag_writer_active := !h.write_access && x.flag_writer_active })
        writer_interfaces :=
          if c.hdr.refcount - 1 ≠ 0 ∧ h.write_access = true then
            map_erase m.writer_interfaces h.mem_serial
          else m.writer_interfaces } ∧
    ((close env m h).result = .ok () ↔ deleteInterfaceInstance env h = .ok ()) := by
  simp only [close, hmx, Bool.false_eq_true, ↓reduceIte, hp, hat]
  cases hd : deleteInterfaceInstance env h <;>
    by_cases h0 : c.hdr.refcount - 1 = 0 <;>
    by_cases hw : h.write_access = true <;>
    simp [h0, hw, update_header_comp, free_chunk_update_header]

theorem findInterfaceInMemory_free {env : Env} {s : Sys} (hinv : Inv env s) (t i : CString)
    (c : Chunk) (hf : findInterfaceInMemory env s.mgr.chunks t i = some c) :
    findInterfaceInMemory env (free_chunk s.mgr.chunks c.ptr) t i = none := by
  obtain ⟨hc, ht, hi⟩ := findInterfaceInMemory_some env _ _ _ _ hf
  unfold findInterfaceInMemory
  rw [List.find?_eq_none]
  intro d hd
  obtain ⟨hd1, hd2⟩ := (mem_free_chunk d _ _).mp hd
  simp only [strncmp_eq, Bool.and_eq_true, decide_eq_true_eq, not_and]
  intro hdt hdi
  have := hinv.key_inj d hd1 c hc ⟨hdt.trans ht.symm, hdi.trans hi.symm⟩
  exact absurd (by rw [this]) hd2

theorem findInterfaceInMemory_update (env : Env) (l : List Chunk) (t i : CString) (p : Nat)
    (f : interface_header_t → interface_header_t)
    (hft : ∀ x, (f x).type = x.type) (hfi : ∀ x, (f x).id = x.id) :
    findInterfaceInMemory env (update_header l p f) t i =
      (findInterfaceInMemory env l t i).map
        (fun c => if c.ptr = p then { c with hdr := f c.hdr } else c) := by
  induction l with
  | nil => rfl
  | cons d rest ih =>
    simp only [findInterfaceInMemory, update_header, List.map_cons, List.find?_cons] at ih ⊢
    by_cases hdp : d.ptr = p
    · simp only [hdp, ↓reduceIte, hft, hfi]
      split
      · simp [hdp]
      · exact ih
    · simp only [hdp, ↓reduceIte]
      split
      · simp [hdp]
      · exact ih

/-- The found branch of `openForWriting` when nothing stands in its way. -/
theorem openForWriting_found_ok (env : Env) (m : Manager) (t i : CString)
    (mem : Option Chunk) (c : Chunk) (lock : Nat)
    (hmx : m.mutex = false) (hml : m.memmgr_locked = false)
    (hf : findInterfaceInMemory env m.chunks t i = some c)
    (hfl : c.hdr.flag_writer_active = false)
    (hsym : hasSymbol env ("new".toList ++ t) = true) (hma : m.bb_master = true)
    (hlk : map_find m.rwlocks c.hdr.serial = some (some lock)) :
    ∃ w, (openForWriting env m t i mem).result = .ok w ∧ w.write_access = true ∧
      w.mem_real_ptr = some c.ptr ∧ w.mem_serial = c.hdr.serial := by
  simp only [openForWriting, hmx, hml, Bool.false_eq_true, ↓reduceIte, hf, hfl,
    newInterfaceInstance, getNextInstanceSerial, hsym, hma, Bool.not_true,
    ref_rwlock, map_index, hlk, finish_open]
  exact ⟨_, rfl, rfl, rfl, rfl⟩

/-- The creation branch of `openForReading`: a call that finds no chunk and
succeeds has taken the new chunk from the allocator. -/
theorem openForReading_created (env : Env) (m : Manager) (t i : CString)
    (mem : Option Chunk) (h : Interface)
    (hf : findInterfaceInMemory env m.chunks t i = none)
    (hv : alloc_ok m.chunks mem = true)
    (hok : (openForReading env m t i mem).result = .ok h) :
    ∃ raw, mem = some raw ∧ h.mem_real_ptr = some raw.ptr ∧
      ∃ c ∈ (openForReading env m t i mem).mgr.chunks, c.ptr = raw.ptr ∧
        c.hdr.type = strncpy t env.__INTERFACE_TYPE_SIZE ∧
        c.hdr.id = strncpy i env.__INTERFACE_ID_SIZE ∧ c.hdr.refcount = 1 := by
  revert hok
  simp only [openForReading]
  by_cases hmx : m.mutex = true
  · simp [hmx]
  simp only [hmx, Bool.false_eq_true, ↓reduceIte]
  by_cases hml : m.memmgr_locked = true
  · simp [hml]
  simp only [hml, Bool.false_eq_true, ↓reduceIte, hf, createInterface]
  cases hn : newInterfaceInstance env
      { m with mutex := true, memmgr_locked := true } t i with
  | mk r m3 =>
    cases r with
    | error e => simp
    | ok iface =>
      obtain ⟨_, _, hif, hm3⟩ := newInterfaceInstance_ok _ _ _ _ _ _ hn
      subst hm3
      cases mem with
      | none => simp
      | some raw =>
        have hfresh : ∀ c ∈ m.chunks, c.ptr ≠ raw.ptr := by
          simp only [alloc_ok, Bool.and_eq_true, List.all_eq_true, decide_eq_true_eq] at hv
          exact hv.1
        simp only [update_header_comp, header_at_update_header_fresh raw m.chunks _ hfresh,
          new_RefCountRWLock, finish_open, map_index, map_find_assign, ↓reduceIte,
          Bool.false_eq_true, Result.ok.injEq]
        rintro rfl
        refine ⟨raw, rfl, rfl, _,
          (mem_update_header_fresh raw m.chunks _ hfresh _).mpr (Or.inl rfl), rfl, rfl, rfl, rfl⟩

/-- The creation branch of `openForWriting`. -/
theorem openForWriting_created (env : Env) (m : Manager) (t i : CString)
    (mem : Option Chunk) (h : Interface)
    (hf : findInterfaceInMemory env m.chunks t i = none)
    (hv : alloc_ok m.chunks mem = true)
    (hok : (openForWriting env m t i mem).result = .ok h) :
    ∃ raw, mem = some raw ∧ h.mem_real_ptr = some raw.ptr ∧
      ∃ c ∈ (openForWriting env m t i mem).mgr.chunks, c.ptr = raw.ptr ∧
        c.hdr.type = strncpy t env.__INTERFACE_TYPE_SIZE ∧
        c.hdr.id = strncpy i env.__INTERFACE_ID_SIZE ∧ c.hdr.refcount = 1 := by
  revert hok
  simp only [openForWriting]
  by_cases hmx : m.mutex = true
  · simp [hmx]
  simp only [hmx, Bool.false_eq_true, ↓reduceIte]
  by_cases hml : m.memmgr_locked = true
  · simp [hml]
  simp only [hml, Bool.false_eq_true, ↓reduceIte, hf, createInterface]
  cases hn : newInterfaceInstance env
      { m with mutex := true, memmgr_locked := true } t i with
  | mk r m3 =>
    cases r with
    | error e => simp
    | ok iface =>
      obtain ⟨_, _, hif, hm3⟩ := newInterfaceInstance_ok _ _ _ _ _ _ hn
      subst hm3
      cases mem with
      | none => simp
      | some raw =>
        have hfresh : ∀ c ∈ m.chunks, c.ptr ≠ raw.ptr := by
          simp only [alloc_ok, Bool.and_eq_true, List.all_eq_true, decide_eq_true_eq] at hv
          exact hv.1
        simp only [update_header_comp, header_at_update_header_fresh raw m.chunks _ hfresh,
          new_RefCountRWLock, finish_open, map_index, map_find_assign, ↓reduceIte,
          Result.ok.injEq]
        rintro rfl
        refine ⟨raw, rfl, rfl, _,
          (mem_update_header_fresh raw m.chunks _ hfresh _).mpr (Or.inl rfl), rfl, rfl, rfl, rfl⟩

/-! ## The failing paths of the opens -/

/-- `newInterfaceInstance` without generator or on a manager that is not
the master: the exception, and the manager as it was. -/
theorem newInterfaceInstance_fail (env : Env) (m : Manager) (t i : CString)
    (h : hasSymbol env ("new".toList ++ t) = false ∨ m.bb_master = false) :
    newInterfaceInstance env m t i =
      (.error (if hasSymbol env ("new".toList ++ t) = true then .BBNotMasterException
        else .BlackBoardInterfaceNotFoundException), m) := by
  unfold newInterfaceInstance getNextInstanceSerial
  dsimp only
  generalize hasSymbol env ("new".toList ++ t) = b at h ⊢
  cases b <;> by_cases hm : m.bb_master = true <;> simp [hm] at h ⊢

/-- `openForReading` when `newInterfaceInstance` fails: the exception of
`newInterfaceInstance`, both locks taken and not released, nothing else
changed. -/
theorem openForReading_fail (env : Env) (m : Manager) (t i : CString) (mem : Option Chunk)
    (hmx : m.mutex = false) (hml : m.memmgr_locked = false)
    (h : hasSymbol env ("new".toList ++ t) = false ∨ m.bb_master = false) :
    openForReading env m t i mem =
      ⟨.raised (if hasSymbol env ("new".toList ++ t) = true then .BBNotMasterException
          else .BlackBoardInterfaceNotFoundException),
        { m with mutex := true, memmgr_locked := true },
        [.mutex_lock, .memmgr_lock]⟩ := by
  have hn := newInterfaceInstance_fail env { m with mutex := true, memmgr_locked := true } t i h
  simp only [openForReading, hmx, hml, Bool.false_eq_true, ↓reduceIte, createInterface, hn]
  cases findInterfaceInMemory env m.chunks t i <;> simp

/-- `openForWriting` when `newInterfaceInstance` fails and no chunk with the
writer flag set is found. -/
theorem openForWriting_fail (env : Env) (m : Manager) (t i : CString) (mem : Option Chunk)
    (hmx : m.mutex = false) (hml : m.memmgr_locked = false)
    (h : hasSymbol env ("new".toList ++ t) = false ∨ m.bb_master = false)
    (hfl : ∀ c, findInterfaceInMemory env m.chunks t i = some c →
      c.hdr.flag_writer_active = false) :
    openForWriting env m t i mem =
      ⟨.raised (if hasSymbol env ("new".toList ++ t) = true then .BBNotMasterException
          else .BlackBoardInterfaceNotFoundException),
        { m with mutex := true, memmgr_locked := true },
        [.mutex_lock, .memmgr_lock]⟩ := by
  have hn := newInterfaceInstance_fail env { m with mutex := true, memmgr_locked := true } t i h
  simp only [openForWriting, hmx, hml, Bool.false_eq_true, ↓reduceIte, createInterface, hn]
  cases hf : findInterfaceInMemory env m.chunks t i with
  | none => simp
  | some c => simp [hfl c hf]

/-- `openForWriting` when a chunk with the writer flag set is found, as an
equation for the whole outcome. -/
theorem openForWriting_flag_set (env : Env) (m : Manager) (t i : CString)
    (mem : Option Chunk) (c : Chunk)
    (hmx : m.mutex = false) (hml : m.memmgr_locked = false)
    (hf : findInterfaceInMemory env m.chunks t i = some c)
    (hfl : c.hdr.flag_writer_active = true) :
    openForWriting env m t i mem =
      ⟨.raised .BlackBoardWriterActiveException, m,
        [.mutex_lock, .memmgr_lock, .memmgr_unlock, .mutex_unlock]⟩ := by
  cases m with
  | mk master ser mx ml chunks wi rw heap =>
    simp only at hmx hml hf
    subst hmx hml
    simp [openForWriting, hf, hfl]

/-- The creation branch when the allocation fails. -/
theorem createInterface_out_of_memory (env : Env) (m : Manager) (t i : CString)
    (hsym : hasSymbol env ("new".toList ++ t) = true) (hma : m.bb_master = true) :
    createInterface env m t i none =
      ⟨.raised .OutOfMemoryException,
        { m with instance_serial := (m.instance_serial + 1) % 2 ^ 32
                 memmgr_locked := false, mutex := false },
        [.memmgr_unlock, .mutex_unlock]⟩ := by
  simp only [createInterface, newInterfaceInstance, getNextInstanceSerial, hsym, hma,
    Bool.not_true, Bool.false_eq_true, ↓reduceIte]

theorem ref_rwlock_serial (m m4 : Manager) (serial : Nat)
    (h : ref_rwlock m serial = some m4) : m4.instance_serial = m.instance_serial := by
  unfold ref_rwlock at h
  split at h
  · simp only [Option.some.injEq] at h
    rw [← h]
  · simp at h

theorem openForReading_serial (env : Env) (m : Manager) (t i : CString) (mem : Option Chunk) :
    ((openForReading env m t i mem).mgr.instance_serial = m.instance_serial ∧
      ∀ h, (openForReading env m t i mem).result ≠ .ok h) ∨
    ((openForReading env m t i mem).mgr.instance_serial = (m.instance_serial + 1) % 2 ^ 32 ∧
      ∀ h, (openForReading env m t i mem).result = .ok h →
        h.instance_serial = m.instance_serial) := by
  simp only [openForReading]
  by_cases hmx : m.mutex = true
  · simp [hmx]
  simp only [hmx, Bool.false_eq_true, ↓reduceIte]
  by_cases hml : m.memmgr_locked = true
  · simp [hml]
  simp only [hml, Bool.false_eq_true, ↓reduceIte]
  cases hn : newInterfaceInstance env
      { m with mutex := true, memmgr_locked := true } t i with
  | mk r m3 =>
    cases r with
    | error e =>
      have := newInterfaceInstance_error _ _ _ _ _ _ hn
      subst this
      left
      cases hf : findInterfaceInMemory env m.chunks t i <;> simp [createInterface, hn]
    | ok iface =>
      obtain ⟨_, _, hif, hm3⟩ := newInterfaceInstance_ok _ _ _ _ _ _ hn
      subst hm3
      right
      cases hf : findInterfaceInMemory env m.chunks t i with
      | some c =>
        simp only []
        cases hr : ref_rwlock
            { m with instance_serial := (m.instance_serial + 1) % 2 ^ 32
                     mutex := true
                     memmgr_locked := true } c.hdr.serial with
        | none => simp [hr]
        | some m4 =>
          have h4 := ref_rwlock_serial _ _ _ hr
          simp only [] at h4
          simp only [hr, finish_open, h4, Result.ok.injEq, true_and]
          rintro h rfl
          rw [hif]
      | none =>
        simp only [createInterface, hn]
        cases mem with
        | none => simp
        | some raw =>
          simp only []
          cases hh : header_at (update_header (update_header (update_header
              (insert_chunk raw m.chunks) raw.ptr _) raw.ptr _) raw.ptr _) raw.ptr with
          | none => simp [hh]
          | some ih =>
            simp only [hh, finish_open, Result.ok.injEq, true_and]
            rintro h rfl
            rw [hif]

theorem openForWriting_serial (env : Env) (m : Manager) (t i : CString) (mem : Option Chunk) :
    ((openForWriting env m t i mem).mgr.instance_serial = m.instance_serial ∧
      ∀ h, (openForWriting env m t i mem).result ≠ .ok h) ∨
    ((openForWriting env m t i mem).mgr.instance_serial = (m.instance_serial + 1) % 2 ^ 32 ∧
      ∀ h, (openForWriting env m t i mem).result = .ok h →
        h.instance_serial = m.instance_serial) := by
  simp only [openForWriting]
  by_cases hmx : m.mutex = true
  · simp [hmx]
  simp only [hmx, Bool.false_eq_true, ↓reduceIte]
  by_cases hml : m.memmgr_locked = true
  · simp [hml]
  simp only [hml, Bool.false_eq_true, ↓reduceIte]
  cases hn : newInterfaceInstance env
      { m with mutex := true, memmgr_locked := true } t i with
  | mk r m3 =>
    cases r with
    | error e =>
      have := newInterfaceInstance_error _ _ _ _ _ _ hn
      subst this
      left
      cases hf : findInterfaceInMemory env m.chunks t i with
      | none => simp [createInterface, hn]
      | some c =>
        by_cases hfl : c.hdr.flag_writer_active = true <;> simp [hfl, hn]
    | ok iface =>
      obtain ⟨_, _, hif, hm3⟩ := newInterfaceInstance_ok _ _ _ _ _ _ hn
      subst hm3
      cases hf : findInterfaceInMemory env m.chunks t i with
      | some c =>
        simp only []
        by_cases hfl : c.hdr.flag_writer_active = true
        · left
          simp [hfl]
        right
        simp only [hfl, Bool.false_eq_true, ↓reduceIte, hn]
        cases hr : ref_rwlock
            { m with instance_serial := (m.instance_serial + 1) % 2 ^ 32
                     mutex := true
                     memmgr_locked := true } c.hdr.serial with
        | none => simp [hr]
        | some m4 =>
          have h4 := ref_rwlock_serial _ _ _ hr
          simp only [] at h4
          simp only [hr, finish_open, h4, Result.ok.injEq, true_and]
          rintro h rfl
          rw [hif]
      | none =>
        right
        simp only [createInterface, hn]
        cases mem with
        | none => simp
        | some raw =>
          simp only []
          cases hh : header_at (update_header (update_header (update_header
              (insert_chunk raw m.chunks) raw.ptr _) raw.ptr _) raw.ptr _) raw.ptr with
          | none => simp [hh]
          | some ih =>
            simp only [hh, finish_open, Result.ok.injEq, true_and]
            rintro h rfl
            rw [hif]

theorem close_serial (env : Env) (m : Manager) (h : Interface) :
    (close env m h).mgr.instance_serial = m.instance_serial := by
  simp only [close]
  by_cases hmx : m.mutex = true
  · simp [hmx]
  simp only [hmx, Bool.false_eq_true, ↓reduceIte]
  cases h.mem_real_ptr with
  | none => rfl
  | some ptr =>
    simp only []
    cases header_at m.chunks ptr with
    | none => rfl
    | some ih =>
      simp only []
      cases deleteInterfaceInstance env h <;>
        by_cases h0 : ih.refcount - 1 = 0 <;>
        by_cases hw : h.write_access = true <;> simp [h0, hw]

/-- The effect of one call on the instance serial counter: it stays, and no
interface is returned, or the call is an open, the counter is incremented
and an interface that is returned carries the old value. -/
theorem step_serial (env : Env) (s : Sys) (c : Call) :
    ((step env s c).mgr.instance_serial = s.mgr.instance_serial ∧
      ∀ h, open_result env s c ≠ some (.ok h)) ∨
    (c.is_open = true ∧
      (step env s c).mgr.instance_serial = (s.mgr.instance_serial + 1) % 2 ^ 32 ∧
      ∀ h, open_result env s c = some (.ok h) → h.instance_serial = s.mgr.instance_serial) := by
  cases c with
  | openForReading t i mem =>
    rcases openForReading_serial env s.mgr t i mem with ⟨h1, h2⟩ | ⟨h1, h2⟩
    · left
      exact ⟨h1, fun h hh => h2 h (Option.some.inj hh)⟩
    · right
      exact ⟨rfl, h1, fun h hh => h2 h (Option.some.inj hh)⟩
  | openForWriting t i mem =>
    rcases openForWriting_serial env s.mgr t i mem with ⟨h1, h2⟩ | ⟨h1, h2⟩
    · left
      exact ⟨h1, fun h hh => h2 h (Option.some.inj hh)⟩
    · right
      exact ⟨rfl, h1, fun h hh => h2 h (Option.some.inj hh)⟩
  | close h =>
    left
    exact ⟨close_serial env s.mgr h, fun _ hh => by simp [open_result] at hh⟩

theorem count_opens_cons (c : Call) (rest : List Call) :
    count_opens (c :: rest) = count_opens rest + (if c.is_open = true then 1 else 0) := by
  simp [count_opens, List.countP_cons]

theorem count_opens_append (a b : List Call) :
    count_opens (a ++ b) = count_opens a + count_opens b := by
  simp [count_opens, List.countP_append]

theorem run_append (env : Env) (s : Sys) (a b : List Call) :
    run env s (a ++ b) = run env (run env s a) b := by
  induction a generalizing s with
  | nil => rfl
  | cons c rest ih => exact ih (step env s c)

/-- As long as the counter cannot wrap, a sequence of calls does not
decrease it and advances it by at most the number of opens; the interfaces
returned carry values between the old and the new counter, in strictly
increasing order. -/
theorem run_serial (env : Env) (calls : List Call) (s : Sys)
    (hb : s.mgr.instance_serial + count_opens calls < 2 ^ 32) :
    s.mgr.instance_serial ≤ (run env s calls).mgr.instance_serial ∧
    (run env s calls).mgr.instance_serial ≤ s.mgr.instance_serial + count_opens calls ∧
    (∀ h ∈ returned env s calls, s.mgr.instance_serial ≤ h.instance_serial ∧
      h.instance_serial < (run env s calls).mgr.instance_serial) ∧
    (returned env s calls).Pairwise (fun a b => a.instance_serial < b.instance_serial) := by
  induction calls generalizing s with
  | nil => simp [run, returned, count_opens]
  | cons c rest ih =>
    rw [count_opens_cons] at hb ⊢
    rcases step_serial env s c with ⟨h1, h2⟩ | ⟨h0, h1, h2⟩
    · obtain ⟨i1, i2, i3, i4⟩ := ih (step env s c) (by rw [h1]; omega)
      have hret : returned env s (c :: rest) = returned env (step env s c) rest := by
        rw [returned]
        split
        · rename_i h heq
          exact absurd heq (h2 h)
        · rfl
      rw [hret]
      simp only [run]
      rw [h1] at i1 i2 i3
      refine ⟨i1, by omega, i3, i4⟩
    · simp only [h0, ↓reduceIte] at hb ⊢
      have hmod : (s.mgr.instance_serial + 1) % 2 ^ 32 = s.mgr.instance_serial + 1 :=
        Nat.mod_eq_of_lt (by omega)
      rw [hmod] at h1
      obtain ⟨i1, i2, i3, i4⟩ := ih (step env s c) (by rw [h1]; omega)
      rw [h1] at i1 i2 i3
      simp only [run]
      refine ⟨by omega, by omega, ?_, ?_⟩
      · intro h hh
        simp only [returned] at hh
        split at hh
        · rename_i h0 heq
          rcases List.mem_cons.mp hh with rfl | hh
          · rw [h2 _ heq]
            omega
          · have := i3 h hh
            omega
        · have := i3 h hh
          omega
      · simp only [returned]
        split
        · rename_i h0 heq
          refine List.Pairwise.cons ?_ i4
          intro b hb2
          rw [h2 _ heq]
          have := i3 b hb2
          omega
        · exact i4

/-! ## The mem serial -/

theorem getNextMemSerial_loop_eq (l : List Chunk) (v : Nat)
    (hb : ∀ c ∈ l, c.hdr.serial < 2 ^ 32 - 1) :
    getNextMemSerial_loop l v = max v ((l.map (fun c => c.hdr.serial + 1)).foldr max 0) := by
  induction l generalizing v with
  | nil => simp [getNextMemSerial_loop]
  | cons c rest ih =>
    have hc : c.hdr.serial < 2 ^ 32 - 1 := hb c (List.mem_cons_self _ _)
    have hrest : ∀ d ∈ rest, d.hdr.serial < 2 ^ 32 - 1 :=
      fun d hd => hb d (List.mem_cons_of_mem _ hd)
    simp only [getNextMemSerial_loop, List.map_cons, List.foldr_cons]
    split
    · rw [ih _ hrest, Nat.mod_eq_of_lt (by omega)]
      omega
    · rw [ih _ hrest]
      omega

/-- Without wrap-around `getNextMemSerial` is one more than the largest
serial that the scan visits, 1 for no chunk, in whatever order the chunks
are visited. -/
theorem getNextMemSerial_eq (l : List Chunk) (hb : ∀ c ∈ l, c.hdr.serial < 2 ^ 32 - 1) :
    getNextMemSerial l = if l = [] then 1 else 1 + (l.map (fun c => c.hdr.serial)).foldr max 0 := by
  unfold getNextMemSerial
  rw [getNextMemSerial_loop_eq l 1 hb]
  cases l with
  | nil => simp
  | cons c rest =>
    simp only [List.map_cons, List.foldr_cons, reduceCtorEq, ↓reduceIte]
    have : (rest.map (fun c => c.hdr.serial + 1)).foldr max 0 ≤
        1 + (rest.map (fun c => c.hdr.serial)).foldr max 0 ∧
        ((rest.map (fun c => c.hdr.serial)).foldr max 0 = 0 ∨
          (rest.map (fun c => c.hdr.serial + 1)).foldr max 0 =
            1 + (rest.map (fun c => c.hdr.serial)).foldr max 0) := by
      clear hb
      induction rest with
      | nil => simp
      | cons d r ih =>
        simp only [List.map_cons, List.foldr_cons]
        omega
    omega

/-- Without wrap-around the result of `getNextMemSerial` does not depend on
the order in which the chunks are visited. -/
theorem getNextMemSerial_perm (l1 l2 : List Chunk) (hp : l1.Perm l2)
    (hb : ∀ c ∈ l1, c.hdr.serial < 2 ^ 32 - 1) :
    getNextMemSerial l1 = getNextMemSerial l2 := by
  have hb2 : ∀ c ∈ l2, c.hdr.serial < 2 ^ 32 - 1 := fun c hc => hb c (hp.mem_iff.mpr hc)
  unfold getNextMemSerial
  rw [getNextMemSerial_loop_eq l1 1 hb, getNextMemSerial_loop_eq l2 1 hb2]
  congr 1
  have hmap := hp.map (fun c : Chunk => c.hdr.serial + 1)
  generalize l1.map (fun c : Chunk => c.hdr.serial + 1) = a at hmap
  generalize l2.map (fun c : Chunk => c.hdr.serial + 1) = b at hmap
  induction hmap with
  | nil => rfl
  | cons x _ ih => simp only [List.foldr_cons, ih]
  | swap x y l => simp only [List.foldr_cons]; omega
  | trans _ _ ih1 ih2 => exact ih1.trans ih2

/-! ## The beam subsampling loop -/

/-- With step 0 the loop that has been entered never ends. -/
theorem beam_loop_step_zero (range_count : Nat) (fuel i : Nat) (hi : i < range_count) :
    beam_loop range_count 0 fuel i = none := by
  induction fuel with
  | zero => rfl
  | succ n ih => simp [beam_loop, hi, ih]

/-! ## Every path of the opens -/

theorem newInterfaceInstance_error_kind (env : Env) (m m1 : Manager) (t i : CString) (e : Exc)
    (h : newInterfaceInstance env m t i = (.error e, m1)) :
    e ≠ .OutOfMemoryException ∧ e ≠ .BlackBoardWriterActiveException := by
  unfold newInterfaceInstance getNextInstanceSerial at h
  dsimp only at h
  generalize hasSymbol env ("new".toList ++ t) = b at h
  cases b <;> by_cases hm : m.bb_master = true <;> simp [hm] at h <;>
    (obtain ⟨h1, _⟩ := h; subst h1; simp)

/-- All paths of `openForReading`: the lock operations respect the lock
order, the paths that release both locks perform the four lock operations,
the writer registry is untouched, an exception other than
`OutOfMemoryException` leaves chunks and instance serial as they were,
`OutOfMemoryException` leaves the chunks and has advanced the instance
serial, and the chunk list changes in one of the ways of `chunks_step`. -/
theorem openForReading_cases (env : Env) (m : Manager) (t i : CString) (mem : Option Chunk) :
    lock_order_ok (m.mutex, m.memmgr_locked) (openForReading env m t i mem).events = true ∧
    (releases_both (openForReading env m t i mem).result = true →
      (openForReading env m t i mem).events = full_lock_events) ∧
    (openForReading env m t i mem).mgr.writer_interfaces = m.writer_interfaces ∧
    (∀ e, (openForReading env m t i mem).result = .raised e →
      (openForReading env m t i mem).mgr.chunks = m.chunks ∧
      (openForReading env m t i mem).mgr.instance_serial =
        if e = .OutOfMemoryException then (m.instance_serial + 1) % 2 ^ 32
        else m.instance_serial) ∧
    chunks_step m.chunks (openForReading env m t i mem).mgr.chunks mem := by
  simp only [openForReading]
  cases hmx : m.mutex
  case true => simp [lock_order_ok, releases_both, chunks_step]
  simp only [Bool.false_eq_true, ↓reduceIte]
  cases hml : m.memmgr_locked
  case true => simp [lock_order_ok, releases_both, chunks_step]
  simp only [Bool.false_eq_true, ↓reduceIte]
  cases hn : newInterfaceInstance env
      { m with mutex := true, memmgr_locked := true } t i with
  | mk r m3 =>
    cases r with
    | error e =>
      have hm3 := newInterfaceInstance_error _ _ _ _ _ _ hn
      obtain ⟨he1, he2⟩ := newInterfaceInstance_error_kind _ _ _ _ _ _ hn
      subst hm3
      cases hf : findInterfaceInMemory env m.chunks t i <;>
        simp [createInterface, hn, lock_order_ok, releases_both, chunks_step, he1, he2]
    | ok iface =>
      obtain ⟨_, _, hif, hm3⟩ := newInterfaceInstance_ok _ _ _ _ _ _ hn
      subst hm3
      cases hf : findInterfaceInMemory env m.chunks t i with
      | some c =>
        simp only []
        cases hr : map_find m.rwlocks c.hdr.serial with
        | none => simp [ref_rwlock, map_index, hr, lock_order_ok, releases_both, chunks_step]
        | some v =>
          cases v with
          | none => simp [ref_rwlock, map_index, hr, lock_order_ok, releases_both, chunks_step]
          | some lock =>
            simp only [ref_rwlock, map_index, hr, finish_open, lock_order_ok, releases_both,
              full_lock_events, chunks_step, Bool.false_eq_true, ↓reduceIte]
            refine ⟨by decide, by simp, trivial, fun e he => by simp at he,
              Or.inr (Or.inl ⟨_, _, rfl⟩)⟩
      | none =>
        simp only [createInterface, hn]
        cases mem with
        | none =>
          simp [lock_order_ok, releases_both, full_lock_events, chunks_step]
        | some raw =>
          simp only [update_header_comp]
          cases hh : header_at (update_header (insert_chunk raw m.chunks) raw.ptr _) raw.ptr with
          | none =>
            simp only [new_RefCountRWLock, lock_order_ok, releases_both, chunks_step]
            refine ⟨by decide, by simp, trivial, fun e he => by simp at he,
              Or.inr (Or.inr (Or.inl ⟨raw, _, rfl, rfl⟩))⟩
          | some ih =>
            simp only [new_RefCountRWLock, finish_open, lock_order_ok, releases_both,
              full_lock_events, chunks_step, Bool.false_eq_true, ↓reduceIte,
              update_header_comp]
            refine ⟨by decide, by simp, trivial, fun e he => by simp at he,
              Or.inr (Or.inr (Or.inl ⟨raw, _, rfl, rfl⟩))⟩

/-- All paths of `openForWriting`, as in `openForReading_cases`. -/
theorem openForWriting_cases (env : Env) (m : Manager) (t i : CString) (mem : Option Chunk) :
    lock_order_ok (m.mutex, m.memmgr_locked) (openForWriting env m t i mem).events = true ∧
    (releases_both (openForWriting env m t i mem).result = true →
      (openForWriting env m t i mem).events = full_lock_events) ∧
    (∀ e, (openForWriting env m t i mem).result = .raised e →
      (openForWriting env m t i mem).mgr.chunks = m.chunks ∧
      (openForWriting env m t i mem).mgr.instance_serial =
        if e = .OutOfMemoryException then (m.instance_serial + 1) % 2 ^ 32
        else m.instance_serial) ∧
    chunks_step m.chunks (openForWriting env m t i mem).mgr.chunks mem := by
  simp only [openForWriting]
  cases hmx : m.mutex
  case true => simp [lock_order_ok, releases_both, chunks_step]
  simp only [Bool.false_eq_true, ↓reduceIte]
  cases hml : m.memmgr_locked
  case true => simp [lock_order_ok, releases_both, chunks_step]
  simp only [Bool.false_eq_true, ↓reduceIte]
  cases hn : newInterfaceInstance env
      { m with mutex := true, memmgr_locked := true } t i with
  | mk r m3 =>
    cases r with
    | error e =>
      have hm3 := newInterfaceInstance_error _ _ _ _ _ _ hn
      obtain ⟨he1, he2⟩ := newInterfaceInstance_error_kind _ _ _ _ _ _ hn
      subst hm3
      cases hf : findInterfaceInMemory env m.chunks t i with
      | some c =>
        cases hw : c.hdr.flag_writer_active <;>
          simp [hw, hn, lock_order_ok, releases_both, full_lock_events, chunks_step, he1, he2]
      | none =>
        simp [createInterface, hn, lock_order_ok, releases_both, chunks_step, he1, he2]
    | ok iface =>
      obtain ⟨_, _, hif, hm3⟩ := newInterfaceInstance_ok _ _ _ _ _ _ hn
      subst hm3
      cases hf : findInterfaceInMemory env m.chunks t i with
      | some c =>
        simp only []
        cases hw : c.hdr.flag_writer_active
        case true =>
          simp [hw, lock_order_ok, releases_both, full_lock_events, chunks_step]
        simp only [hw, Bool.false_eq_true, ↓reduceIte]
        cases hr : map_find m.rwlocks c.hdr.serial with
        | none => simp [ref_rwlock, map_index, hr, lock_order_ok, releases_both, chunks_step]
        | some v =>
          cases v with
          | none => simp [ref_rwlock, map_index, hr, lock_order_ok, releases_both, chunks_step]
          | some lock =>
            simp only [ref_rwlock, map_index, hr, finish_open, lock_order_ok, releases_both,
              full_lock_events, chunks_step, Bool.false_eq_true, ↓reduceIte,
              update_header_comp]
            refine ⟨by decide, by simp, fun e he => by simp at he,
              Or.inr (Or.inl ⟨_, _, rfl⟩)⟩
      | none =>
        simp only [createInterface, hn]
        cases mem with
        | none =>
          simp [lock_order_ok, releases_both, full_lock_events, chunks_step]
        | some raw =>
          simp only [update_header_comp]
          cases hh : header_at (update_header (insert_chunk raw m.chunks) raw.ptr _) raw.ptr with
          | none =>
            simp only [new_RefCountRWLock, lock_order_ok, releases_both, chunks_step]
            refine ⟨by decide, by simp, fun e he => by simp at he,
              Or.inr (Or.inr (Or.inl ⟨raw, _, rfl, rfl⟩))⟩
          | some ih =>
            simp only [new_RefCountRWLock, finish_open, lock_order_ok, releases_both,
              full_lock_events, chunks_step, Bool.false_eq_true, ↓reduceIte,
              update_header_comp]
            refine ⟨by decide, by simp, fun e he => by simp at he,
              Or.inr (Or.inr (Or.inl ⟨raw, _, rfl, rfl⟩))⟩

/-! ## The addresses of the live chunks are pairwise distinct -/

theorem map_ptr_update_header (l : List Chunk) (p : Nat)
    (f : interface_header_t → interface_header_t) :
    (update_header l p f).map Chunk.ptr = l.map Chunk.ptr := by
  simp only [update_header, List.map_map]
  apply List.map_congr_left
  intro c _
  by_cases h : c.ptr = p <;> simp [h]

theorem insert_chunk_perm (c : Chunk) (l : List Chunk) : (insert_chunk c l).Perm (c :: l) := by
  induction l with
  | nil => exact List.Perm.refl _
  | cons d rest ih =>
    unfold insert_chunk
    split
    · exact List.Perm.refl _
    · exact (List.Perm.cons d ih).trans (List.Perm.swap c d rest)

theorem close_chunks_step (env : Env) (m : Manager) (h : Interface) :
    chunks_step m.chunks (close env m h).mgr.chunks none := by
  simp only [close]
  cases hmx : m.mutex
  case true => exact Or.inl rfl
  simp only [Bool.false_eq_true, ↓reduceIte]
  cases hp : h.mem_real_ptr with
  | none => exact Or.inl rfl
  | some ptr =>
    simp only []
    cases hat : header_at m.chunks ptr with
    | none => exact Or.inl rfl
    | some ih =>
      simp only []
      by_cases hz : ih.refcount - 1 = 0
      · have hfree : chunks_step m.chunks (free_chunk m.chunks ptr) none :=
          Or.inr (Or.inr (Or.inr ⟨ptr, rfl⟩))
        cases hd : deleteInterfaceInstance env h <;>
          simpa [hz, free_chunk_update_header] using hfree
      · cases hw : h.write_access <;> cases hd : deleteInterfaceInstance env h <;>
          simp only [hz, ↓reduceIte, Bool.false_eq_true, update_header_comp] <;>
          exact Or.inr (Or.inl ⟨_, _, rfl⟩)

theorem nodup_chunks_step (old new : List Chunk) (mem : Option Chunk)
    (hs : chunks_step old new mem) (hv : alloc_ok old mem = true)
    (hn : (old.map Chunk.ptr).Nodup) : (new.map Chunk.ptr).Nodup := by
  rcases hs with rfl | ⟨p, f, rfl⟩ | ⟨raw, f, rfl, rfl⟩ | ⟨p, rfl⟩
  · exact hn
  · rw [map_ptr_update_header]; exact hn
  · rw [map_ptr_update_header]
    refine ((insert_chunk_perm raw old).map Chunk.ptr).nodup_iff.mpr ?_
    simp only [alloc_ok, Bool.and_eq_true, List.all_eq_true, decide_eq_true_eq] at hv
    simp only [List.map_cons, List.nodup_cons, List.mem_map, not_exists, not_and]
    exact ⟨fun c hc => hv.1 c hc, hn⟩
  · exact (List.filter_sublist _).map Chunk.ptr |>.nodup hn

theorem step_ptrs_nodup (env : Env) (s : Sys) (c : Call) (hv : c.valid s = true)
    (hn : (s.mgr.chunks.map Chunk.ptr).Nodup) :
    ((step env s c).mgr.chunks.map Chunk.ptr).Nodup := by
  cases c with
  | openForReading t i mem =>
    exact nodup_chunks_step _ _ mem (openForReading_cases env s.mgr t i mem).2.2.2.2 hv hn
  | openForWriting t i mem =>
    exact nodup_chunks_step _ _ mem (openForWriting_cases env s.mgr t i mem).2.2.2 hv hn
  | close h =>
    exact nodup_chunks_step _ _ none (close_chunks_step env s.mgr h) rfl hn

theorem run_ptrs_nodup (env : Env) (calls : List Call) (s : Sys)
    (hv : valid_run env s calls = true) (hn : (s.mgr.chunks.map Chunk.ptr).Nodup) :
    ((run env s calls).mgr.chunks.map Chunk.ptr).Nodup := by
  induction calls generalizing s with
  | nil => exact hn
  | cons c rest ih =>
    simp only [valid_run, Bool.and_eq_true] at hv
    exact ih (step env s c) hv.2 (step_ptrs_nodup env s c hv.1 hn)

/-- In a list of chunks without repeated entries in which equal keys mean
the same chunk, `findInterfaceInMemory` yields the only chunk with the key
that is looked up, or `none` when no chunk has it. -/
theorem findInterfaceInMemory_unique (env : Env) (l : List Chunk) (t i : CString)
    (hk : ∀ a ∈ l, ∀ b ∈ l, same_key env a.hdr b.hdr → a = b) :
    match findInterfaceInMemory env l t i with
    | none => ∀ c ∈ l,
        ¬ (c.hdr.type.take env.__INTERFACE_TYPE_SIZE = t.take env.__INTERFACE_TYPE_SIZE ∧
           c.hdr.id.take env.__INTERFACE_ID_SIZE = i.take env.__INTERFACE_ID_SIZE)
    | some c => c ∈ l ∧
        c.hdr.type.take env.__INTERFACE_TYPE_SIZE = t.take env.__INTERFACE_TYPE_SIZE ∧
        c.hdr.id.take env.__INTERFACE_ID_SIZE = i.take env.__INTERFACE_ID_SIZE ∧
        ∀ d ∈ l,
          d.hdr.type.take env.__INTERFACE_TYPE_SIZE = t.take env.__INTERFACE_TYPE_SIZE →
          d.hdr.id.take env.__INTERFACE_ID_SIZE = i.take env.__INTERFACE_ID_SIZE → d = c := by
  cases hf : findInterfaceInMemory env l t i with
  | none => exact fun c hc => findInterfaceInMemory_none env l t i hf c hc
  | some c =>
    obtain ⟨hc, ht, hi⟩ := findInterfaceInMemory_some env l t i c hf
    exact ⟨hc, ht, hi, fun d hd hdt hdi => hk d hd c hc ⟨hdt.trans ht.symm, hdi.trans hi.symm⟩⟩

/-! ## The opens do not dereference a missing lock -/

/-- When the lock table has a lock for the serial of every live chunk and
the allocator behaves, `openForReading` dereferences no `NULL` pointer, and
when it returns an interface, the interface has a lock, no write access,
the mutex is free again, the instance serial counter has advanced and the
chunk list has changed in one of two ways: the reference count of the chunk
found has been incremented, or the block of the allocator has been entered
with reference count 1. -/
theorem openForReading_ok_cases (env : Env) (m : Manager) (t i : CString) (mem : Option Chunk)
    (hp : ∀ c ∈ m.chunks, ∃ lock, map_find m.rwlocks c.hdr.serial = some (some lock))
    (hv : alloc_ok m.chunks mem = true) :
    (openForReading env m t i mem).result ≠ .undefined ∧
    ∀ h, (openForReading env m t i mem).result = .ok h →
      (∃ lock, h.rwlock = some lock) ∧ h.write_access = false ∧
      (openForReading env m t i mem).mgr.mutex = false ∧
      (openForReading env m t i mem).mgr.instance_serial = (m.instance_serial + 1) % 2 ^ 32 ∧
      ((∃ c, findInterfaceInMemory env m.chunks t i = some c ∧ h.mem_real_ptr = some c.ptr ∧
          (openForReading env m t i mem).mgr.chunks =
            update_header m.chunks c.ptr (fun ih => { ih with refcount := ih.refcount + 1 })) ∨
       (∃ raw F, mem = some raw ∧ (∀ c ∈ m.chunks, c.ptr ≠ raw.ptr) ∧
          h.mem_real_ptr = some raw.ptr ∧ (F raw.hdr).refcount = 1 ∧
          (openForReading env m t i mem).mgr.chunks =
            update_header (insert_chunk raw m.chunks) raw.ptr F)) := by
  simp only [openForReading]
  cases hmx : m.mutex
  case true => simp
  simp only [Bool.false_eq_true, ↓reduceIte]
  cases hml : m.memmgr_locked
  case true => simp
  simp only [Bool.false_eq_true, ↓reduceIte]
  cases hn : newInterfaceInstance env
      { m with mutex := true, memmgr_locked := true } t i with
  | mk r m3 =>
    cases r with
    | error e =>
      cases hf : findInterfaceInMemory env m.chunks t i <;> simp [createInterface, hn]
    | ok iface =>
      obtain ⟨_, _, hif, hm3⟩ := newInterfaceInstance_ok _ _ _ _ _ _ hn
      subst hm3
      cases hf : findInterfaceInMemory env m.chunks t i with
      | some c =>
        obtain ⟨hcm, _, _⟩ := findInterfaceInMemory_some env _ _ _ _ hf
        obtain ⟨lock, hr⟩ := hp c hcm
        simp only [ref_rwlock, map_index, hr, finish_open, Bool.false_eq_true, ↓reduceIte]
        refine ⟨by simp, ?_⟩
        intro h hok
        simp only [Result.ok.injEq] at hok
        subst hok
        exact ⟨⟨lock, rfl⟩, rfl, trivial, trivial, Or.inl ⟨c, rfl, rfl, rfl⟩⟩
      | none =>
        simp only [createInterface, hn]
        cases mem with
        | none => simp
        | some raw =>
          have hfresh : ∀ c ∈ m.chunks, c.ptr ≠ raw.ptr := by
            simp only [alloc_ok, Bool.and_eq_true, List.all_eq_true, decide_eq_true_eq] at hv
            exact hv.1
          simp only [update_header_comp, header_at_update_header_fresh raw m.chunks _ hfresh,
            new_RefCountRWLock, finish_open, map_index, map_find_assign, ↓reduceIte]
          simp only [Bool.false_eq_true, ↓reduceIte, update_header_comp]
          refine ⟨by simp, ?_⟩
          intro h hok
          simp only [Result.ok.injEq] at hok
          subst hok
          exact ⟨⟨_, rfl⟩, rfl, trivial, trivial, Or.inr ⟨raw, _, rfl, hfresh, rfl, rfl, rfl⟩⟩

/-- When the lock table has a lock for the serial of every live chunk and
the allocator behaves, `openForWriting` dereferences no `NULL` pointer, and
an interface it returns has a lock. -/
theorem openForWriting_defined (env : Env) (m : Manager) (t i : CString) (mem : Option Chunk)
    (hp : ∀ c ∈ m.chunks, ∃ lock, map_find m.rwlocks c.hdr.serial = some (some lock))
    (hv : alloc_ok m.chunks mem = true) :
    (openForWriting env m t i mem).result ≠ .undefined ∧
    ∀ h, (openForWriting env m t i mem).result = .ok h → ∃ lock, h.rwlock = some lock := by
  simp only [openForWriting]
  cases hmx : m.mutex
  case true => simp
  simp only [Bool.false_eq_true, ↓reduceIte]
  cases hml : m.memmgr_locked
  case true => simp
  simp only [Bool.false_eq_true, ↓reduceIte]
  cases hn : newInterfaceInstance env
      { m with mutex := true, memmgr_locked := true } t i with
  | mk r m3 =>
    cases r with
    | error e =>
      cases hf : findInterfaceInMemory env m.chunks t i with
      | some c => cases hw : c.hdr.flag_writer_active <;> simp [hn, hw]
      | none => simp [createInterface, hn]
    | ok iface =>
      obtain ⟨_, _, hif, hm3⟩ := newInterfaceInstance_ok _ _ _ _ _ _ hn
      subst hm3
      cases hf : findInterfaceInMemory env m.chunks t i with
      | some c =>
        obtain ⟨hcm, _, _⟩ := findInterfaceInMemory_some env _ _ _ _ hf
        obtain ⟨lock, hr⟩ := hp c hcm
        simp only []
        cases hw : c.hdr.flag_writer_active
        case true => simp [hw]
        simp only [hw, ref_rwlock, map_index, hr, finish_open, Bool.false_eq_true, ↓reduceIte]
        refine ⟨by simp, ?_⟩
        intro h hok
        simp only [Result.ok.injEq] at hok
        subst hok
        exact ⟨lock, rfl⟩
      | none =>
        simp only [createInterface, hn]
        cases mem with
        | none => simp
        | some raw =>
          have hfresh : ∀ c ∈ m.chunks, c.ptr ≠ raw.ptr := by
            simp only [alloc_ok, Bool.and_eq_true, List.all_eq_true, decide_eq_true_eq] at hv
            exact hv.1
          simp only [update_header_comp, header_at_update_header_fresh raw m.chunks _ hfresh,
            new_RefCountRWLock, finish_open, map_index, map_find_assign, ↓reduceIte]
          refine ⟨by simp, ?_⟩
          intro h hok
          simp only [Result.ok.injEq] at hok
          subst hok
          exact ⟨_, rfl⟩

/-! ## Live chunks are referenced, and an open is undone by the close -/

theorem refcount_pos_of_shape {env : Env} {s s1 : Sys} (hs : Shape env s s1)
    (h : ∀ c ∈ s.mgr.chunks, 1 ≤ c.hdr.refcount) :
    ∀ c ∈ s1.mgr.chunks, 1 ≤ c.hdr.refcount := by
  cases hs with
  | same m1 hc _ _ =>
    intro c hcm
    exact h c (by simpa [hc] using hcm)
  | found m1 c0 h0 _ _ _ hc _ _ =>
    intro c hcm
    simp only [hc] at hcm
    obtain ⟨d, hd, rfl⟩ := (mem_update_header _ _ _ _).mp hcm
    by_cases hp : d.ptr = c0.ptr
    · simp [hp]
    · simpa [hp] using h d hd
  | created m1 ptr nh h0 _ _ hr _ _ hmem _ _ =>
    intro c hcm
    rcases (hmem c).mp hcm with rfl | hc
    · simp [hr]
    · exact h c hc
  | closed m1 ptr ih h0 _ _ _ hc _ _ =>
    intro c hcm
    simp only [hc] at hcm
    by_cases hz : ih.refcount - 1 = 0
    · simp only [hz, ↓reduceIte] at hcm
      exact h c ((mem_free_chunk _ _ _).mp hcm).1
    · simp only [hz, ↓reduceIte] at hcm
      obtain ⟨d, hd, rfl⟩ := (mem_update_header _ _ _ _).mp hcm
      by_cases hp : d.ptr = ptr
      · simp only [hp, ↓reduceIte]
        omega
      · simpa [hp] using h d hd

/-- In every state reached from the constructor, the invariant holds and
every live chunk has a reference count of at least 1. -/
theorem refcount_pos_run (env : Env) (calls : List Call) (s : Sys) (hinv : Inv env s)
    (h : ∀ c ∈ s.mgr.chunks, 1 ≤ c.hdr.refcount)
    (hv : valid_run env s calls = true) :
    ∀ c ∈ (run env s calls).mgr.chunks, 1 ≤ c.hdr.refcount := by
  induction calls generalizing s with
  | nil => exact h
  | cons c rest ih =>
    simp only [valid_run, Bool.and_eq_true] at hv
    exact ih (step env s c) (Inv_step env s c hinv hv.1)
      (refcount_pos_of_shape (step_shape env s c hinv hv.1) h) hv.2

theorem free_chunk_insert_fresh (raw : Chunk) (l : List Chunk)
    (hfresh : ∀ c ∈ l, c.ptr ≠ raw.ptr) : free_chunk (insert_chunk raw l) raw.ptr = l := by
  induction l with
  | nil => simp [insert_chunk, free_chunk]
  | cons d rest ih =>
    have hd : d.ptr ≠ raw.ptr := hfresh d (List.mem_cons_self _ _)
    have ih1 := ih (fun c hc => hfresh c (List.mem_cons_of_mem _ hc))
    unfold insert_chunk
    split
    · rw [free_chunk, List.filter_cons_of_neg (by simp)]
      exact List.filter_eq_self.mpr (by intro c hc; simpa using hfresh c hc)
    · rw [free_chunk, List.filter_cons_of_pos (by simpa using hd)]
      show d :: free_chunk (insert_chunk raw rest) raw.ptr = d :: rest
      rw [ih1]

theorem update_header_id (l : List Chunk) (p : Nat)
    (f : interface_header_t → interface_header_t)
    (hf : ∀ c ∈ l, c.ptr = p → f c.hdr = c.hdr) : update_header l p f = l := by
  unfold update_header
  conv_rhs => rw [← List.map_id l]
  apply List.map_congr_left
  intro c hc
  by_cases hp : c.ptr = p
  · subst hp
    simp [hf c hc rfl]
  · simp [hp]

/-- The manager after a successful `openForReading` followed by `close` of
the interface returned, started in a state in which chunk addresses are
unique, every live chunk has a lock and a reference count of at least 1:
the list of live chunks and the writer registry are those before the open,
the instance serial counter has advanced by one, and `close` ran to its end
or to the exception of `deleteInterfaceInstance`. -/
theorem open_close_mgr (env : Env) (m : Manager) (t i : CString) (mem : Option Chunk)
    (h : Interface)
    (hinj : ∀ a ∈ m.chunks, ∀ b ∈ m.chunks, a.ptr = b.ptr → a = b)
    (hp : ∀ c ∈ m.chunks, ∃ lock, map_find m.rwlocks c.hdr.serial = some (some lock))
    (hpos : ∀ c ∈ m.chunks, 1 ≤ c.hdr.refcount)
    (hv : alloc_ok m.chunks mem = true)
    (hok : (openForReading env m t i mem).result = .ok h) :
    (close env (openForReading env m t i mem).mgr h).mgr.chunks = m.chunks ∧
    (close env (openForReading env m t i mem).mgr h).mgr.writer_interfaces =
      m.writer_interfaces ∧
    (close env (openForReading env m t i mem).mgr h).mgr.instance_serial =
      (m.instance_serial + 1) % 2 ^ 32 ∧
    ((close env (openForReading env m t i mem).mgr h).result = .ok () ∨
      (close env (openForReading env m t i mem).mgr h).result =
        .raised .BlackBoardInterfaceNotFoundException) := by
  obtain ⟨_, hw, hmx, hser, hch⟩ := (openForReading_ok_cases env m t i mem hp hv).2 h hok
  have hreg := (openForReading_cases env m t i mem).2.2.1
  have hres : ∀ m1 : Manager, m1.mutex = false → ∀ ptr ih, h.mem_real_ptr = some ptr →
      header_at m1.chunks ptr = some ih →
      ((close env m1 h).result = .ok () ∨
        (close env m1 h).result = .raised .BlackBoardInterfaceNotFoundException) := by
    intro m1 h1 ptr ih h2 h3
    simp only [close, h1, Bool.false_eq_true, ↓reduceIte, h2, h3]
    unfold deleteInterfaceInstance
    dsimp only
    generalize hasSymbol env ("delete".toList ++ h._type) = b
    cases b <;> simp
  rcases hch with ⟨c, hf, hptr, hc⟩ | ⟨raw, F, _, hfresh, hptr, hF, hc⟩
  · obtain ⟨hcm, _, _⟩ := findInterfaceInMemory_some env _ _ _ _ hf
    have hc1 : (⟨c.ptr, { c.hdr with refcount := c.hdr.refcount + 1 }⟩ : Chunk) ∈
        (openForReading env m t i mem).mgr.chunks := by
      rw [hc]
      exact (mem_update_header _ _ _ _).mpr ⟨c, hcm, by simp⟩
    have hinj1 : ∀ a ∈ (openForReading env m t i mem).mgr.chunks,
        ∀ b ∈ (openForReading env m t i mem).mgr.chunks, a.ptr = b.ptr → a = b := by
      rw [hc]
      intro a ha b hb hab
      obtain ⟨a0, ha0, rfl⟩ := (mem_update_header _ _ _ _).mp ha
      obtain ⟨b0, hb0, rfl⟩ := (mem_update_header _ _ _ _).mp hb
      have : a0 = b0 := hinj a0 ha0 b0 hb0 (by
        by_cases h1 : a0.ptr = c.ptr <;> by_cases h2 : b0.ptr = c.ptr <;>
          simp [h1, h2] at hab <;> simp_all)
      rw [this]
    have hat := header_at_eq_some_of_mem _ _ hc1 hinj1
    obtain ⟨hm, _⟩ := close_mgr env _ h
      ⟨c.ptr, { c.hdr with refcount := c.hdr.refcount + 1 }⟩ hmx hptr hat
    have hpc := hpos c hcm
    have hnz : ¬ (c.hdr.refcount + 1 - 1 = 0) := by omega
    refine ⟨?_, ?_, ?_, hres _ hmx _ _ hptr hat⟩
    · rw [hm]
      simp only [hnz, ↓reduceIte, hc, update_header_comp, hw]
      apply update_header_id
      intro d hd hdp
      have := hinj d hd c hcm hdp
      subst this
      simp
    · rw [hm]
      simp only [hw, Bool.false_eq_true, and_false, ↓reduceIte, hreg]
    · rw [hm]
      exact hser
  · have hat : header_at (openForReading env m t i mem).mgr.chunks raw.ptr =
        some (F raw.hdr) := by
      rw [hc]
      exact header_at_update_header_fresh raw m.chunks F hfresh
    obtain ⟨hm, _⟩ := close_mgr env _ h ⟨raw.ptr, F raw.hdr⟩ hmx hptr hat
    refine ⟨?_, ?_, ?_, hres _ hmx _ _ hptr hat⟩
    · rw [hm]
      simp only [hF, Nat.sub_self, ↓reduceIte, hc, free_chunk_update_header]
      exact free_chunk_insert_fresh raw m.chunks hfresh
    · rw [hm]
      simp only [hw, Bool.false_eq_true, and_false, ↓reduceIte, hreg]
    · rw [hm]
      exact hser

/-! ## The instance serial counter at its upper end -/

/-- The effect of `openForReading` on a master with both locks free, a
registered type, no chunk found and no room in the arena: the instance
serial counter advances, nothing else changes. -/
theorem step_out_of_memory (env : Env) (s : Sys) (t i : CString)
    (hmx : s.mgr.mutex = false) (hml : s.mgr.memmgr_locked = false)
    (hma : s.mgr.bb_master = true) (hsym : hasSymbol env ("new".toList ++ t) = true)
    (hf : findInterfaceInMemory env s.mgr.chunks t i = none) :
    step env s (.openForReading t i none) =
      ⟨{ s.mgr with instance_serial := (s.mgr.instance_serial + 1) % 2 ^ 32 }, s.handles⟩ := by
  have hc := createInterface_out_of_memory env
    { s.mgr with mutex := true, memmgr_locked := true } t i hsym hma
  obtain ⟨m, hs⟩ := s
  cases m with
  | mk master ser mx ml chunks wi rw heap =>
    simp only at hmx hml hf hc
    subst hmx hml
    simp only [step, openForReading, Bool.false_eq_true, ↓reduceIte, hf, hc, handles_after_open]

theorem valid_run_replicate_out_of_memory (env : Env) (t i : CString) (n : Nat) (s : Sys) :
    valid_run env s (List.replicate n (.openForReading t i none)) = true := by
  induction n generalizing s with
  | zero => rfl
  | succ n ih =>
    simp only [List.replicate_succ, valid_run, Call.valid, alloc_ok, Bool.true_and]
    exact ih _

/-- A sequence of `n` opens that fail for lack of memory advances the
instance serial counter `n` times, modulo `2 ^ 32`, and changes nothing
else. -/
theorem run_replicate_out_of_memory (env : Env) (t i : CString)
    (hsym : hasSymbol env ("new".toList ++ t) = true) (n : Nat) (s : Sys)
    (hmx : s.mgr.mutex = false) (hml : s.mgr.memmgr_locked = false)
    (hma : s.mgr.bb_master = true)
    (hf : findInterfaceInMemory env s.mgr.chunks t i = none)
    (hk : s.mgr.instance_serial < 2 ^ 32) :
    run env s (List.replicate n (.openForReading t i none)) =
      ⟨{ s.mgr with instance_serial := (s.mgr.instance_serial + n) % 2 ^ 32 }, s.handles⟩ := by
  induction n generalizing s with
  | zero =>
    simp only [List.replicate_zero, run, Nat.add_zero, Nat.mod_eq_of_lt hk]
  | succ n ih =>
    simp only [List.replicate_succ, run]
    rw [step_out_of_memory env s t i hmx hml hma hsym hf]
    have h1 := ih ⟨{ s.mgr with instance_serial := (s.mgr.instance_serial + 1) % 2 ^ 32 },
      s.handles⟩ hmx hml hma hf (Nat.mod_lt _ (Nat.two_pow_pos 32))
    rw [h1]
    simp only [Nat.mod_add_mod, Nat.add_assoc, Nat.add_comm 1 n]

theorem count_opens_out_of_memory_calls (n : Nat) : count_opens (out_of_memory_calls n) = n := by
  simp [count_opens, out_of_memory_calls, List.countP_replicate, Call.is_open]

theorem out_of_memory_calls_succ (n : Nat) :
    out_of_memory_calls (n + 1) =
      out_of_memory_calls n ++ [.openForReading LaserInterface Laser0 none] := by
  unfold out_of_memory_calls
  exact List.replicate_succ' _ _

theorem valid_run_out_of_memory_calls (n : Nat) :
    valid_run laser_env (Sys.init true) (out_of_memory_calls n) = true :=
  valid_run_replicate_out_of_memory _ _ _ n _

theorem run_out_of_memory_calls (n : Nat) :
    (run laser_env (Sys.init true) (out_of_memory_calls n)).mgr.instance_serial =
      (1 + n) % 2 ^ 32 := by
  unfold out_of_memory_calls
  rw [run_replicate_out_of_memory laser_env LaserInterface Laser0 (by decide) n (Sys.init true)
    rfl rfl rfl rfl (by decide)]
  rfl

/-! ## The claims -/

/-- C1: on a master manager, after every finite sequence of `openForReading`,
`openForWriting` and `close` calls (each `close` on a currently open
interface), the `refcount` in the header of every live chunk equals the
number of currently open interfaces whose `mem_real_ptr` is that chunk. -/
theorem refcount_eq_open_handles (env : Env) (calls : List Call)
    (hv : valid_run env (Sys.init true) calls = true) (c : Chunk)
    (hc : c ∈ (run env (Sys.init true) calls).mgr.chunks) :
    c.hdr.refcount = (handles_at (run env (Sys.init true) calls).handles c.ptr).length :=
  (Inv_reachable env true calls hv).refcount_eq c hc

/-- Witness of C1: after two readers opened `LaserInterface` `Laser0` and
one of them closed, the one live chunk has reference count 1 and one open
interface. -/
theorem refcount_eq_open_handles_witness :
    valid_run laser_env (Sys.init true)
      [.openForReading LaserInterface Laser0 (some (zero_chunk 100)),
       .openForReading LaserInterface Laser0 none,
       .close (laser_reader 1)] = true ∧
    (⟨100, ⟨LaserInterface, Laser0, false, 1, 1⟩⟩ : Chunk) ∈
      (run laser_env (Sys.init true)
        [.openForReading LaserInterface Laser0 (some (zero_chunk 100)),
         .openForReading LaserInterface Laser0 none,
         .close (laser_reader 1)]).mgr.chunks ∧
    (1 : Nat) = (handles_at (run laser_env (Sys.init true)
        [.openForReading LaserInterface Laser0 (some (zero_chunk 100)),
         .openForReading LaserInterface Laser0 none,
         .close (laser_reader 1)]).handles 100).length :=
  ⟨by decide, by decide,
    refcount_eq_open_handles laser_env _ (by decide)
      ⟨100, ⟨LaserInterface, Laser0, false, 1, 1⟩⟩ (by decide)⟩

/-- C4: on a master manager, in every state reached by opens and closes, no
live chunk has two or more open interfaces with write access, whatever the
contents of newly allocated chunks. -/
theorem at_most_one_writer (env : Env) (calls : List Call)
    (hv : valid_run env (Sys.init true) calls = true) (c : Chunk)
    (hc : c ∈ (run env (Sys.init true) calls).mgr.chunks) :
    (writers_at (run env (Sys.init true) calls).handles c.ptr).length ≤ 1 :=
  (Inv_reachable env true calls hv).writer_unique c hc

/-- Witness of C4: a writer and a reader of `LaserInterface` `Laser0`, and a
second writer that was refused. -/
theorem at_most_one_writer_witness :
    valid_run laser_env (Sys.init true)
      [.openForWriting LaserInterface Laser0 (some (zero_chunk 100)),
       .openForReading LaserInterface Laser0 none,
       .openForWriting LaserInterface Laser0 none] = true ∧
    (⟨100, ⟨LaserInterface, Laser0, true, 2, 1⟩⟩ : Chunk) ∈
      (run laser_env (Sys.init true)
        [.openForWriting LaserInterface Laser0 (some (zero_chunk 100)),
         .openForReading LaserInterface Laser0 none,
         .openForWriting LaserInterface Laser0 none]).mgr.chunks ∧
    (writers_at (run laser_env (Sys.init true)
        [.openForWriting LaserInterface Laser0 (some (zero_chunk 100)),
         .openForReading LaserInterface Laser0 none,
         .openForWriting LaserInterface Laser0 none]).handles 100).length ≤ 1 :=
  ⟨by decide, by decide,
    at_most_one_writer laser_env _ (by decide)
      ⟨100, ⟨LaserInterface, Laser0, true, 2, 1⟩⟩ (by decide)⟩

/-- C2, the code at the failing input: after a writer of `LaserInterface`
`Laser0` was closed and a reader re-created the chunk in the freed block, no
open interface has write access, the type is registered and the arena has
room, and still `openForWriting` throws `BlackBoardWriterActiveException`. -/
theorem openForWriting_refused_without_writer :
    valid_run laser_env (Sys.init true) stale_flag_calls = true ∧
    (∀ h ∈ (run laser_env (Sys.init true) stale_flag_calls).handles, h.write_access = false) ∧
    hasSymbol laser_env ("new".toList ++ LaserInterface) = true ∧
    (openForWriting laser_env (run laser_env (Sys.init true) stale_flag_calls).mgr
      LaserInterface Laser0 (some (zero_chunk 200))).result =
        .raised .BlackBoardWriterActiveException := by
  decide

/-- C3, the code at the failing input: the chunk that `openForReading`
creates in a block freed by a writer has `flag_writer_active` set although
none of the open interfaces bound to it has write access. -/
theorem flag_set_without_writer :
    valid_run laser_env (Sys.init true) stale_flag_calls = true ∧
    (run laser_env (Sys.init true) stale_flag_calls).mgr.chunks =
      [⟨100, ⟨LaserInterface, Laser0, true, 1, 2⟩⟩] ∧
    writers_at (run laser_env (Sys.init true) stale_flag_calls).handles 100 = [] := by
  decide

/-- C8, the code at the failing input: after the only handle of a chunk, a
writer, has been closed, no chunk is live but `writer_interfaces` still has
the entry of the closed writer under its mem serial. -/
theorem registry_entry_survives_last_close :
    valid_run laser_env (Sys.init true) writer_open_close_calls = true ∧
    (run laser_env (Sys.init true) writer_open_close_calls).mgr.chunks = [] ∧
    (run laser_env (Sys.init true) writer_open_close_calls).handles = [] ∧
    map_find (run laser_env (Sys.init true) writer_open_close_calls).mgr.writer_interfaces 1 =
      some (some (laser_writer 1)) := by
  decide

/-- C5: when both locks are free and the chunk that `findInterfaceInMemory`
finds for the type and identifier has `flag_writer_active` set,
`openForWriting` throws `BlackBoardWriterActiveException` and the manager is
exactly as before the call: chunk headers, writer registry, lock table and
instance serial are unchanged and both locks are released again, the lock
of the memory manager first. -/
theorem openForWriting_writer_active (env : Env) (m : Manager) (t i : CString)
    (mem : Option Chunk) (c : Chunk)
    (hmx : m.mutex = false) (hml : m.memmgr_locked = false)
    (hf : findInterfaceInMemory env m.chunks t i = some c)
    (hfl : c.hdr.flag_writer_active = true) :
    openForWriting env m t i mem =
      ⟨.raised .BlackBoardWriterActiveException, m,
        [.mutex_lock, .memmgr_lock, .memmgr_unlock, .mutex_unlock]⟩ := by
  cases m with
  | mk master ser mx ml chunks wi rw heap =>
    simp only at hmx hml hf
    subst hmx hml
    simp [openForWriting, hf, hfl]

/-- Witness of C5: `LaserInterface` `Laser0` opened for writing twice; the
second call fails and changes nothing. -/
theorem openForWriting_writer_active_witness :
    (openForWriting laser_env (Manager.init true) LaserInterface Laser0
      (some (zero_chunk 100))).result = .ok (laser_writer 1) ∧
    openForWriting laser_env
      (openForWriting laser_env (Manager.init true) LaserInterface Laser0
        (some (zero_chunk 100))).mgr LaserInterface Laser0 (some (zero_chunk 200)) =
      ⟨.raised .BlackBoardWriterActiveException,
        (openForWriting laser_env (Manager.init true) LaserInterface Laser0
          (some (zero_chunk 100))).mgr,
        [.mutex_lock, .memmgr_lock, .memmgr_unlock, .mutex_unlock]⟩ :=
  ⟨by decide,
    openForWriting_writer_active laser_env _ LaserInterface Laser0 (some (zero_chunk 200))
      ⟨100, ⟨LaserInterface, Laser0, true, 1, 1⟩⟩ (by decide) (by decide) (by decide)
      (by decide)⟩

/-- C10: `getWriterForMemSerial(s)` returns the entry stored for `s` when
`writer_interfaces` contains `s` and throws
`BlackBoardNoWritingInstanceException` exactly when it does not; the registry
is the same afterwards.  Directly after a successful `openForWriting` that
returned `w`, the lookup of `w.mem_serial` returns `w`. -/
theorem getWriterForMemSerial_spec (m : Manager) (s : Nat) :
    (∀ v, map_find m.writer_interfaces s = some v →
      (getWriterForMemSerial m s).1 = .ok v) ∧
    (map_find m.writer_interfaces s = none ↔
      (getWriterForMemSerial m s).1 = .raised .BlackBoardNoWritingInstanceException) ∧
    (getWriterForMemSerial m s).2 = m ∧
    (∀ (env : Env) (t i : CString) (mem : Option Chunk) (w : Interface),
      (openForWriting env m t i mem).result = .ok w →
      (getWriterForMemSerial (openForWriting env m t i mem).mgr w.mem_serial).1 =
        .ok (some w)) := by
  refine ⟨?_, ?_, ?_, ?_⟩
  · intro v hv
    simp [getWriterForMemSerial, map_index, hv]
  · cases hfind : map_find m.writer_interfaces s <;>
      simp [getWriterForMemSerial, map_index, hfind]
  · cases hfind : map_find m.writer_interfaces s <;>
      simp [getWriterForMemSerial, map_index, hfind]
  · intro env t i mem w hok
    have hreg := openForWriting_ok_registry env m t i mem w hok
    simp [getWriterForMemSerial, map_index, hreg, map_find_assign]

/-- Witness of C10: after `LaserInterface` `Laser0` was opened for writing,
the lookup of the mem serial of the returned writer yields that writer. -/
theorem getWriterForMemSerial_spec_witness :
    map_find (Manager.init true).writer_interfaces 7 = none ∧
    (getWriterForMemSerial (Manager.init true) 7).1 =
      .raised .BlackBoardNoWritingInstanceException ∧
    (getWriterForMemSerial
      (openForWriting laser_env (Manager.init true) LaserInterface Laser0
        (some (zero_chunk 100))).mgr (laser_writer 1).mem_serial).1 =
      .ok (some (laser_writer 1)) :=
  ⟨by decide,
    (getWriterForMemSerial_spec (Manager.init true) 7).2.1.mp (by decide),
    (getWriterForMemSerial_spec (Manager.init true) 7).2.2.2 laser_env LaserInterface Laser0
      (some (zero_chunk 100)) (laser_writer 1) (by decide)⟩

/-- C6: in a state reached by opens and closes on a master manager, let `h`
be an open interface bound to the live chunk `c` and the mutex be free.
If the reference count of `c` is greater than 1, then after `close(h)` the
chunk is still live with its reference count reduced by exactly one and
type, identifier and serial unchanged; if it is exactly 1, then after
`close(h)` no live chunk starts at the address of `c`. -/
theorem close_refcount (env : Env) (calls : List Call)
    (hv : valid_run env (Sys.init true) calls = true) (h : Interface) (c : Chunk)
    (_hh : h ∈ (run env (Sys.init true) calls).handles)
    (hc : c ∈ (run env (Sys.init true) calls).mgr.chunks)
    (hp : h.mem_real_ptr = some c.ptr)
    (hmx : (run env (Sys.init true) calls).mgr.mutex = false) :
    (1 < c.hdr.refcount →
      ∃ c1 ∈ (close env (run env (Sys.init true) calls).mgr h).mgr.chunks,
        c1.ptr = c.ptr ∧ c1.hdr.refcount + 1 = c.hdr.refcount ∧
        c1.hdr.type = c.hdr.type ∧ c1.hdr.id = c.hdr.id ∧ c1.hdr.serial = c.hdr.serial) ∧
    (c.hdr.refcount = 1 →
      ∀ c1 ∈ (close env (run env (Sys.init true) calls).mgr h).mgr.chunks, c1.ptr ≠ c.ptr) := by
  have hinv := Inv_reachable env true calls hv
  have hat := header_at_eq_some_of_mem _ c hc hinv.ptr_inj
  have hm := (close_mgr env _ h c hmx hp hat).1
  constructor
  · intro h1
    have h0 : ¬ c.hdr.refcount - 1 = 0 := by omega
    rw [hm]
    simp only [h0, ↓reduceIte]
    refine ⟨_, (mem_update_header _ _ _ _).mpr ⟨c, hc, rfl⟩, ?_⟩
    simp only [↓reduceIte, and_true, true_and]
    omega
  · intro h1
    have h0 : c.hdr.refcount - 1 = 0 := by omega
    rw [hm]
    simp only [h0, ↓reduceIte]
    intro c1 hc1
    exact ((mem_free_chunk c1 _ _).mp hc1).2

/-- Witness of C6: two `openForReading` of `LaserInterface` `Laser0` give
reference count 2, the first `close` leaves the chunk with reference count
1, the second frees it. -/
theorem close_refcount_witness :
    (run laser_env (Sys.init true)
      [.openForReading LaserInterface Laser0 (some (zero_chunk 100)),
       .openForReading LaserInterface Laser0 none]).mgr.chunks =
      [⟨100, ⟨LaserInterface, Laser0, false, 2, 1⟩⟩] ∧
    (run laser_env (Sys.init true)
      [.openForReading LaserInterface Laser0 (some (zero_chunk 100)),
       .openForReading LaserInterface Laser0 none,
       .close (laser_reader 1)]).mgr.chunks =
      [⟨100, ⟨LaserInterface, Laser0, false, 1, 1⟩⟩] ∧
    (run laser_env (Sys.init true)
      [.openForReading LaserInterface Laser0 (some (zero_chunk 100)),
       .openForReading LaserInterface Laser0 none,
       .close (laser_reader 1),
       .close (laser_reader 2)]).mgr.chunks = [] ∧
    (∃ c1 ∈ (close laser_env (run laser_env (Sys.init true)
        [.openForReading LaserInterface Laser0 (some (zero_chunk 100)),
         .openForReading LaserInterface Laser0 none]).mgr (laser_reader 1)).mgr.chunks,
      c1.ptr = 100 ∧ c1.hdr.refcount + 1 = 2 ∧ c1.hdr.type = LaserInterface ∧
      c1.hdr.id = Laser0 ∧ c1.hdr.serial = 1) ∧
    (∀ c1 ∈ (close laser_env (run laser_env (Sys.init true)
        [.openForReading LaserInterface Laser0 (some (zero_chunk 100)),
         .openForReading LaserInterface Laser0 none,
         .close (laser_reader 1)]).mgr (laser_reader 2)).mgr.chunks, c1.ptr ≠ 100) :=
  ⟨by decide, by decide, by decide,
    (close_refcount laser_env
      [.openForReading LaserInterface Laser0 (some (zero_chunk 100)),
       .openForReading LaserInterface Laser0 none] (by decide) (laser_reader 1)
      ⟨100, ⟨LaserInterface, Laser0, false, 2, 1⟩⟩ (by decide) (by decide) (by decide)
      (by decide)).1 (by decide),
    (close_refcount laser_env
      [.openForReading LaserInterface Laser0 (some (zero_chunk 100)),
       .openForReading LaserInterface Laser0 none,
       .close (laser_reader 1)] (by decide) (laser_reader 2)
      ⟨100, ⟨LaserInterface, Laser0, false, 1, 1⟩⟩ (by decide) (by decide) (by decide)
      (by decide)).2 (by decide)⟩

/-- C7: in a state reached by opens and closes on a master manager with the
mutex free, let `c` be the chunk found for a type and identifier and `h`
the only open interface bound to it.  After `close(h)`,
`findInterfaceInMemory` finds no chunk for the type and identifier, and
every successful `openForReading` or `openForWriting` of them in that state
has taken a new chunk from the allocator, whose header carries the type and
the identifier (as `strncpy` stores them) and has reference count 1 when
the open returns. -/
theorem reopen_after_last_close (env : Env) (calls : List Call)
    (hv : valid_run env (Sys.init true) calls = true) (t i : CString)
    (h : Interface) (c : Chunk)
    (hmx : (run env (Sys.init true) calls).mgr.mutex = false)
    (hf : findInterfaceInMemory env (run env (Sys.init true) calls).mgr.chunks t i = some c)
    (hlast : handles_at (run env (Sys.init true) calls).handles c.ptr = [h]) :
    findInterfaceInMemory env
      (close env (run env (Sys.init true) calls).mgr h).mgr.chunks t i = none ∧
    ∀ (mem : Option Chunk) (h2 : Interface),
      alloc_ok (close env (run env (Sys.init true) calls).mgr h).mgr.chunks mem = true →
      ((openForReading env (close env (run env (Sys.init true) calls).mgr h).mgr
          t i mem).result = .ok h2 →
        ∃ raw, mem = some raw ∧ h2.mem_real_ptr = some raw.ptr ∧
          ∃ c1 ∈ (openForReading env (close env (run env (Sys.init true) calls).mgr h).mgr
              t i mem).mgr.chunks,
            c1.ptr = raw.ptr ∧ c1.hdr.type = strncpy t env.__INTERFACE_TYPE_SIZE ∧
            c1.hdr.id = strncpy i env.__INTERFACE_ID_SIZE ∧ c1.hdr.refcount = 1) ∧
      ((openForWriting env (close env (run env (Sys.init true) calls).mgr h).mgr
          t i mem).result = .ok h2 →
        ∃ raw, mem = some raw ∧ h2.mem_real_ptr = some raw.ptr ∧
          ∃ c1 ∈ (openForWriting env (close env (run env (Sys.init true) calls).mgr h).mgr
              t i mem).mgr.chunks,
            c1.ptr = raw.ptr ∧ c1.hdr.type = strncpy t env.__INTERFACE_TYPE_SIZE ∧
            c1.hdr.id = strncpy i env.__INTERFACE_ID_SIZE ∧ c1.hdr.refcount = 1) := by
  have hinv := Inv_reachable env true calls hv
  obtain ⟨hc, _, _⟩ := findInterfaceInMemory_some env _ _ _ _ hf
  have hat := header_at_eq_some_of_mem _ c hc hinv.ptr_inj
  have hhm : h ∈ handles_at (run env (Sys.init true) calls).handles c.ptr := by
    rw [hlast]; exact List.mem_singleton.mpr rfl
  obtain ⟨_, hp⟩ := (mem_handles_at h _ _).mp hhm
  have hrc : c.hdr.refcount = 1 := by
    rw [hinv.refcount_eq c hc, hlast]; rfl
  have hm := (close_mgr env _ h c hmx hp hat).1
  have hnone : findInterfaceInMemory env
      (close env (run env (Sys.init true) calls).mgr h).mgr.chunks t i = none := by
    rw [hm]
    simp only [hrc, Nat.sub_self, ↓reduceIte]
    exact findInterfaceInMemory_free hinv t i c hf
  refine ⟨hnone, ?_⟩
  intro mem h2 hal
  exact ⟨openForReading_created env _ t i mem h2 hnone hal,
    openForWriting_created env _ t i mem h2 hnone hal⟩

/-- Witness of C7: the only reader of `LaserInterface` `Laser0` is closed;
the chunk is gone and the next `openForWriting` creates a chunk in the block
the allocator hands out. -/
theorem reopen_after_last_close_witness :
    findInterfaceInMemory laser_env
      (close laser_env (run laser_env (Sys.init true)
        [.openForReading LaserInterface Laser0 (some (zero_chunk 100))]).mgr
        (laser_reader 1)).mgr.chunks LaserInterface Laser0 = none ∧
    ∃ raw, some (zero_chunk 200) = some raw ∧
      ({ laser_writer 2 with mem_real_ptr := some 200, rwlock := some 1 } : Interface).mem_real_ptr =
        some raw.ptr ∧
      ∃ c1 ∈ (openForWriting laser_env (close laser_env (run laser_env (Sys.init true)
          [.openForReading LaserInterface Laser0 (some (zero_chunk 100))]).mgr
          (laser_reader 1)).mgr LaserInterface Laser0 (some (zero_chunk 200))).mgr.chunks,
        c1.ptr = raw.ptr ∧ c1.hdr.type = strncpy LaserInterface laser_env.__INTERFACE_TYPE_SIZE ∧
        c1.hdr.id = strncpy Laser0 laser_env.__INTERFACE_ID_SIZE ∧ c1.hdr.refcount = 1 :=
  ⟨(reopen_after_last_close laser_env
      [.openForReading LaserInterface Laser0 (some (zero_chunk 100))] (by decide)
      LaserInterface Laser0 (laser_reader 1) ⟨100, ⟨LaserInterface, Laser0, false, 1, 1⟩⟩
      (by decide) (by decide) (by decide)).1,
    ((reopen_after_last_close laser_env
      [.openForReading LaserInterface Laser0 (some (zero_chunk 100))] (by decide)
      LaserInterface Laser0 (laser_reader 1) ⟨100, ⟨LaserInterface, Laser0, false, 1, 1⟩⟩
      (by decide) (by decide) (by decide)).2 (some (zero_chunk 200))
      { laser_writer 2 with mem_real_ptr := some 200, rwlock := some 1 } (by decide)).2
      (by decide)⟩

/-- The close of a writer whose chunk has other handles, for a `close` that
returns normally: in a state reached by opens and closes on a master
manager with both locks free, let `w` be an open interface with write access bound to the
chunk `c` that is found for a type and identifier, and let `c` have
reference count at least 2.  After `close(w)` the chunk is still live with
`flag_writer_active` cleared and the writer registry has no entry for the
mem serial of `w`; and when `close` returned normally and the type is
registered, a following `openForWriting` of the type and identifier
succeeds on that chunk. -/
theorem close_writer_then_openForWriting (env : Env) (calls : List Call)
    (hv : valid_run env (Sys.init true) calls = true) (t i : CString)
    (w : Interface) (c : Chunk)
    (hmx : (run env (Sys.init true) calls).mgr.mutex = false)
    (hml : (run env (Sys.init true) calls).mgr.memmgr_locked = false)
    (_hw : w ∈ (run env (Sys.init true) calls).handles)
    (hwa : w.write_access = true) (hp : w.mem_real_ptr = some c.ptr)
    (hf : findInterfaceInMemory env (run env (Sys.init true) calls).mgr.chunks t i = some c)
    (hrc : 2 ≤ c.hdr.refcount) :
    (∃ c1 ∈ (close env (run env (Sys.init true) calls).mgr w).mgr.chunks,
      c1.ptr = c.ptr ∧ c1.hdr.flag_writer_active = false ∧
      c1.hdr.refcount + 1 = c.hdr.refcount) ∧
    map_find (close env (run env (Sys.init true) calls).mgr w).mgr.writer_interfaces
      w.mem_serial = none ∧
    ((close env (run env (Sys.init true) calls).mgr w).result = .ok () →
      hasSymbol env ("new".toList ++ t) = true →
      ∀ mem : Option Chunk, ∃ w2,
        (openForWriting env (close env (run env (Sys.init true) calls).mgr w).mgr
          t i mem).result = .ok w2 ∧
        w2.write_access = true ∧ w2.mem_real_ptr = some c.ptr) := by
  have hinv := Inv_reachable env true calls hv
  have hma := master_reachable env true calls hv
  obtain ⟨hc, _, _⟩ := findInterfaceInMemory_some env _ _ _ _ hf
  have hat := header_at_eq_some_of_mem _ c hc hinv.ptr_inj
  obtain ⟨hm, hres⟩ := close_mgr env _ w c hmx hp hat
  have h0 : ¬ c.hdr.refcount - 1 = 0 := by omega
  simp only [h0, ↓reduceIte, hwa, ne_eq, not_false_eq_true, and_self, Bool.not_true,
    Bool.false_and] at hm
  refine ⟨?_, ?_, ?_⟩
  · rw [hm]
    dsimp only
    refine ⟨_, (mem_update_header _ _ _ _).mpr ⟨c, hc, rfl⟩, ?_⟩
    simp only [↓reduceIte, true_and]
    omega
  · rw [hm]
    simp [map_find_erase]
  · intro hok hsym mem
    have hdel := hres.mp hok
    obtain ⟨lock, hlk⟩ := hinv.rwlock_present c hc
    have hf2 : findInterfaceInMemory env
        (close env (run env (Sys.init true) calls).mgr w).mgr.chunks t i =
        some ⟨c.ptr, { c.hdr with refcount := c.hdr.refcount - 1
                                  flag_writer_active := false }⟩ := by
      rw [hm]
      simp only []
      rw [findInterfaceInMemory_update env _ t i c.ptr
        (fun x => { x with flag_writer_active := false, refcount := c.hdr.refcount - 1 })
        (fun _ => rfl) (fun _ => rfl), hf]
      simp
    obtain ⟨w2, h1, h2, h3, _⟩ := openForWriting_found_ok env
      (close env (run env (Sys.init true) calls).mgr w).mgr t i mem _ lock
      (by rw [hm]; simp [hdel]) (by rw [hm]; exact hml) hf2 rfl hsym
      (by rw [hm]; exact hma) (by rw [hm]; exact hlk)
    exact ⟨w2, h1, h2, h3⟩

/-- An instance of `close_writer_then_openForWriting`: a reader and a writer
of `LaserInterface` `Laser0`; the writer is closed and a new writer can be
opened. -/
theorem close_writer_then_openForWriting_witness :
    (∃ c1 ∈ (close laser_env (run laser_env (Sys.init true)
        [.openForReading LaserInterface Laser0 (some (zero_chunk 100)),
         .openForWriting LaserInterface Laser0 none]).mgr (laser_writer 2)).mgr.chunks,
      c1.ptr = 100 ∧ c1.hdr.flag_writer_active = false ∧ c1.hdr.refcount + 1 = 2) ∧
    map_find (close laser_env (run laser_env (Sys.init true)
        [.openForReading LaserInterface Laser0 (some (zero_chunk 100)),
         .openForWriting LaserInterface Laser0 none]).mgr (laser_writer 2)).mgr.writer_interfaces
      1 = none ∧
    ∃ w2, (openForWriting laser_env (close laser_env (run laser_env (Sys.init true)
        [.openForReading LaserInterface Laser0 (some (zero_chunk 100)),
         .openForWriting LaserInterface Laser0 none]).mgr (laser_writer 2)).mgr
        LaserInterface Laser0 none).result = .ok w2 ∧
      w2.write_access = true ∧ w2.mem_real_ptr = some 100 :=
  ⟨(close_writer_then_openForWriting laser_env
      [.openForReading LaserInterface Laser0 (some (zero_chunk 100)),
       .openForWriting LaserInterface Laser0 none] (by decide) LaserInterface Laser0
      (laser_writer 2) ⟨100, ⟨LaserInterface, Laser0, true, 2, 1⟩⟩
      (by decide) (by decide) (by decide) (by decide) (by decide) (by decide) (by decide)).1,
    (close_writer_then_openForWriting laser_env
      [.openForReading LaserInterface Laser0 (some (zero_chunk 100)),
       .openForWriting LaserInterface Laser0 none] (by decide) LaserInterface Laser0
      (laser_writer 2) ⟨100, ⟨LaserInterface, Laser0, true, 2, 1⟩⟩
      (by decide) (by decide) (by decide) (by decide) (by decide) (by decide) (by decide)).2.1,
    (close_writer_then_openForWriting laser_env
      [.openForReading LaserInterface Laser0 (some (zero_chunk 100)),
       .openForWriting LaserInterface Laser0 none] (by decide) LaserInterface Laser0
      (laser_writer 2) ⟨100, ⟨LaserInterface, Laser0, true, 2, 1⟩⟩
      (by decide) (by decide) (by decide) (by decide) (by decide) (by decide) (by decide)).2.2
      (by decide) (by decide) none⟩

/-- C11, the code at the failing input: a writer that was the only handle
of its chunk is closed and the same type and identifier are opened for
reading again.  No open interface has write access, yet `existsWriter` on
the new reader is true: `close` left the entry of the closed writer in
`writer_interfaces` and the new chunk received the same mem serial. -/
theorem existsWriter_after_writer_closed :
    valid_run laser_env (Sys.init true) stale_registry_calls = true ∧
    (run laser_env (Sys.init true) stale_registry_calls).handles =
      [{ laser_reader 2 with mem_real_ptr := some 200, rwlock := some 1 }] ∧
    writers_at (run laser_env (Sys.init true) stale_registry_calls).handles 200 = [] ∧
    existsWriter (run laser_env (Sys.init true) stale_registry_calls).mgr
      { laser_reader 2 with mem_real_ptr := some 200, rwlock := some 1 } = true := by
  decide

/-- C13, the code at the failing input: `openForReading` of a type without
generator throws `BlackBoardInterfaceNotFoundException` with the manager
mutex and the lock of the memory manager still held, and a following open
of a registered type never gets the mutex. -/
theorem locks_held_after_not_found :
    (openForReading laser_env (Manager.init true) UnknownInterface Laser0
      (some (zero_chunk 100))).result = .raised .BlackBoardInterfaceNotFoundException ∧
    (openForReading laser_env (Manager.init true) UnknownInterface Laser0
      (some (zero_chunk 100))).mgr.mutex = true ∧
    (openForReading laser_env (Manager.init true) UnknownInterface Laser0
      (some (zero_chunk 100))).mgr.memmgr_locked = true ∧
    (openForReading laser_env (Manager.init true) UnknownInterface Laser0
      (some (zero_chunk 100))).events = [.mutex_lock, .memmgr_lock] ∧
    (openForReading laser_env
      (openForReading laser_env (Manager.init true) UnknownInterface Laser0
        (some (zero_chunk 100))).mgr LaserInterface Laser0 (some (zero_chunk 100))).result =
      .blocked := by
  decide

/-- C16, the code at the failing input: the second of three new blocks
holds `2 ^ 32 - 2` in its serial field, so its chunk gets serial
`2 ^ 32 - 1`; the scan for the third chunk wraps to 0 there and ends with
1, the serial of the first chunk, which is still live. -/
theorem serial_clash :
    valid_run laser_env (Sys.init true) serial_clash_calls = true ∧
    (run laser_env (Sys.init true) serial_clash_calls).mgr.chunks.map
      (fun c => (c.ptr, c.hdr.id, c.hdr.serial)) =
      [(100, Laser0, 1), (200, Laser1, 4294967295), (300, LaserInterface, 1)] := by
  decide

/-- C18: a sequence of opens and closes on a master manager in which two
chunks that are never live at the same time and belong to different
identifiers receive the same serial: `Laser0` is opened and closed, then
`Laser1` is opened; both chunks have serial 1. -/
theorem serial_reused_across_history :
    valid_run laser_env (Sys.init true) serial_reuse_calls = true ∧
    (run laser_env (Sys.init true) (serial_reuse_calls.take 1)).mgr.chunks =
      [⟨100, ⟨LaserInterface, Laser0, false, 1, 1⟩⟩] ∧
    (run laser_env (Sys.init true) (serial_reuse_calls.take 2)).mgr.chunks = [] ∧
    (run laser_env (Sys.init true) serial_reuse_calls).mgr.chunks =
      [⟨200, ⟨LaserInterface, Laser1, false, 1, 1⟩⟩] ∧
    Laser0 ≠ Laser1 := by
  decide

/-- C12, counterexample: `NavigatorTargetPositionInterfaceB` has no
generator, but its first 32 characters are those of the registered
`NavigatorTargetPositionInterfaceA`, for which a writer is open; so
`openForWriting` finds that chunk and throws
`BlackBoardWriterActiveException`, not
`BlackBoardInterfaceNotFoundException`. -/
theorem unregistered_type_writer_active :
    valid_run long_env (Sys.init true)
      [.openForWriting LongInterfaceA Laser0 (some (zero_chunk 100))] = true ∧
    hasSymbol long_env ("new".toList ++ LongInterfaceB) = false ∧
    (run long_env (Sys.init true)
      [.openForWriting LongInterfaceA Laser0 (some (zero_chunk 100))]).mgr.mutex = false ∧
    (run long_env (Sys.init true)
      [.openForWriting LongInterfaceA Laser0 (some (zero_chunk 100))]).mgr.memmgr_locked = false ∧
    (openForWriting long_env (run long_env (Sys.init true)
      [.openForWriting LongInterfaceA Laser0 (some (zero_chunk 100))]).mgr
      LongInterfaceB Laser0 (some (zero_chunk 200))).result =
        .raised .BlackBoardWriterActiveException := by
  decide

/-- C14, counterexample: on a manager that is not the master,
`openForReading` of a registered type throws `BBNotMasterException` only
after it has taken the mutex and the lock of the memory manager, and
`openForReading` of a type without generator throws
`BlackBoardInterfaceNotFoundException`. -/
theorem not_master_after_arena_lock :
    (openForReading laser_env (Manager.init false) LaserInterface Laser0
      (some (zero_chunk 100))).result = .raised .BBNotMasterException ∧
    LockEvent.memmgr_lock ∈ (openForReading laser_env (Manager.init false) LaserInterface Laser0
      (some (zero_chunk 100))).events ∧
    (openForReading laser_env (Manager.init false) UnknownInterface Laser0
      (some (zero_chunk 100))).result = .raised .BlackBoardInterfaceNotFoundException := by
  decide

/-- C12 (amended): for every manager state with both locks free and every
type name without generator symbol, `openForReading` throws
`BlackBoardInterfaceNotFoundException`, and so does `openForWriting` unless
it finds a chunk whose `flag_writer_active` is set, in which case it throws
`BlackBoardWriterActiveException`; in each case the live chunks with their
headers, the writer registry, the lock table and the instance serial
counter are as before the call. -/
theorem open_unregistered_type (env : Env) (m : Manager) (t i : CString)
    (mem : Option Chunk) (hmx : m.mutex = false) (hml : m.memmgr_locked = false)
    (hsym : hasSymbol env ("new".toList ++ t) = false) :
    ((openForReading env m t i mem).result = .raised .BlackBoardInterfaceNotFoundException ∧
      same_but_locks (openForReading env m t i mem).mgr m) ∧
    ((openForWriting env m t i mem).result =
        .raised (if writer_flag_found env m t i = true then .BlackBoardWriterActiveException
          else .BlackBoardInterfaceNotFoundException) ∧
      same_but_locks (openForWriting env m t i mem).mgr m) := by
  constructor
  · rw [openForReading_fail env m t i mem hmx hml (Or.inl hsym)]
    simp only [hsym, Bool.false_eq_true, ↓reduceIte]
    simp [same_but_locks]
  · cases hf : findInterfaceInMemory env m.chunks t i with
    | none =>
      rw [openForWriting_fail env m t i mem hmx hml (Or.inl hsym) (by simp [hf])]
      simp only [hsym, Bool.false_eq_true, ↓reduceIte]
      simp [same_but_locks, writer_flag_found, hf]
    | some c =>
      by_cases hfl : c.hdr.flag_writer_active = true
      · rw [openForWriting_flag_set env m t i mem c hmx hml hf hfl]
        simp [same_but_locks, writer_flag_found, hf, hfl]
      · rw [openForWriting_fail env m t i mem hmx hml (Or.inl hsym)
          (by intro d hd; rw [hf] at hd; cases hd; simpa using hfl)]
        simp only [hsym, Bool.false_eq_true, ↓reduceIte]
        simp [same_but_locks, writer_flag_found, hf, hfl]

/-- Witness of C12: `UnknownInterface` opened on a new master manager whose
module only knows `LaserInterface`. -/
theorem open_unregistered_type_witness :
    ((openForReading laser_env (Manager.init true) UnknownInterface Laser0
        (some (zero_chunk 100))).result = .raised .BlackBoardInterfaceNotFoundException ∧
      same_but_locks (openForReading laser_env (Manager.init true) UnknownInterface Laser0
        (some (zero_chunk 100))).mgr (Manager.init true)) ∧
    ((openForWriting laser_env (Manager.init true) UnknownInterface Laser0
        (some (zero_chunk 100))).result =
        .raised (if writer_flag_found laser_env (Manager.init true) UnknownInterface Laser0 = true
          then .BlackBoardWriterActiveException
          else .BlackBoardInterfaceNotFoundException) ∧
      same_but_locks (openForWriting laser_env (Manager.init true) UnknownInterface Laser0
        (some (zero_chunk 100))).mgr (Manager.init true)) :=
  open_unregistered_type laser_env (Manager.init true) UnknownInterface Laser0
    (some (zero_chunk 100)) (by decide) (by decide) (by decide)

/-- C14 (amended): on a manager that is not the master, every
`openForReading` and `openForWriting` made with both locks free fails: with
`BlackBoardInterfaceNotFoundException` when the type has no generator
symbol and with `BBNotMasterException` when it has one, except that
`openForWriting` throws `BlackBoardWriterActiveException` when it finds a
chunk whose `flag_writer_active` is set.  The call first takes the manager
mutex and then the lock of the memory manager; the live chunks with their
headers, the writer registry, the lock table and the instance serial
counter are as before the call. -/
theorem open_not_master (env : Env) (m : Manager) (t i : CString)
    (mem : Option Chunk) (hmx : m.mutex = false) (hml : m.memmgr_locked = false)
    (hma : m.bb_master = false) :
    ((openForReading env m t i mem).result =
        .raised (if hasSymbol env ("new".toList ++ t) = true then .BBNotMasterException
          else .BlackBoardInterfaceNotFoundException) ∧
      (openForReading env m t i mem).events.take 2 = [.mutex_lock, .memmgr_lock] ∧
      same_but_locks (openForReading env m t i mem).mgr m) ∧
    ((openForWriting env m t i mem).result =
        .raised (if writer_flag_found env m t i = true then .BlackBoardWriterActiveException
          else if hasSymbol env ("new".toList ++ t) = true then .BBNotMasterException
          else .BlackBoardInterfaceNotFoundException) ∧
      (openForWriting env m t i mem).events.take 2 = [.mutex_lock, .memmgr_lock] ∧
      same_but_locks (openForWriting env m t i mem).mgr m) := by
  constructor
  · rw [openForReading_fail env m t i mem hmx hml (Or.inr hma)]
    simp [same_but_locks]
  · cases hf : findInterfaceInMemory env m.chunks t i with
    | none =>
      rw [openForWriting_fail env m t i mem hmx hml (Or.inr hma) (by simp [hf])]
      simp [same_but_locks, writer_flag_found, hf]
    | some c =>
      by_cases hfl : c.hdr.flag_writer_active = true
      · rw [openForWriting_flag_set env m t i mem c hmx hml hf hfl]
        simp [same_but_locks, writer_flag_found, hf, hfl]
      · rw [openForWriting_fail env m t i mem hmx hml (Or.inr hma)
          (by intro d hd; rw [hf] at hd; cases hd; simpa using hfl)]
        simp [same_but_locks, writer_flag_found, hf, hfl]

/-- Witness of C14: `LaserInterface` `Laser0` opened on a new manager that
is not the master. -/
theorem open_not_master_witness :
    ((openForReading laser_env (Manager.init false) LaserInterface Laser0
        (some (zero_chunk 100))).result =
        .raised (if hasSymbol laser_env ("new".toList ++ LaserInterface) = true
          then .BBNotMasterException else .BlackBoardInterfaceNotFoundException) ∧
      (openForReading laser_env (Manager.init false) LaserInterface Laser0
        (some (zero_chunk 100))).events.take 2 = [.mutex_lock, .memmgr_lock] ∧
      same_but_locks (openForReading laser_env (Manager.init false) LaserInterface Laser0
        (some (zero_chunk 100))).mgr (Manager.init false)) ∧
    ((openForWriting laser_env (Manager.init false) LaserInterface Laser0
        (some (zero_chunk 100))).result =
        .raised (if writer_flag_found laser_env (Manager.init false) LaserInterface Laser0 = true
          then .BlackBoardWriterActiveException
          else if hasSymbol laser_env ("new".toList ++ LaserInterface) = true
          then .BBNotMasterException else .BlackBoardInterfaceNotFoundException) ∧
      (openForWriting laser_env (Manager.init false) LaserInterface Laser0
        (some (zero_chunk 100))).events.take 2 = [.mutex_lock, .memmgr_lock] ∧
      same_but_locks (openForWriting laser_env (Manager.init false) LaserInterface Laser0
        (some (zero_chunk 100))).mgr (Manager.init false)) :=
  open_not_master laser_env (Manager.init false) LaserInterface Laser0
    (some (zero_chunk 100)) (by decide) (by decide) (by decide)

/-- C15: on a master manager with both locks free and a registered type,
when no chunk is found for the type and identifier and `alloc_nolock`
throws, `openForReading` and `openForWriting` throw `OutOfMemoryException`
after releasing the lock of the memory manager and then the manager mutex,
each once; the live chunks, the writer registry and the lock table are
unchanged (the instance serial counter has advanced). -/
theorem open_out_of_memory (env : Env) (m : Manager) (t i : CString)
    (hmx : m.mutex = false) (hml : m.memmgr_locked = false) (hma : m.bb_master = true)
    (hsym : hasSymbol env ("new".toList ++ t) = true)
    (hf : findInterfaceInMemory env m.chunks t i = none) :
    openForReading env m t i none =
      ⟨.raised .OutOfMemoryException,
        { m with instance_serial := (m.instance_serial + 1) % 2 ^ 32 },
        [.mutex_lock, .memmgr_lock, .memmgr_unlock, .mutex_unlock]⟩ ∧
    openForWriting env m t i none =
      ⟨.raised .OutOfMemoryException,
        { m with instance_serial := (m.instance_serial + 1) % 2 ^ 32 },
        [.mutex_lock, .memmgr_lock, .memmgr_unlock, .mutex_unlock]⟩ := by
  have hc := createInterface_out_of_memory env { m with mutex := true, memmgr_locked := true }
    t i hsym hma
  cases m with
  | mk master ser mx ml chunks wi rw heap =>
    simp only at hmx hml hf hc
    subst hmx hml
    constructor
    · simp only [openForReading, Bool.false_eq_true, ↓reduceIte, hf, hc]
      rfl
    · simp only [openForWriting, Bool.false_eq_true, ↓reduceIte, hf, hc]
      rfl

/-- Witness of C15: `LaserInterface` `Laser0` opened on a new master manager
whose arena has no room. -/
theorem open_out_of_memory_witness :
    openForReading laser_env (Manager.init true) LaserInterface Laser0 none =
      ⟨.raised .OutOfMemoryException,
        { Manager.init true with
          instance_serial := ((Manager.init true).instance_serial + 1) % 2 ^ 32 },
        [.mutex_lock, .memmgr_lock, .memmgr_unlock, .mutex_unlock]⟩ ∧
    openForWriting laser_env (Manager.init true) LaserInterface Laser0 none =
      ⟨.raised .OutOfMemoryException,
        { Manager.init true with
          instance_serial := ((Manager.init true).instance_serial + 1) % 2 ^ 32 },
        [.mutex_lock, .memmgr_lock, .memmgr_unlock, .mutex_unlock]⟩ :=
  open_out_of_memory laser_env (Manager.init true) LaserInterface Laser0
    (by decide) (by decide) (by decide) (by decide) (by decide)

/-- C17, the code at the failing input: on a new master manager no chunk is
live, the block that `alloc_nolock` returns holds 41 in its serial field,
and the chunk that `openForReading` creates in it gets serial 42, not 1:
`createInterface` calls `getNextMemSerial` when the new chunk is already
among the chunks that the scan visits. -/
theorem new_chunk_serial_from_raw_block :
    (Manager.init true).chunks = [] ∧
    alloc_ok (Manager.init true).chunks (some (raw_chunk 100 41)) = true ∧
    (openForReading laser_env (Manager.init true) LaserInterface Laser0
      (some (raw_chunk 100 41))).mgr.chunks =
      [⟨100, ⟨LaserInterface, Laser0, false, 1, 42⟩⟩] := by
  decide

/-- C19 (amended): the instance serial counter of a new master manager is 1.  For
every sequence of calls with fewer than `2 ^ 32 - 1` opens, the counter
after a part of the sequence is at most the counter after the whole
sequence, and the interfaces returned by the successful opens carry, in the
order of the calls, strictly increasing and hence pairwise distinct
instance serials; closes and the re-creation of chunks are among the
sequences. -/
theorem instance_serial_increasing (env : Env) (calls : List Call)
    (hb : count_opens calls < 2 ^ 32 - 1) :
    (Sys.init true).mgr.instance_serial = 1 ∧
    (∀ pre post, calls = pre ++ post →
      (run env (Sys.init true) pre).mgr.instance_serial ≤
        (run env (Sys.init true) calls).mgr.instance_serial) ∧
    (returned env (Sys.init true) calls).Pairwise
      (fun a b => a.instance_serial < b.instance_serial) ∧
    ((returned env (Sys.init true) calls).map (fun h => h.instance_serial)).Nodup := by
  have h1 : (Sys.init true).mgr.instance_serial = 1 := rfl
  have hall := run_serial env calls (Sys.init true) (by rw [h1]; omega)
  refine ⟨h1, ?_, hall.2.2.2, ?_⟩
  · intro pre post hsplit
    subst hsplit
    rw [count_opens_append] at hb
    have hpre := run_serial env pre (Sys.init true) (by rw [h1]; omega)
    rw [run_append]
    exact (run_serial env post _ (by rw [h1] at hpre; omega)).1
  · rw [List.Nodup, List.pairwise_map]
    exact hall.2.2.2.imp (fun h => Nat.ne_of_lt h)

/-- Witness of C19 (amended): a writer of `Laser0` is opened and closed, a reader
re-creates the chunk and a second reader joins; the three interfaces carry
the instance serials 1, 2, 3. -/
theorem instance_serial_increasing_witness :
    (returned laser_env (Sys.init true)
      (stale_registry_calls ++ [.openForReading LaserInterface Laser0 none])).map
        (fun h => h.instance_serial) = [1, 2, 3] ∧
    (returned laser_env (Sys.init true)
      (stale_registry_calls ++ [.openForReading LaserInterface Laser0 none])).Pairwise
        (fun a b => a.instance_serial < b.instance_serial) :=
  ⟨by decide,
    (instance_serial_increasing laser_env
      (stale_registry_calls ++ [.openForReading LaserInterface Laser0 none])
      (by decide)).2.2.1⟩

/-- C21, the code at the failing input: the module has no destroyer for
`LaserInterface`.  `close` of one of two readers decrements the reference
count once, from 2 to 1, and throws
`BlackBoardInterfaceNotFoundException` with the manager mutex still held:
the `close` of the other reader never gets the mutex. -/
theorem close_keeps_mutex_when_destroyer_missing :
    valid_run laser_new_only_env (Sys.init true) two_readers_calls = true ∧
    (run laser_new_only_env (Sys.init true) two_readers_calls).mgr.chunks =
      [⟨100, ⟨LaserInterface, Laser0, false, 2, 1⟩⟩] ∧
    (close laser_new_only_env (run laser_new_only_env (Sys.init true) two_readers_calls).mgr
      (laser_reader 1)).result = .raised .BlackBoardInterfaceNotFoundException ∧
    (close laser_new_only_env (run laser_new_only_env (Sys.init true) two_readers_calls).mgr
      (laser_reader 1)).mgr.chunks = [⟨100, ⟨LaserInterface, Laser0, false, 1, 1⟩⟩] ∧
    (close laser_new_only_env (run laser_new_only_env (Sys.init true) two_readers_calls).mgr
      (laser_reader 1)).mgr.mutex = true ∧
    (close laser_new_only_env (run laser_new_only_env (Sys.init true) two_readers_calls).mgr
      (laser_reader 1)).events = [.mutex_lock] ∧
    (close laser_new_only_env
      (close laser_new_only_env (run laser_new_only_env (Sys.init true) two_readers_calls).mgr
        (laser_reader 1)).mgr (laser_reader 2)).result = .blocked := by
  decide

/-- C22, the code at the failing input: two readers open `LaserInterface`
`Laser0` and both are closed.  After the first `close` one interface is
open but the lock of the chunk is still held twice; after the second no
chunk is live but `rwlocks` still has the entry for serial 1 and the lock
object is still held twice. -/
theorem lock_never_released :
    valid_run laser_env (Sys.init true)
      (two_readers_calls ++ [.close (laser_reader 1), .close (laser_reader 2)]) = true ∧
    (run laser_env (Sys.init true) two_readers_calls).mgr.lock_heap = [2] ∧
    (handles_at (run laser_env (Sys.init true)
      (two_readers_calls ++ [.close (laser_reader 1)])).handles 100).length = 1 ∧
    (run laser_env (Sys.init true)
      (two_readers_calls ++ [.close (laser_reader 1)])).mgr.lock_heap = [2] ∧
    (run laser_env (Sys.init true)
      (two_readers_calls ++ [.close (laser_reader 1), .close (laser_reader 2)])).mgr.chunks = [] ∧
    (run laser_env (Sys.init true)
      (two_readers_calls ++ [.close (laser_reader 1), .close (laser_reader 2)])).mgr.rwlocks =
        [(1, some 0)] ∧
    (run laser_env (Sys.init true)
      (two_readers_calls ++ [.close (laser_reader 1), .close (laser_reader 2)])).mgr.lock_heap =
        [2] := by
  decide

/-- C23, the code at the failing input: for the empty string and for a
string of digits only `find_first_not_of` yields `npos` and `substr(npos)`
throws `std::out_of_range`, so `stripClassType` does not return;
`14LaserInterface` gives `LaserInterface`. -/
theorem stripClassType_throws_on_digits :
    stripClassType "".toList = none ∧
    stripClassType "123".toList = none ∧
    stripClassType "14LaserInterface".toList = some "LaserInterface".toList := by
  decide

/-- C26, the code at the failing input: nodes are pairs of a name and a
number.  When the only node of the list is removed, or the matching node is
the last one, the iterator steps past the end; of two adjacent nodes named
`a` the second stays in the list. -/
theorem remove_node_skips_and_overruns :
    remove_node Prod.fst [("a", 1)] ("a", 0) = none ∧
    remove_node Prod.fst [("b", 1), ("a", 2)] ("a", 0) = none ∧
    remove_node Prod.fst [("a", 1), ("a", 2), ("b", 3)] ("a", 0) =
      some [("a", 2), ("b", 3)] := by
  decide

/-- C30, the code at the failing input: for a scan of five ranges and
`max_beams = 10`, and for a scan of one range and `max_beams = 2`,
`UpdateSensor` runs the model, the step is 0, the loop body is entered and
the loop is still running after any number of tests of its condition. -/
theorem beam_loop_does_not_end :
    UpdateSensor_runs 10 = true ∧ beam_step 5 10 = 0 ∧
    (∀ fuel, beam_loop 5 (beam_step 5 10) fuel 0 = none) ∧
    UpdateSensor_runs 2 = true ∧ beam_step 1 2 = 0 ∧
    (∀ fuel, beam_loop 1 (beam_step 1 2) fuel 0 = none) :=
  ⟨by decide, by decide, fun fuel => beam_loop_step_zero 5 fuel 0 (by decide),
    by decide, by decide, fun fuel => beam_loop_step_zero 1 fuel 0 (by decide)⟩

/-- C27, counterexample: on a new master manager the instance serial
counter is 1; `openForReading` of a registered type that fails with
`OutOfMemoryException` leaves it at 2, and around such a failure the
successfully opened interfaces get the instance serials 1 and 3. -/
theorem out_of_memory_advances_instance_serial :
    (Manager.init true).instance_serial = 1 ∧
    (openForReading laser_env (Manager.init true) LaserInterface Laser0 none).result =
      .raised .OutOfMemoryException ∧
    (openForReading laser_env (Manager.init true) LaserInterface Laser0
      none).mgr.instance_serial = 2 ∧
    (returned laser_env (Sys.init true) out_of_memory_between_calls).map
      (fun h => h.instance_serial) = [1, 3] := by
  decide

/-- C24: in every state reached by opens and closes on a master manager, no
two live chunks (two positions of the chunk list) have headers that are
equal under the comparison of `findInterfaceInMemory`, and for every type
and identifier `findInterfaceInMemory` returns `NULL` when no live chunk
matches and otherwise a live chunk that matches and is the only one that
does. -/
theorem live_chunks_have_distinct_keys (env : Env) (calls : List Call)
    (hv : valid_run env (Sys.init true) calls = true) :
    (run env (Sys.init true) calls).mgr.chunks.Pairwise
      (fun a b => ¬ same_key env a.hdr b.hdr) ∧
    ∀ t i : CString,
      match findInterfaceInMemory env (run env (Sys.init true) calls).mgr.chunks t i with
      | none => ∀ c ∈ (run env (Sys.init true) calls).mgr.chunks,
          ¬ (c.hdr.type.take env.__INTERFACE_TYPE_SIZE = t.take env.__INTERFACE_TYPE_SIZE ∧
             c.hdr.id.take env.__INTERFACE_ID_SIZE = i.take env.__INTERFACE_ID_SIZE)
      | some c => c ∈ (run env (Sys.init true) calls).mgr.chunks ∧
          c.hdr.type.take env.__INTERFACE_TYPE_SIZE = t.take env.__INTERFACE_TYPE_SIZE ∧
          c.hdr.id.take env.__INTERFACE_ID_SIZE = i.take env.__INTERFACE_ID_SIZE ∧
          ∀ d ∈ (run env (Sys.init true) calls).mgr.chunks,
            d.hdr.type.take env.__INTERFACE_TYPE_SIZE = t.take env.__INTERFACE_TYPE_SIZE →
            d.hdr.id.take env.__INTERFACE_ID_SIZE = i.take env.__INTERFACE_ID_SIZE → d = c := by
  have hinv := Inv_reachable env true calls hv
  have hnd := run_ptrs_nodup env calls (Sys.init true) hv List.nodup_nil
  refine ⟨?_, fun t i => findInterfaceInMemory_unique env _ t i hinv.key_inj⟩
  exact (List.pairwise_map.mp hnd).imp_of_mem
    (fun ha hb hne hk => hne (congrArg Chunk.ptr (hinv.key_inj _ ha _ hb hk)))

/-- Witness of C24: readers of `Laser0` and `Laser1` are open, with a
failed open in between; the two live chunks differ in their keys. -/
theorem live_chunks_have_distinct_keys_witness :
    valid_run laser_env (Sys.init true) out_of_memory_between_calls = true ∧
    (run laser_env (Sys.init true) out_of_memory_between_calls).mgr.chunks.length = 2 ∧
    (run laser_env (Sys.init true) out_of_memory_between_calls).mgr.chunks.Pairwise
      (fun a b => ¬ same_key laser_env a.hdr b.hdr) :=
  ⟨by decide, by decide,
    (live_chunks_have_distinct_keys laser_env out_of_memory_between_calls (by decide)).1⟩

/-- C25: for every manager state and every `openForReading` and
`openForWriting`, the lock operations of the call, replayed from the state
of the two locks before the call, respect the lock order (the lock of the
memory manager is taken only while the mutex is held and the mutex is
released only after it), and on the paths that release both locks
(successful return, `BlackBoardWriterActiveException`,
`OutOfMemoryException`) the operations are exactly: mutex lock, memory
manager lock, memory manager unlock, mutex unlock. -/
theorem open_lock_order (env : Env) (m : Manager) (t i : CString) (mem : Option Chunk) :
    (lock_order_ok (m.mutex, m.memmgr_locked) (openForReading env m t i mem).events = true ∧
      (releases_both (openForReading env m t i mem).result = true →
        (openForReading env m t i mem).events =
          [.mutex_lock, .memmgr_lock, .memmgr_unlock, .mutex_unlock])) ∧
    (lock_order_ok (m.mutex, m.memmgr_locked) (openForWriting env m t i mem).events = true ∧
      (releases_both (openForWriting env m t i mem).result = true →
        (openForWriting env m t i mem).events =
          [.mutex_lock, .memmgr_lock, .memmgr_unlock, .mutex_unlock])) :=
  ⟨⟨(openForReading_cases env m t i mem).1, (openForReading_cases env m t i mem).2.1⟩,
    ⟨(openForWriting_cases env m t i mem).1, (openForWriting_cases env m t i mem).2.1⟩⟩

/-- C27 (amended): an open that throws leaves the instance serial counter
as it was, except that an open that throws `OutOfMemoryException` leaves it
advanced by one (modulo `2 ^ 32`): the serial that `newInterfaceInstance`
took before the allocation was tried is not given back. -/
theorem failed_open_instance_serial (env : Env) (s : Sys) (c : Call) (e : Exc)
    (h : open_result env s c = some (.raised e)) :
    (step env s c).mgr.instance_serial =
      if e = .OutOfMemoryException then (s.mgr.instance_serial + 1) % 2 ^ 32
      else s.mgr.instance_serial := by
  cases c with
  | openForReading t i mem =>
    simp only [open_result, Option.some.injEq] at h
    exact ((openForReading_cases env s.mgr t i mem).2.2.2.1 e h).2
  | openForWriting t i mem =>
    simp only [open_result, Option.some.injEq] at h
    exact ((openForWriting_cases env s.mgr t i mem).2.2.1 e h).2
  | close x => simp [open_result] at h

/-- Witness of C27 (amended): on a new master manager an open of
`LaserInterface` `Laser0` without memory leaves the counter at 2. -/
theorem failed_open_instance_serial_witness :
    open_result laser_env (Sys.init true) (.openForReading LaserInterface Laser0 none) =
      some (.raised .OutOfMemoryException) ∧
    (step laser_env (Sys.init true)
      (.openForReading LaserInterface Laser0 none)).mgr.instance_serial = 2 :=
  ⟨by decide,
    failed_open_instance_serial laser_env (Sys.init true)
      (.openForReading LaserInterface Laser0 none) .OutOfMemoryException (by decide)⟩

/-- C28: in every state reached by opens and closes on a master manager,
`rwlocks` has a lock for the serial of every live chunk, and an
`openForReading` or `openForWriting` made in that state (the allocator
returning no live address) dereferences no `NULL` pointer and returns, when
it returns, an interface whose `rwlock` is not `NULL`. -/
theorem rwlock_entry_for_live_chunks (env : Env) (calls : List Call)
    (hv : valid_run env (Sys.init true) calls = true) :
    (∀ c ∈ (run env (Sys.init true) calls).mgr.chunks,
      ∃ lock, map_find (run env (Sys.init true) calls).mgr.rwlocks c.hdr.serial =
        some (some lock)) ∧
    ∀ (t i : CString) (mem : Option Chunk),
      alloc_ok (run env (Sys.init true) calls).mgr.chunks mem = true →
      ((openForReading env (run env (Sys.init true) calls).mgr t i mem).result ≠ .undefined ∧
        ∀ h, (openForReading env (run env (Sys.init true) calls).mgr t i mem).result = .ok h →
          ∃ lock, h.rwlock = some lock) ∧
      ((openForWriting env (run env (Sys.init true) calls).mgr t i mem).result ≠ .undefined ∧
        ∀ h, (openForWriting env (run env (Sys.init true) calls).mgr t i mem).result = .ok h →
          ∃ lock, h.rwlock = some lock) := by
  have hinv := Inv_reachable env true calls hv
  refine ⟨hinv.rwlock_present, fun t i mem ha => ⟨⟨?_, ?_⟩, ?_⟩⟩
  · exact (openForReading_ok_cases env _ t i mem hinv.rwlock_present ha).1
  · intro h hok
    exact ((openForReading_ok_cases env _ t i mem hinv.rwlock_present ha).2 h hok).1
  · exact openForWriting_defined env _ t i mem hinv.rwlock_present ha

/-- Witness of C28: with two readers of `LaserInterface` `Laser0` open, the
chunk with serial 1 is live and `rwlocks` has a lock for every live
chunk. -/
theorem rwlock_entry_for_live_chunks_witness :
    valid_run laser_env (Sys.init true) two_readers_calls = true ∧
    (run laser_env (Sys.init true) two_readers_calls).mgr.chunks =
      [⟨100, ⟨LaserInterface, Laser0, false, 2, 1⟩⟩] ∧
    ∀ c ∈ (run laser_env (Sys.init true) two_readers_calls).mgr.chunks,
      ∃ lock, map_find (run laser_env (Sys.init true) two_readers_calls).mgr.rwlocks
        c.hdr.serial = some (some lock) :=
  ⟨by decide, by decide,
    (rwlock_entry_for_live_chunks laser_env two_readers_calls (by decide)).1⟩

/-- What an open followed by a close restores: in every state reached by
opens and closes on a master manager, a successful `openForReading` (the allocator returning no live address)
followed by `close` of the interface returned gives a state whose list of
live chunks, with addresses and headers, and whose writer registry are
those before the open, while the instance serial counter has advanced by
one; `close` runs to its end or to the exception of
`deleteInterfaceInstance`. -/
theorem open_close_round_trip (env : Env) (calls : List Call) (t i : CString)
    (mem : Option Chunk) (h : Interface)
    (hv : valid_run env (Sys.init true) calls = true)
    (ha : alloc_ok (run env (Sys.init true) calls).mgr.chunks mem = true)
    (hok : (openForReading env (run env (Sys.init true) calls).mgr t i mem).result = .ok h) :
    (close env (openForReading env (run env (Sys.init true) calls).mgr t i mem).mgr h).mgr.chunks =
      (run env (Sys.init true) calls).mgr.chunks ∧
    (close env (openForReading env (run env (Sys.init true) calls).mgr t i
        mem).mgr h).mgr.writer_interfaces =
      (run env (Sys.init true) calls).mgr.writer_interfaces ∧
    (close env (openForReading env (run env (Sys.init true) calls).mgr t i
        mem).mgr h).mgr.instance_serial =
      ((run env (Sys.init true) calls).mgr.instance_serial + 1) % 2 ^ 32 ∧
    ((close env (openForReading env (run env (Sys.init true) calls).mgr t i
        mem).mgr h).result = .ok () ∨
      (close env (openForReading env (run env (Sys.init true) calls).mgr t i
        mem).mgr h).result = .raised .BlackBoardInterfaceNotFoundException) := by
  have hinv := Inv_reachable env true calls hv
  have hpos := refcount_pos_run env calls (Sys.init true) (Inv_init env true)
    (by simp [Sys.init, Manager.init]) hv
  exact open_close_mgr env _ t i mem h hinv.ptr_inj hinv.rwlock_present hpos ha hok

/-- An instance of `open_close_round_trip`: a writer of `LaserInterface`
`Laser0` is open; a reader of `Laser0` is opened and closed again. -/
theorem open_close_round_trip_witness :
    valid_run laser_env (Sys.init true)
      [.openForWriting LaserInterface Laser0 (some (zero_chunk 100))] = true ∧
    (openForReading laser_env (run laser_env (Sys.init true)
      [.openForWriting LaserInterface Laser0 (some (zero_chunk 100))]).mgr
      LaserInterface Laser0 none).result = .ok (laser_reader 2) ∧
    (close laser_env (openForReading laser_env (run laser_env (Sys.init true)
      [.openForWriting LaserInterface Laser0 (some (zero_chunk 100))]).mgr
      LaserInterface Laser0 none).mgr (laser_reader 2)).mgr.chunks =
      (run laser_env (Sys.init true)
        [.openForWriting LaserInterface Laser0 (some (zero_chunk 100))]).mgr.chunks ∧
    (close laser_env (openForReading laser_env (run laser_env (Sys.init true)
      [.openForWriting LaserInterface Laser0 (some (zero_chunk 100))]).mgr
      LaserInterface Laser0 none).mgr (laser_reader 2)).mgr.writer_interfaces =
      (run laser_env (Sys.init true)
        [.openForWriting LaserInterface Laser0 (some (zero_chunk 100))]).mgr.writer_interfaces :=
  ⟨by decide, by decide,
    (open_close_round_trip laser_env
      [.openForWriting LaserInterface Laser0 (some (zero_chunk 100))]
      LaserInterface Laser0 none (laser_reader 2) (by decide) (by decide) (by decide)).1,
    (open_close_round_trip laser_env
      [.openForWriting LaserInterface Laser0 (some (zero_chunk 100))]
      LaserInterface Laser0 none (laser_reader 2) (by decide) (by decide) (by decide)).2.1⟩

/-- C9, the code at the failing input: the module has no destroyer for
`LaserInterface`; a reader and a writer of `Laser0` are open and the writer
is closed.  The chunk stays live with reference count 1 and
`flag_writer_active` cleared and the registry entry for mem serial 1 is
gone, but `close` throws `BlackBoardInterfaceNotFoundException` with the
manager mutex held, and the following `openForWriting` of `LaserInterface`
`Laser0` never gets the mutex.  The same happens with a module that exports
generator and destroyer of a type name of 33 characters, because the
destroyer is looked up under the 32 characters kept in the interface. -/
theorem openForWriting_blocked_after_close_writer :
    valid_run laser_new_only_env (Sys.init true) reader_writer_calls = true ∧
    (run laser_new_only_env (Sys.init true) reader_writer_calls).handles =
      [laser_writer 2, laser_reader 1] ∧
    (run laser_new_only_env (Sys.init true) reader_writer_calls).mgr.chunks =
      [⟨100, ⟨LaserInterface, Laser0, true, 2, 1⟩⟩] ∧
    (close laser_new_only_env (run laser_new_only_env (Sys.init true) reader_writer_calls).mgr
      (laser_writer 2)).result = .raised .BlackBoardInterfaceNotFoundException ∧
    (close laser_new_only_env (run laser_new_only_env (Sys.init true) reader_writer_calls).mgr
      (laser_writer 2)).mgr.chunks = [⟨100, ⟨LaserInterface, Laser0, false, 1, 1⟩⟩] ∧
    map_find (close laser_new_only_env
      (run laser_new_only_env (Sys.init true) reader_writer_calls).mgr
      (laser_writer 2)).mgr.writer_interfaces 1 = none ∧
    (close laser_new_only_env (run laser_new_only_env (Sys.init true) reader_writer_calls).mgr
      (laser_writer 2)).mgr.mutex = true ∧
    (openForWriting laser_new_only_env
      (close laser_new_only_env (run laser_new_only_env (Sys.init true) reader_writer_calls).mgr
        (laser_writer 2)).mgr LaserInterface Laser0 none).result = .blocked ∧
    hasSymbol long_env ("delete".toList ++ LongInterfaceA) = true ∧
    valid_run long_env (Sys.init true) long_reader_writer_calls = true ∧
    long_writer ∈ (run long_env (Sys.init true) long_reader_writer_calls).handles ∧
    (close long_env (run long_env (Sys.init true) long_reader_writer_calls).mgr
      long_writer).result = .raised .BlackBoardInterfaceNotFoundException ∧
    (openForWriting long_env
      (close long_env (run long_env (Sys.init true) long_reader_writer_calls).mgr
        long_writer).mgr LongInterfaceA Nav0 none).result = .blocked := by
  decide

/-- C19, counterexample: on a new master manager the instance serial
counter is 1.  After `2 ^ 32 - 2 = 4294967294` opens that fail for lack of
memory it is `2 ^ 32 - 1`, and the next open, the last of `2 ^ 32 - 1`
opens, takes it down to 0. -/
theorem instance_serial_wraps :
    (Sys.init true).mgr.instance_serial = 1 ∧
    count_opens (out_of_memory_calls 4294967295) = 2 ^ 32 - 1 ∧
    valid_run laser_env (Sys.init true) (out_of_memory_calls 4294967295) = true ∧
    out_of_memory_calls 4294967295 =
      out_of_memory_calls 4294967294 ++ [.openForReading LaserInterface Laser0 none] ∧
    (run laser_env (Sys.init true) (out_of_memory_calls 4294967294)).mgr.instance_serial =
      4294967295 ∧
    (run laser_env (Sys.init true) (out_of_memory_calls 4294967295)).mgr.instance_serial =
      0 :=
  ⟨rfl, count_opens_out_of_memory_calls 4294967295, valid_run_out_of_memory_calls 4294967295,
    out_of_memory_calls_succ 4294967294, run_out_of_memory_calls 4294967294,
    run_out_of_memory_calls 4294967295⟩

/-- C29, the code at the failing input: on a new master manager
`LaserInterface` `Laser0` is opened for reading and the interface is closed
again.  Live chunks and writer registry are as before (none), but `rwlocks`
now has an entry for serial 1 and the lock object created for the chunk
still exists with one holder; and when the module has no destroyer for the
type, the manager mutex is held after the `close`. -/
theorem open_close_leaves_lock_behind :
    (Manager.init true).rwlocks = [] ∧ (Manager.init true).lock_heap = [] ∧
    (Manager.init true).mutex = false ∧
    alloc_ok (Manager.init true).chunks (some (zero_chunk 100)) = true ∧
    (openForReading laser_env (Manager.init true) LaserInterface Laser0
      (some (zero_chunk 100))).result = .ok (laser_reader 1) ∧
    (close laser_env (openForReading laser_env (Manager.init true) LaserInterface Laser0
      (some (zero_chunk 100))).mgr (laser_reader 1)).result = .ok () ∧
    (close laser_env (openForReading laser_env (Manager.init true) LaserInterface Laser0
      (some (zero_chunk 100))).mgr (laser_reader 1)).mgr.chunks = [] ∧
    (close laser_env (openForReading laser_env (Manager.init true) LaserInterface Laser0
      (some (zero_chunk 100))).mgr (laser_reader 1)).mgr.writer_interfaces = [] ∧
    (close laser_env (openForReading laser_env (Manager.init true) LaserInterface Laser0
      (some (zero_chunk 100))).mgr (laser_reader 1)).mgr.rwlocks = [(1, some 0)] ∧
    (close laser_env (openForReading laser_env (Manager.init true) LaserInterface Laser0
      (some (zero_chunk 100))).mgr (laser_reader 1)).mgr.lock_heap = [1] ∧
    (openForReading laser_new_only_env (Manager.init true) LaserInterface Laser0
      (some (zero_chunk 100))).result = .ok (laser_reader 1) ∧
    (close laser_new_only_env (openForReading laser_new_only_env (Manager.init true)
      LaserInterface Laser0 (some (zero_chunk 100))).mgr (laser_reader 1)).mgr.mutex = true := by
  decide

end Fawkes
